import Mathlib

/-!
Verification development for the BetterCodeWiki core text-recovery pipelines:
the wiki-structure parser/serializer (`api/wiki_structure_parser.py`) and the
diagram-data extractor (`api/diagram_extract.py`).  Python functions are
shallowly embedded as executable Lean definitions over `List Char` / `String`;
Python dicts holding the canonical wiki structure are embedded as records.
-/

namespace BCW

set_option maxRecDepth 10000

/-! ### Character classes (Python `re` / `str` semantics, ASCII range) -/

/-- Python `\s` (ASCII part): the whitespace class used by `re` and `str.strip`. -/
def isPySpace (c : Char) : Bool :=
  c = ' ' || c = '\t' || c = '\n' || c = '\r' || c = '\x0b' || c = '\x0c'

/-- Python `\w` (ASCII part): word characters. -/
def isWordChar (c : Char) : Bool :=
  c.isAlphanum || c = '_'

/-- The four shape-opening brackets of the Mermaid node regex `[\[\(\{<]`. -/
def isMermaidBracket (c : Char) : Bool :=
  c = '[' || c = '(' || c = '{' || c = '<'

/-- Python `str.strip()` on the left. -/
def pyStripLeft (cs : List Char) : List Char := cs.dropWhile isPySpace

/-- Python `str.strip()`: drop leading and trailing whitespace. -/
def pyStripChars (cs : List Char) : List Char :=
  ((cs.dropWhile isPySpace).reverse.dropWhile isPySpace).reverse

/-- Python `str.strip()` lifted to `String`. -/
def pyStrip (s : String) : String := (pyStripChars s.data).asString

/-! ### Mermaid node counting (`diagram_extract._count_mermaid_nodes`)

The Python code runs `re.findall(r'\b(\w+)\s*[\[\(\{<]', src)`, puts the
captures in a set, removes keywords, and returns the size.  The scanner below
models the regex engine's left-to-right, non-overlapping scan: a match is a
maximal word-character run starting at a word boundary, followed by optional
whitespace and one of the four brackets; on success the scan resumes after the
bracket, on failure after the run. -/

/-- Keyword exclusion set from `_MERMAID_KEYWORDS`. -/
def mermaidKeywords : List String :=
  ["graph", "flowchart", "sequenceDiagram", "classDiagram", "erDiagram",
   "TD", "TB", "LR", "RL", "BT", "subgraph", "end", "style", "class",
   "click", "linkStyle", "classDef"]

/-- All captures of `\b(\w+)\s*[\[\(\{<]` in scan order (regex-engine model):
a match is a maximal run of word characters (the `\b` requires a boundary, and
the greedy `\w+` cannot stop early because the next char would still be a word
char), followed by optional whitespace and a bracket; the scan resumes after
the bracket on success and after the run on failure.  Fuel-indexed; every step
consumes at least one character, so `length + 1` fuel is always enough. -/
def mermaidMatchesF : Nat → List Char → List String
  | 0, _ => []
  | _ + 1, [] => []
  | fuel + 1, c :: rest =>
    if isWordChar c then
      let after := rest.dropWhile isWordChar
      let gap := after.dropWhile isPySpace
      if isMermaidBracket (gap.headD '\x00') then
        (c :: rest.takeWhile isWordChar).asString :: mermaidMatchesF fuel gap.tail
      else mermaidMatchesF fuel after
    else mermaidMatchesF fuel rest

def mermaidMatches (cs : List Char) : List String :=
  mermaidMatchesF (cs.length + 1) cs

/-- `_count_mermaid_nodes`: distinct non-keyword captures. -/
def countMermaidNodes (src : String) : Nat :=
  (((mermaidMatches src.data).filter
      (fun m => decide (m ∉ mermaidKeywords))).dedup).length

/-- `_validate_simplified(simplified, full)`: reject iff the simplified source
has strictly more counted nodes than the full one. -/
def validateSimplified (simplified full : String) : Bool :=
  if countMermaidNodes simplified > countMermaidNodes full then false else true

/-! ### Spec-level node counting

`specMermaidCount` follows the specification's words: "distinct identifiers in
source that occur at a word boundary immediately followed by one of `[ ( { <`",
with a switch `allowGap` for the variant that tolerates whitespace between the
identifier and the bracket.  It enumerates all maximal word-character runs
(each such run starts at a word boundary) together with the text that follows
them, and keeps a run when the bracket requirement holds. -/

/-- All maximal word-character runs of a string, each paired with the
remaining text after the run (fuel-indexed). -/
def wordRunsWithRestF : Nat → List Char → List (List Char × List Char)
  | 0, _ => []
  | _ + 1, [] => []
  | fuel + 1, c :: rest =>
    if isWordChar c then
      (c :: rest.takeWhile isWordChar, rest.dropWhile isWordChar) ::
        wordRunsWithRestF fuel (rest.dropWhile isWordChar)
    else wordRunsWithRestF fuel rest

def wordRunsWithRest (cs : List Char) : List (List Char × List Char) :=
  wordRunsWithRestF (cs.length + 1) cs

/-- Spec reading: identifiers occurring at a word boundary followed
(immediately when `allowGap = false`, possibly after whitespace when
`allowGap = true`) by one of the four shape brackets. -/
def specMermaidIds (allowGap : Bool) (cs : List Char) : List String :=
  (wordRunsWithRest cs).filterMap (fun p =>
    let r := if allowGap then p.2.dropWhile isPySpace else p.2
    match r with
    | b :: _ => if isMermaidBracket b then some p.1.asString else none
    | [] => none)

/-- Spec-level count: distinct qualifying identifiers minus keywords. -/
def specMermaidCount (allowGap : Bool) (src : String) : Nat :=
  (((specMermaidIds allowGap src.data).filter
      (fun m => decide (m ∉ mermaidKeywords))).dedup).length

/-! ### JSON values and `json.loads`

A model of Python's `json.loads` over `List Char`.  Numbers are kept exactly
as `mantissa * 10 ^ exp10` (Python produces `int` for integer literals and
`float` otherwise; the distinction `exp10 < 0`-with-nondivisible-mantissa vs
integral value is what the schema validation needs).  Divergences from CPython,
none of which are exercised by any theorem below: non-standard `Infinity` /
`NaN` literals are rejected, unpaired `\uXXXX` surrogates map through
`Char.ofNat`, and float rounding is not modelled (values stay exact). -/

inductive Json where
  | null : Json
  | bool : Bool → Json
  | num : Int → Int → Json
  | str : String → Json
  | arr : List Json → Json
  | obj : List (String × Json) → Json

/-- JSON whitespace accepted by `json.loads` between tokens. -/
def isJsonWs (c : Char) : Bool :=
  c = ' ' || c = '\t' || c = '\n' || c = '\r'

def jsonSkipWs (cs : List Char) : List Char := cs.dropWhile isJsonWs

def hexVal? (c : Char) : Option Nat :=
  if c.isDigit then some (c.toNat - 48)
  else if 'a' ≤ c && c ≤ 'f' then some (c.toNat - 87)
  else if 'A' ≤ c && c ≤ 'F' then some (c.toNat - 55)
  else none

def hex4? (a b c d : Char) : Option Nat := do
  let x1 ← hexVal? a
  let x2 ← hexVal? b
  let x3 ← hexVal? c
  let x4 ← hexVal? d
  pure (((x1 * 16 + x2) * 16 + x3) * 16 + x4)

/-- Parse the body of a JSON string literal (after the opening quote),
returning the decoded content and the rest after the closing quote. -/
def jsonStringRest : Nat → List Char → Option (List Char × List Char)
  | 0, _ => none
  | _ + 1, [] => none
  | _ + 1, '"' :: rest => some ([], rest)
  | fuel + 1, '\\' :: esc =>
    match esc with
    | '"' :: r => (jsonStringRest fuel r).map (fun p => ('"' :: p.1, p.2))
    | '\\' :: r => (jsonStringRest fuel r).map (fun p => ('\\' :: p.1, p.2))
    | '/' :: r => (jsonStringRest fuel r).map (fun p => ('/' :: p.1, p.2))
    | 'b' :: r => (jsonStringRest fuel r).map (fun p => ('\x08' :: p.1, p.2))
    | 'f' :: r => (jsonStringRest fuel r).map (fun p => ('\x0c' :: p.1, p.2))
    | 'n' :: r => (jsonStringRest fuel r).map (fun p => ('\n' :: p.1, p.2))
    | 'r' :: r => (jsonStringRest fuel r).map (fun p => ('\r' :: p.1, p.2))
    | 't' :: r => (jsonStringRest fuel r).map (fun p => ('\t' :: p.1, p.2))
    | 'u' :: h1 :: h2 :: h3 :: h4 :: r =>
      match hex4? h1 h2 h3 h4 with
      | none => none
      | some n =>
        if 0xD800 ≤ n && n ≤ 0xDBFF then
          match r with
          | '\\' :: 'u' :: g1 :: g2 :: g3 :: g4 :: r2 =>
            match hex4? g1 g2 g3 g4 with
            | none => none
            | some m =>
              if 0xDC00 ≤ m && m ≤ 0xDFFF then
                (jsonStringRest fuel r2).map (fun p =>
                  (Char.ofNat (0x10000 + (n - 0xD800) * 0x400 + (m - 0xDC00)) :: p.1, p.2))
              else (jsonStringRest fuel r).map (fun p => (Char.ofNat n :: p.1, p.2))
          | _ => (jsonStringRest fuel r).map (fun p => (Char.ofNat n :: p.1, p.2))
        else (jsonStringRest fuel r).map (fun p => (Char.ofNat n :: p.1, p.2))
    | _ => none
  | fuel + 1, c :: rest =>
    if c.toNat < 0x20 then none
    else (jsonStringRest fuel rest).map (fun p => (c :: p.1, p.2))

def digitsToNat (ds : List Char) : Nat :=
  ds.foldl (fun a c => a * 10 + (c.toNat - 48)) 0

/-- Parse a JSON number per RFC 8259 (what `json.loads` accepts, minus the
non-standard `Infinity`/`NaN`), as `(mantissa, exp10)` plus the rest. -/
def jsonNumber (cs : List Char) : Option ((Int × Int) × List Char) :=
  let (neg, cs1) := match cs with
    | '-' :: r => (true, r)
    | _ => (false, cs)
  let ds := cs1.takeWhile Char.isDigit
  let r2 := cs1.dropWhile Char.isDigit
  if ds = [] then none
  else if ds.headD '0' = '0' && ds.length > 1 then none
  else
    let (fds, r4) := match r2 with
      | '.' :: r3 =>
        (r3.takeWhile Char.isDigit, r3.dropWhile Char.isDigit)
      | _ => ([], r2)
    if r2 ≠ [] && r2.headD ' ' = '.' && fds = [] then none
    else
      let mant : Int := Int.ofNat (digitsToNat (ds ++ fds))
      let mant := if neg then -mant else mant
      match r4 with
      | 'e' :: r5 => jsonNumberExp mant fds.length r5
      | 'E' :: r5 => jsonNumberExp mant fds.length r5
      | _ => some ((mant, -(Int.ofNat fds.length)), r4)
where
  jsonNumberExp (mant : Int) (fracLen : Nat) (r5 : List Char) :
      Option ((Int × Int) × List Char) :=
    let (eneg, r6) := match r5 with
      | '-' :: r => (true, r)
      | '+' :: r => (false, r)
      | _ => (false, r5)
    let eds := r6.takeWhile Char.isDigit
    let r7 := r6.dropWhile Char.isDigit
    if eds = [] then none
    else
      let ev : Int := Int.ofNat (digitsToNat eds)
      let ev := if eneg then -ev else ev
      some ((mant, ev - Int.ofNat fracLen), r7)

mutual

/-- `json.loads` value parser (fuel-indexed). -/
def jsonValue : Nat → List Char → Option (Json × List Char)
  | 0, _ => none
  | fuel + 1, cs =>
    match jsonSkipWs cs with
    | 'n' :: 'u' :: 'l' :: 'l' :: r => some (.null, r)
    | 't' :: 'r' :: 'u' :: 'e' :: r => some (.bool true, r)
    | 'f' :: 'a' :: 'l' :: 's' :: 'e' :: r => some (.bool false, r)
    | '"' :: r =>
      (jsonStringRest (r.length + 1) r).map (fun p => (.str p.1.asString, p.2))
    | '[' :: r => (jsonArrayItems fuel r).map (fun p => (.arr p.1, p.2))
    | '{' :: r => (jsonObjItems fuel r).map (fun p => (.obj p.1, p.2))
    | cs' => (jsonNumber cs').map (fun p => (.num p.1.1 p.1.2, p.2))

/-- Array items after `[` (or after a comma). -/
def jsonArrayItems : Nat → List Char → Option (List Json × List Char)
  | 0, _ => none
  | fuel + 1, cs =>
    match jsonSkipWs cs with
    | ']' :: r => some ([], r)
    | cs' =>
      match jsonValue fuel cs' with
      | none => none
      | some (v, rest) =>
        match jsonSkipWs rest with
        | ',' :: r2 =>
          (jsonArrayItemsNE fuel r2).map (fun p => (v :: p.1, p.2))
        | ']' :: r2 => some ([v], r2)
        | _ => none

/-- Array items after a comma: at least one item required. -/
def jsonArrayItemsNE : Nat → List Char → Option (List Json × List Char)
  | 0, _ => none
  | fuel + 1, cs =>
    match jsonValue fuel cs with
    | none => none
    | some (v, rest) =>
      match jsonSkipWs rest with
      | ',' :: r2 => (jsonArrayItemsNE fuel r2).map (fun p => (v :: p.1, p.2))
      | ']' :: r2 => some ([v], r2)
      | _ => none

/-- Object members after `{`. -/
def jsonObjItems : Nat → List Char → Option (List (String × Json) × List Char)
  | 0, _ => none
  | fuel + 1, cs =>
    match jsonSkipWs cs with
    | '}' :: r => some ([], r)
    | cs' => jsonObjItemsNE fuel cs'

/-- Object members, at least one required. -/
def jsonObjItemsNE : Nat → List Char → Option (List (String × Json) × List Char)
  | 0, _ => none
  | fuel + 1, cs =>
    match jsonSkipWs cs with
    | '"' :: r =>
      match jsonStringRest (r.length + 1) r with
      | none => none
      | some (key, rest) =>
        match jsonSkipWs rest with
        | ':' :: r2 =>
          match jsonValue fuel r2 with
          | none => none
          | some (v, rest2) =>
            match jsonSkipWs rest2 with
            | ',' :: r3 =>
              (jsonObjItemsNE fuel r3).map (fun p => ((key.asString, v) :: p.1, p.2))
            | '}' :: r3 => some ([(key.asString, v)], r3)
            | _ => none
        | _ => none
    | _ => none

end

/-- `json.loads`: parse a complete document, allowing surrounding whitespace,
and fail on trailing content. -/
def jsonLoads (cs : List Char) : Option Json :=
  match jsonValue (2 * cs.length + 2) cs with
  | some (v, rest) => if jsonSkipWs rest = [] then some v else none
  | none => none

/-- `dict.get` for a JSON object parsed by `json.loads`: later duplicate keys
overwrite earlier ones, so the last binding wins. -/
def jget (kvs : List (String × Json)) (k : String) : Option Json :=
  ((kvs.filter (fun p => p.1 == k)).getLast?).map (fun p => p.2)

/-- Python truthiness of a JSON-derived value. -/
def jTruthy : Json → Bool
  | .null => false
  | .bool b => b
  | .num m _ => m ≠ 0
  | .str s => s ≠ ""
  | .arr xs => !xs.isEmpty
  | .obj kvs => !kvs.isEmpty

/-! ### Diagram data schema (`api/diagram_schema.py`)

Pydantic-v2 models embedded as records; `validateDiagram*` model pydantic's
(default, lax-mode) validation: required fields must be present, `str` fields
accept only JSON strings, `int` fields accept integral numbers (and digit
strings, which lax mode coerces), `Optional[...]` fields accept `null` or the
payload type, `Literal[...]` fields accept exactly the listed strings, unknown
keys are ignored, and defaults fill in for missing keys. -/

structure DiagramNode where
  id : String
  label : String
  technology : Option String
  files : List String
  description : Option String
  depth : Int
deriving DecidableEq, Repr

structure DiagramEdge where
  source : String
  target : String
  label : Option String
  type : String
deriving DecidableEq, Repr

structure DiagramData where
  nodes : List DiagramNode
  edges : List DiagramEdge
  mermaidSource : String
  diagramType : String
  layerLevel : Option Int
  simplifiedMermaidSource : Option String
deriving DecidableEq, Repr

/-- Validate a `str` field. -/
def vStr : Json → Option String
  | .str s => some s
  | _ => none

/-- Validate an `Optional[str]` field (value present). -/
def vOptStr : Json → Option (Option String)
  | .null => some none
  | .str s => some (some s)
  | _ => none

/-- Digit-string to integer, for pydantic's lax `str -> int` coercion. -/
def strToInt? (s : String) : Option Int :=
  match s.data with
  | '-' :: ds => if ds ≠ [] && ds.all Char.isDigit
      then some (-(Int.ofNat (digitsToNat ds))) else none
  | ds => if ds ≠ [] && ds.all Char.isDigit
      then some (Int.ofNat (digitsToNat ds)) else none

/-- Validate an `int` field: integral numbers and digit strings pass. -/
def vInt : Json → Option Int
  | .num m e =>
    if 0 ≤ e then some (m * (10 : Int) ^ e.toNat)
    else if ((10 : Int) ^ (-e).toNat) ∣ m then some (m / (10 : Int) ^ (-e).toNat)
    else none
  | .str s => strToInt? s
  | _ => none

/-- Validate a `List[str]` field. -/
def vStrList : Json → Option (List String)
  | .arr xs => xs.mapM vStr
  | _ => none

def edgeTypeLiterals : List String := ["dependency", "data_flow", "api_call"]

def diagramTypeLiterals : List String := ["flowchart", "sequence", "class", "er"]

def validateDiagramNode : Json → Option DiagramNode
  | .obj kvs => do
    let id ← (jget kvs "id").bind vStr
    let label ← (jget kvs "label").bind vStr
    let technology ← match jget kvs "technology" with
      | none => some none
      | some v => vOptStr v
    let files ← match jget kvs "files" with
      | none => some []
      | some v => vStrList v
    let description ← match jget kvs "description" with
      | none => some none
      | some v => vOptStr v
    let depth ← match jget kvs "depth" with
      | none => some 0
      | some v => vInt v
    pure { id := id, label := label, technology := technology,
           files := files, description := description, depth := depth }
  | _ => none

def validateDiagramEdge : Json → Option DiagramEdge
  | .obj kvs => do
    let source ← (jget kvs "source").bind vStr
    let target ← (jget kvs "target").bind vStr
    let label ← match jget kvs "label" with
      | none => some none
      | some v => vOptStr v
    let ty ← match jget kvs "type" with
      | none => some "dependency"
      | some v => match vStr v with
        | some s => if s ∈ edgeTypeLiterals then some s else none
        | none => none
    pure { source := source, target := target, label := label, type := ty }
  | _ => none

/-- `DiagramData(**data)` followed by `model_dump()`. -/
def validateDiagramData : Json → Option DiagramData
  | .obj kvs => do
    let nodes ← match jget kvs "nodes" with
      | some (.arr xs) => xs.mapM validateDiagramNode
      | _ => none
    let edges ← match jget kvs "edges" with
      | some (.arr xs) => xs.mapM validateDiagramEdge
      | _ => none
    let mermaidSource ← (jget kvs "mermaidSource").bind vStr
    let diagramType ← match jget kvs "diagramType" with
      | none => some "flowchart"
      | some v => match vStr v with
        | some s => if s ∈ diagramTypeLiterals then some s else none
        | none => none
    let layerLevel ← match jget kvs "layerLevel" with
      | none => some none
      | some .null => some none
      | some v => (vInt v).map some
    let simplified ← match jget kvs "simplifiedMermaidSource" with
      | none => some none
      | some v => vOptStr v
    pure { nodes := nodes, edges := edges, mermaidSource := mermaidSource,
           diagramType := diagramType, layerLevel := layerLevel,
           simplifiedMermaidSource := simplified }
  | _ => none

/-! ### Diagram block extraction (`diagram_extract.extract_diagram_data`) -/

def startMarker : List Char := "<!-- DIAGRAM_DATA_START -->".data

def endMarker : List Char := "<!-- DIAGRAM_DATA_END -->".data

/-- Is `pat` a prefix of `cs`? -/
def hasPrefixCL : List Char → List Char → Bool
  | [], _ => true
  | _ :: _, [] => false
  | p :: ps, c :: cs => p = c && hasPrefixCL ps cs

/-- Split at the first occurrence of `pat`: `(before, after-the-pattern)`. -/
def splitFirst (pat : List Char) : List Char → Option (List Char × List Char)
  | [] => if hasPrefixCL pat [] then some ([], []) else none
  | c :: rest =>
    if hasPrefixCL pat (c :: rest) then some ([], (c :: rest).drop pat.length)
    else (splitFirst pat rest).map (fun p => (c :: p.1, p.2))

/-- All captures of the `START \s*(.*?)\s* END` pattern (DOTALL, non-greedy),
in source order: the text between a start marker and the first end marker
after it, with surrounding whitespace stripped (the leading greedy `\s*` and
the trailing lazy `.*?`-plus-`\s*` strip exactly the edges). -/
def diagramBlocksF : Nat → List Char → List (List Char)
  | 0, _ => []
  | fuel + 1, cs =>
    match splitFirst startMarker cs with
    | none => []
    | some (_, rest1) =>
      match splitFirst endMarker rest1 with
      | none => []
      | some (mid, rest2) => pyStripChars mid :: diagramBlocksF fuel rest2

def diagramBlocks (cs : List Char) : List (List Char) :=
  diagramBlocksF (cs.length + 1) cs

/-- Per-record post-validation step: when both a full and a (truthy) simplified
source are present and the node-count check fails, only the simplified field is
nulled; the record is kept. -/
def fixSimplified (d : DiagramData) : DiagramData :=
  match d.simplifiedMermaidSource with
  | some s =>
    if s ≠ "" && d.mermaidSource ≠ "" then
      if validateSimplified s d.mermaidSource then d
      else { d with simplifiedMermaidSource := none }
    else d
  | none => d

/-- Processing of one delimited block: parse JSON, validate, fix simplified.
`none` models the Python per-block `except` that drops the block. -/
def processBlock (b : List Char) : Option DiagramData :=
  match jsonLoads b with
  | none => none
  | some j =>
    match validateDiagramData j with
    | none => none
    | some d => some (fixSimplified d)

/-- `extract_diagram_data`: loop over all delimited blocks, appending each
surviving record to the result list (invalid blocks are skipped, never raise). -/
def extract_diagram_data (content : String) : List DiagramData :=
  (diagramBlocks content.data).foldl
    (fun results b =>
      match processBlock b with
      | some d => results ++ [d]
      | none => results) []

/-! ### XML trees and an `xml.etree.ElementTree` model

`etFromstring` models `ET.fromstring` on the fragment language this repository
feeds it: elements with double- or single-quoted attributes, character data,
and the five named plus numeric character references.  Expat's newline
normalisation (`\r\n`/`\r` to `\n`) and attribute-value whitespace
normalisation are included.  Comments, processing instructions, doctypes and
CDATA sections are not modelled (the parser fails on them; nothing in the
repository's wire format or in the inputs used by any theorem contains them).
Evaluation-side functions are fuel-indexed so that concrete runs reduce in the
kernel. -/

inductive XmlNode where
  | elem : String → List (String × String) → List XmlNode → XmlNode
  | text : String → XmlNode

def isXmlSpace (c : Char) : Bool :=
  c = ' ' || c = '\t' || c = '\n' || c = '\r'

def isNameChar (c : Char) : Bool :=
  c.isAlphanum || c = '_' || c = '-' || c = '.' || c = ':'

/-- Expat newline normalisation: `\r\n` and bare `\r` become `\n`. -/
def normalizeLines : List Char → List Char
  | [] => []
  | c :: rest =>
    if c = '\r' then
      if rest.headD '\x00' = '\n' then normalizeLines rest
      else '\n' :: normalizeLines rest
    else c :: normalizeLines rest

/-- Is a code point a legal XML character reference target? -/
def isValidXmlCodePoint (n : Nat) : Bool :=
  n = 0x9 || n = 0xA || n = 0xD ||
  (0x20 ≤ n && n ≤ 0xD7FF) ||
  (0xE000 ≤ n && n ≤ 0xFFFD) ||
  (0x10000 ≤ n && n ≤ 0x10FFFF)

/-- Decode one entity after `&`; returns the character and the rest after `;`. -/
def decodeEntity (cs : List Char) : Option (Char × List Char) :=
  match cs with
  | 'a' :: 'm' :: 'p' :: ';' :: r => some ('&', r)
  | 'l' :: 't' :: ';' :: r => some ('<', r)
  | 'g' :: 't' :: ';' :: r => some ('>', r)
  | 'q' :: 'u' :: 'o' :: 't' :: ';' :: r => some ('"', r)
  | 'a' :: 'p' :: 'o' :: 's' :: ';' :: r => some ('\'', r)
  | '#' :: 'x' :: r =>
    let ds := r.takeWhile (fun c => (hexVal? c).isSome)
    let r2 := r.dropWhile (fun c => (hexVal? c).isSome)
    if ds = [] then none
    else
      match r2 with
      | ';' :: r3 =>
        let n := ds.foldl (fun a c => a * 16 + ((hexVal? c).getD 0)) 0
        if isValidXmlCodePoint n then some (Char.ofNat n, r3) else none
      | _ => none
  | '#' :: r =>
    let ds := r.takeWhile Char.isDigit
    let r2 := r.dropWhile Char.isDigit
    if ds = [] then none
    else
      match r2 with
      | ';' :: r3 =>
        let n := digitsToNat ds
        if isValidXmlCodePoint n then some (Char.ofNat n, r3) else none
      | _ => none
  | _ => none

/-- A character that expat rejects in character data: a control character
other than tab, newline, carriage return. -/
def badTextCtrl (c : Char) : Bool :=
  decide (c.toNat < 0x20) && c ≠ '\t' && c ≠ '\n' && c ≠ '\r'

/-- Scan character data up to the next `<` (or end), decoding entities. -/
def scanText : Nat → List Char → Option (List Char × List Char)
  | 0, _ => none
  | _ + 1, [] => some ([], [])
  | _ + 1, '<' :: r => some ([], '<' :: r)
  | fuel + 1, '&' :: r =>
    match decodeEntity r with
    | none => none
    | some (ch, r2) => (scanText fuel r2).map (fun p => (ch :: p.1, p.2))
  | fuel + 1, c :: r =>
    if badTextCtrl c then none
    else (scanText fuel r).map (fun p => (c :: p.1, p.2))

/-- Scan an attribute value up to the closing quote `q`, decoding entities and
normalising literal tab/newline to a space (XML attribute-value
normalisation; `\r` is already gone after `normalizeLines`). -/
def scanAttrValue : Nat → Char → List Char → Option (List Char × List Char)
  | 0, _, _ => none
  | _ + 1, _, [] => none
  | fuel + 1, q, c :: r =>
    if c = q then some ([], r)
    else if c = '<' then none
    else if c = '&' then
      match decodeEntity r with
      | none => none
      | some (ch, r2) => (scanAttrValue fuel q r2).map (fun p => (ch :: p.1, p.2))
    else
      let c' := if c = '\t' || c = '\n' then ' ' else c
      (scanAttrValue fuel q r).map (fun p => (c' :: p.1, p.2))

/-- Parse the attribute list of a start tag, ending at `>` (open element) or
`/>` (self-closing).  Returns the attributes, the self-closing flag, and the
rest after the `>`. -/
def parseAttrsF : Nat → List Char → Option (List (String × String) × Bool × List Char)
  | 0, _ => none
  | fuel + 1, cs =>
    match cs with
    | [] => none
    | c :: r =>
      if c = '>' then some ([], false, r)
      else if c = '/' then
        if r.headD '\x00' = '>' then some ([], true, r.tail) else none
      else if isXmlSpace c then
        let s := r.dropWhile isXmlSpace
        let d := s.headD '\x00'
        let r2 := s.tail
        if d = '>' then some ([], false, r2)
        else if d = '/' then
          if r2.headD '\x00' = '>' then some ([], true, r2.tail) else none
        else if isNameChar d then
          let name := d :: r2.takeWhile isNameChar
          let r4 := (r2.dropWhile isNameChar).dropWhile isXmlSpace
          if r4.headD '\x00' = '=' then
            let t := r4.tail.dropWhile isXmlSpace
            let q := t.headD '\x00'
            let r7 := t.tail
            if q = '"' || q = '\'' then
              (scanAttrValue (r7.length + 1) q r7).bind
                (fun pr => (parseAttrsF fuel pr.2).map
                  (fun p => ((name.asString, pr.1.asString) :: p.1, p.2.1, p.2.2)))
            else none
          else none
        else none
      else none

mutual

/-- Parse one element starting at `<`. -/
def parseElemF : Nat → List Char → Option (XmlNode × List Char)
  | 0, _ => none
  | fuel + 1, cs =>
    match cs with
    | [] => none
    | c0 :: r =>
      if c0 = '<' then
        if isNameChar (r.headD '\x00') then
          let name := r.takeWhile isNameChar
          let r1 := r.dropWhile isNameChar
          (parseAttrsF (r1.length + 1) r1).bind (fun pa =>
            if pa.2.1 then some (.elem name.asString pa.1 [], pa.2.2)
            else
              (parseNodesF fuel pa.2.2).bind (fun pn =>
                let r3 := pn.2
                if r3.headD '\x00' = '<' && r3.tail.headD '\x00' = '/' then
                  let r4 := r3.tail.tail
                  let cname := r4.takeWhile isNameChar
                  let r5 := r4.dropWhile isNameChar
                  if cname = name then
                    let r6 := r5.dropWhile isXmlSpace
                    if r6.headD '\x00' = '>' then
                      some (.elem name.asString pa.1 pn.1, r6.tail)
                    else none
                  else none
                else none))
        else none
      else none

/-- Parse a sequence of content nodes, stopping at `</` or end of input. -/
def parseNodesF : Nat → List Char → Option (List XmlNode × List Char)
  | 0, _ => none
  | fuel + 1, cs =>
    match cs with
    | [] => some ([], [])
    | c :: r =>
      if c = '<' then
        if r.headD '\x00' = '/' then some ([], '<' :: r)
        else
          (parseElemF fuel ('<' :: r)).bind (fun pe =>
            (parseNodesF fuel pe.2).map (fun p => (pe.1 :: p.1, p.2)))
      else
        (scanText (r.length + 1) (c :: r)).bind (fun pt =>
          (parseNodesF fuel pt.2).map (fun p => (XmlNode.text pt.1.asString :: p.1, p.2)))

end

/-- `ET.fromstring`: newline-normalise, parse exactly one root element,
allow only whitespace around it. -/
def etFromstring (cs : List Char) : Option XmlNode :=
  let cs1 := (normalizeLines cs).dropWhile isXmlSpace
  (parseElemF (2 * cs1.length + 2) cs1).bind
    (fun p => if p.2.dropWhile isXmlSpace = [] then some p.1 else none)

/-- `element.iter(tag)`: document-order traversal (self included on match). -/
def etIterNF : Nat → String → XmlNode → List XmlNode
  | 0, _, _ => []
  | fuel + 1, tag, XmlNode.elem t as cs =>
    (if t = tag then [XmlNode.elem t as cs] else []) ++
      cs.flatMap (etIterNF fuel tag)
  | _ + 1, _, XmlNode.text _ => []

/-- The element-with-tag test used by `element.find(tag)`. -/
def etTagPred (tag : String) : XmlNode → Bool := fun n =>
  match n with
  | XmlNode.elem t _ _ => t == tag
  | XmlNode.text _ => false

/-- First direct child element with the given tag (`element.find(tag)`). -/
def etChildByTag (tag : String) (children : List XmlNode) : Option XmlNode :=
  children.find? (etTagPred tag)

/-- `element.text`: the character data before the first child element
(`none` when the element starts with a child element or is empty; the parser
never produces empty text nodes). -/
def elText : XmlNode → Option String
  | XmlNode.elem _ _ (XmlNode.text s :: _) => some s
  | _ => none

/-- `_et_text(element, tag)`: text of the first direct child with that tag,
stripped; `""` when the child is missing or its text is falsy. -/
def etTextOf (n : XmlNode) (tag : String) : String :=
  match n with
  | XmlNode.elem _ _ children =>
    match etChildByTag tag children with
    | some child =>
      match elText child with
      | some t => if t = "" then "" else pyStrip t
      | none => ""
    | none => ""
  | XmlNode.text _ => ""

/-- `element.get(name)`: attribute lookup. -/
def etGetAttr (n : XmlNode) (name : String) : Option String :=
  match n with
  | XmlNode.elem _ attrs _ => (attrs.find? (fun p => p.1 == name)).map (fun p => p.2)
  | XmlNode.text _ => none

/-! ### The canonical wiki structure -/

structure WikiPage where
  id : String
  title : String
  description : String
  filePaths : List String
  importance : String
  relatedPages : List String
  content : String
  parent_section : String
deriving DecidableEq, Repr

structure WikiSection where
  id : String
  title : String
  pages : List String
  subsections : List String
deriving DecidableEq, Repr

structure WikiStructure where
  title : String
  description : String
  pages : List WikiPage
  sections : List WikiSection
  rootSections : List String
deriving DecidableEq, Repr

instance {e a : Type} [DecidableEq e] [DecidableEq a] : DecidableEq (Except e a) := fun x y =>
  match x, y with
  | .ok v, .ok w =>
    if h : v = w then isTrue (by rw [h])
    else isFalse (by intro hc; injection hc; contradiction)
  | .error v, .error w =>
    if h : v = w then isTrue (by rw [h])
    else isFalse (by intro hc; injection hc; contradiction)
  | .ok _, .error _ => isFalse (fun hc => Except.noConfusion hc)
  | .error _, .ok _ => isFalse (fun hc => Except.noConfusion hc)

/-- Root sections: declared sections whose id is not referenced in any
section's `subsections` list (the Python code builds the `referenced` set and
filters). -/
def computeRootSections (sections : List WikiSection) : List String :=
  let referenced := sections.flatMap (fun s => s.subsections)
  (sections.filter (fun s => decide (s.id ∉ referenced))).map (fun s => s.id)

/-! ### `_xml_escape` and `convert_json_to_xml` -/

def xmlEscapeChar (c : Char) : List Char :=
  if c = '&' then "&amp;".data
  else if c = '<' then "&lt;".data
  else if c = '>' then "&gt;".data
  else if c = '"' then "&quot;".data
  else if c = '\'' then "&apos;".data
  else [c]

def xmlEscapeChars (cs : List Char) : List Char := cs.flatMap xmlEscapeChar

def xmlEscape (s : String) : String := (xmlEscapeChars s.data).asString

/-- Importance coercion used by both the serializer and the parsers. -/
def importanceNorm (s : String) : String :=
  if s = "high" || s = "medium" || s = "low" then s else "medium"

def sectionLines (sec : WikiSection) : List String :=
  ["    <section id=\"" ++ xmlEscape sec.id ++ "\">"]
  ++ ["      <title>" ++ xmlEscape sec.title ++ "</title>"]
  ++ (if sec.pages.isEmpty then [] else
      ["      <pages>"]
      ++ sec.pages.map (fun r => "        <page_ref>" ++ xmlEscape r ++ "</page_ref>")
      ++ ["      </pages>"])
  ++ (if sec.subsections.isEmpty then [] else
      ["      <subsections>"]
      ++ sec.subsections.map
          (fun r => "        <section_ref>" ++ xmlEscape r ++ "</section_ref>")
      ++ ["      </subsections>"])
  ++ ["    </section>"]

def pageLines (p : WikiPage) : List String :=
  ["    <page id=\"" ++ xmlEscape p.id ++ "\">"]
  ++ ["      <title>" ++ xmlEscape p.title ++ "</title>"]
  ++ ["      <description>" ++ xmlEscape p.description ++ "</description>"]
  ++ ["      <importance>" ++ importanceNorm p.importance ++ "</importance>"]
  ++ (if p.filePaths.isEmpty then [] else
      ["      <relevant_files>"]
      ++ p.filePaths.map (fun fp => "        <file_path>" ++ xmlEscape fp ++ "</file_path>")
      ++ ["      </relevant_files>"])
  ++ (if p.relatedPages.isEmpty then [] else
      ["      <related_pages>"]
      ++ p.relatedPages.map (fun rp => "        <related>" ++ xmlEscape rp ++ "</related>")
      ++ ["      </related_pages>"])
  ++ (if p.parent_section = "" then [] else
      ["      <parent_section>" ++ xmlEscape p.parent_section ++ "</parent_section>"])
  ++ ["    </page>"]

def convertLines (s : WikiStructure) : List String :=
  ["<wiki_structure>"]
  ++ ["  <title>" ++ xmlEscape s.title ++ "</title>"]
  ++ ["  <description>" ++ xmlEscape s.description ++ "</description>"]
  ++ (if s.sections.isEmpty then [] else
      ["  <sections>"] ++ s.sections.flatMap sectionLines ++ ["  </sections>"])
  ++ ["  <pages>"] ++ s.pages.flatMap pageLines ++ ["  </pages>"]
  ++ ["</wiki_structure>"]

/-- `"\n".join(lines)` at the character level. -/
def joinLines : List String → List Char
  | [] => []
  | [l] => l.data
  | l :: rest => l.data ++ '\n' :: joinLines rest

/-- The contribution of continuation lines to a join: a newline before each. -/
def midChars (ls : List String) : List Char := ls.flatMap (fun l => '\n' :: l.data)

/-- `convert_json_to_xml` on a structure with canonical field names (the
Python fallbacks to `relevant_files` / `file_paths` / `related_pages` keys
read `[]` on the canonical dict shape embedded here, so `x or y or z`
collapses to "emit the canonical list when non-empty"). -/
def convert_json_to_xml (s : WikiStructure) : String :=
  (joinLines (convertLines s)).asString

/-! ### XML strategy (`_parse_xml`) -/

def wikiOpenTag : List Char := "<wiki_structure>".data

def wikiCloseTag : List Char := "</wiki_structure>".data

/-- `re.search(r"<wiki_structure>[\s\S]*?</wiki_structure>", text)`: from the
first opening tag to the first closing tag after it. -/
def findWikiBlock (cs : List Char) : Option (List Char) :=
  (splitFirst wikiOpenTag cs).bind (fun p1 =>
    (splitFirst wikiCloseTag p1.2).map (fun p2 =>
      wikiOpenTag ++ p2.1 ++ wikiCloseTag))

/-- Characters removed by `re.sub(r"[\x00-\x08\x0B\x0C\x0E-\x1F\x7F]", "", ...)`. -/
def removedCtrl (c : Char) : Bool :=
  c.toNat ≤ 0x08 || c.toNat = 0x0B || c.toNat = 0x0C ||
  (0x0E ≤ c.toNat && c.toNat ≤ 0x1F) || c.toNat = 0x7F

def removeCtrlChars (cs : List Char) : List Char :=
  cs.filter (fun c => !removedCtrl c)

def entityHeads : List (List Char) :=
  ["amp;".data, "lt;".data, "gt;".data, "apos;".data, "quot;".data, "#".data]

/-- `re.sub(r"&(?!amp;|lt;|gt;|apos;|quot;|#)", "&amp;", ...)`. -/
def fixAmpersands : List Char → List Char
  | [] => []
  | c :: rest =>
    if c = '&' then
      if entityHeads.any (fun p => hasPrefixCL p rest) then '&' :: fixAmpersands rest
      else '&' :: 'a' :: 'm' :: 'p' :: ';' :: fixAmpersands rest
    else c :: fixAmpersands rest

/-- The `[x.text.strip() for x in ... if x.text]` collection pattern. -/
def textsOf (els : List XmlNode) : List String :=
  els.filterMap (fun el =>
    match elText el with
    | some t => if t = "" then none else some (pyStrip t)
    | none => none)

def xmlPageOf (fuel : Nat) (el : XmlNode) (idx : Nat) : WikiPage :=
  { id := (etGetAttr el "id").getD ("page-" ++ toString (idx + 1))
    title := etTextOf el "title"
    description := etTextOf el "description"
    filePaths := textsOf (etIterNF fuel "file_path" el)
    importance :=
      importanceNorm (if etTextOf el "importance" = "" then "medium"
                      else etTextOf el "importance")
    relatedPages := textsOf (etIterNF fuel "related" el)
    content := ""
    parent_section := etTextOf el "parent_section" }

def xmlPagesGo (fuel : Nat) : List XmlNode → Nat → List WikiPage
  | [], _ => []
  | el :: rest, n => xmlPageOf fuel el n :: xmlPagesGo fuel rest (n + 1)

def xmlSectionOf (fuel : Nat) (el : XmlNode) (idx : Nat) : WikiSection :=
  { id := (etGetAttr el "id").getD ("section-" ++ toString (idx + 1))
    title := etTextOf el "title"
    pages := textsOf (etIterNF fuel "page_ref" el)
    subsections := textsOf (etIterNF fuel "section_ref" el) }

def xmlSectionsGo (fuel : Nat) : List XmlNode → Nat → List WikiSection
  | [], _ => []
  | el :: rest, n => xmlSectionOf fuel el n :: xmlSectionsGo fuel rest (n + 1)

/-- `_parse_xml`.  The error message of the located-block failure is the exact
Python string; expat parse errors carry a position-dependent message that is
modelled as the fixed string `"XML syntax error"` (no theorem below depends on
its text). -/
def parse_xml (text : String) : Except String WikiStructure :=
  match findWikiBlock text.data with
  | none => Except.error "No <wiki_structure> XML block found in response"
  | some block =>
    let fixed := fixAmpersands (removeCtrlChars block)
    match etFromstring fixed with
    | none => Except.error "XML syntax error"
    | some root =>
      let fuel := fixed.length + 1
      let pages := xmlPagesGo fuel (etIterNF fuel "page" root) 0
      let sections := xmlSectionsGo fuel (etIterNF fuel "section" root) 0
      Except.ok
        { title := etTextOf root "title"
          description := etTextOf root "description"
          pages := pages
          sections := sections
          rootSections := computeRootSections sections }

/-! ### `_strip_code_fences` -/

def codeFenceTags : List (List Char) :=
  ["json".data, "xml".data, "javascript".data, "typescript".data]

def hasSuffixCL (pat cs : List Char) : Bool :=
  hasPrefixCL pat.reverse cs.reverse

/-- `_strip_code_fences`: strip, remove an opening fence (with optional
language tag and following whitespace), remove a closing fence (with an
optional preceding newline; after the initial strip the text has no trailing
whitespace, so `\s*$` matches only the end). -/
def stripFencesChars (cs0 : List Char) : List Char :=
  let cs1 := pyStripChars cs0
  let fence := "```".data
  let cs2 :=
    if hasPrefixCL fence cs1 then
      let r := cs1.drop 3
      let r := match codeFenceTags.find? (fun t => hasPrefixCL t r) with
        | some t => r.drop t.length
        | none => r
      r.dropWhile isPySpace
    else cs1
  if hasSuffixCL fence cs2 then
    let r := cs2.take (cs2.length - 3)
    if hasSuffixCL ['\n'] r then r.take (r.length - 1) else r
  else cs2

/-! ### JSON strategy (`_parse_json` and helpers)

The canonical dict is embedded as typed records, so values that Python would
store raw (a numeric page id, a non-string title) go through `jStr`; no
theorem exercises those branches. -/

/-- Python `str()` of a JSON-derived value, approximate for composites
(`repr` of lists/dicts is not modelled; unexercised). -/
def jStr : Json → String
  | .str s => s
  | .null => "None"
  | .bool true => "True"
  | .bool false => "False"
  | .num m e => if e = 0 then toString m else toString m ++ "e" ++ toString e
  | .arr _ => "list"
  | .obj _ => "dict"

def containsKey (kvs : List (String × Json)) (k : String) : Bool :=
  kvs.any (fun p => p.1 == k)

/-- `_looks_like_wiki_structure`. -/
def looksLikeWiki (kvs : List (String × Json)) : Bool :=
  containsKey kvs "pages" || containsKey kvs "wiki_structure" ||
  (containsKey kvs "title" && (containsKey kvs "pages" || containsKey kvs "sections"))

/-- The brace-depth scan of `_extract_json_object`: walk the text tracking
nesting depth; at each `}` closing to depth 0 try `json.loads` on the
candidate span; a decode failure clears `start_idx`, a parse that is not a
wiki-looking dict leaves it untouched. -/
def braceScan (cleaned : List Char) :
    List Char → Nat → Int → Option Nat → Option (List (String × Json))
  | [], _, _, _ => none
  | c :: rest, i, depth, start =>
    if c = '{' then
      braceScan cleaned rest (i + 1) (depth + 1)
        (if depth = 0 then some i else start)
    else if c = '}' then
      let depth' := depth - 1
      if depth' = 0 then
        match start with
        | some s =>
          let candidate := (cleaned.drop s).take (i + 1 - s)
          match jsonLoads candidate with
          | some (Json.obj kvs) =>
            if looksLikeWiki kvs then some kvs
            else braceScan cleaned rest (i + 1) depth' start
          | some _ => braceScan cleaned rest (i + 1) depth' start
          | none => braceScan cleaned rest (i + 1) depth' none
        | none => braceScan cleaned rest (i + 1) depth' start
      else braceScan cleaned rest (i + 1) depth' start
    else braceScan cleaned rest (i + 1) depth start

/-- `_extract_json_object`: strip fences, try to parse the whole text (a
non-dict success falls through), then run the brace scan. -/
def extractJsonObject (text : List Char) : Option (List (String × Json)) :=
  let cleaned := stripFencesChars text
  match jsonLoads cleaned with
  | some (Json.obj kvs) => some kvs
  | _ => braceScan cleaned cleaned 0 0 none

/-- Python `a or b or ... or default` over present-or-missing dict values:
first truthy value wins. -/
def firstTruthyChain (vals : List (Option Json)) (default : Json) : Json :=
  match vals with
  | [] => default
  | v :: rest =>
    match v with
    | some j => if jTruthy j then j else firstTruthyChain rest default
    | none => firstTruthyChain rest default

/-- The `[str(x) for x in v if x]` comprehension: lists iterate elements,
dicts iterate keys, anything else raises `TypeError` (modelled as `none`). -/
def pyIterStrs : Json → Option (List String)
  | Json.arr xs => some ((xs.filter jTruthy).map jStr)
  | Json.obj kvs => some ((kvs.map (fun p => p.1)).filter (fun k => decide (k ≠ "")))
  | _ => none

/-- The file-path / related-page value pipeline of `_normalize_page`: the
truthy-alias chain, then the `dict` and `str` coercion steps. -/
def pageListField (raw : List (String × Json)) (aliases : List String)
    (innerKey : String) : Json :=
  let v0 := firstTruthyChain (aliases.map (jget raw)) (Json.arr [])
  let v1 := match v0 with
    | Json.obj kvs => (jget kvs innerKey).getD (Json.arr [])
    | v => v
  match v1 with
  | Json.str s => Json.arr [Json.str s]
  | v => v

/-- `_normalize_page(raw, index)`; `none` models a `TypeError` escaping. -/
def normalizePage (raw : List (String × Json)) (index : Nat) : Option WikiPage :=
  match pyIterStrs (pageListField raw
      ["filePaths", "file_paths", "relevant_files", "relevantFiles"] "file_path") with
  | none => none
  | some filePaths =>
    match pyIterStrs (pageListField raw
        ["relatedPages", "related_pages", "relatedPages"] "related") with
    | none => none
    | some relatedPages =>
      some
        { id :=
            match jget raw "id" with
            | some v => jStr v
            | none => "page-" ++ toString (index + 1)
          title := match jget raw "title" with | some v => jStr v | none => ""
          description := match jget raw "description" with | some v => jStr v | none => ""
          filePaths := filePaths
          importance :=
            match jget raw "importance" with
            | some (Json.str s) => importanceNorm s
            | some _ => "medium"
            | none => "medium"
          relatedPages := relatedPages
          content := ""
          parent_section :=
            match jget raw "parent_section" with
            | some v => jStr v
            | none =>
              match jget raw "parentSection" with
              | some v => jStr v
              | none => "" }

/-- The section-reference pipeline: `raw.get(key, raw.get(altKey, []))` plus
the `str` coercion. -/
def sectionListField (raw : List (String × Json)) (key altKey : String) : Json :=
  let v0 := match jget raw key with
    | some v => v
    | none => (jget raw altKey).getD (Json.arr [])
  match v0 with
  | Json.str s => Json.arr [Json.str s]
  | v => v

/-- `_normalize_section(raw, index)`. -/
def normalizeSection (raw : List (String × Json)) (index : Nat) : Option WikiSection :=
  match pyIterStrs (sectionListField raw "pages" "page_refs") with
  | none => none
  | some pages =>
    match pyIterStrs (sectionListField raw "subsections" "section_refs") with
    | none => none
    | some subsections =>
      some
        { id :=
            match jget raw "id" with
            | some v => jStr v
            | none => "section-" ++ toString (index + 1)
          title := match jget raw "title" with | some v => jStr v | none => ""
          pages := pages
          subsections := subsections }

/-- `for i, raw_page in enumerate(raw_pages)` with the `isinstance(_, dict)`
guard: non-dict entries are skipped but still consume their index. -/
def normalizePagesList : List Json → Nat → Option (List WikiPage)
  | [], _ => some []
  | x :: rest, i =>
    match x with
    | Json.obj kvs =>
      match normalizePage kvs i with
      | none => none
      | some p => (normalizePagesList rest (i + 1)).map (fun ps => p :: ps)
    | _ => normalizePagesList rest (i + 1)

def normalizeSectionsList : List Json → Nat → Option (List WikiSection)
  | [], _ => some []
  | x :: rest, i =>
    match x with
    | Json.obj kvs =>
      match normalizeSection kvs i with
      | none => none
      | some s => (normalizeSectionsList rest (i + 1)).map (fun ss => s :: ss)
    | _ => normalizeSectionsList rest (i + 1)

/-- Coerce a (truthy) supplied `rootSections` value into the typed field;
falsy values give `[]` (Python would store the raw falsy value). -/
def jsonValToStrList (v : Json) : List String :=
  if jTruthy v then
    match v with
    | Json.arr xs => xs.map jStr
    | Json.str s => [s]
    | w => [jStr w]
  else []

/-- `obj.get("rootSections", obj.get("root_sections", []))`: a present key
wins even with a falsy value; the default is `[]`. -/
def suppliedRootSections (obj : List (String × Json)) : Json :=
  match jget obj "rootSections" with
  | some v => v
  | none => (jget obj "root_sections").getD (Json.arr [])

/-- Iterate a raw `pages`/`sections` value: lists normalize their object
entries, dicts iterate keys and strings iterate characters (no entry is a
dict, so both give `[]`), anything else raises `TypeError`. -/
def normalizeEntryList (α : Type) (go : List Json → Nat → Option (List α))
    (v : Json) : Option (List α) :=
  match v with
  | Json.arr xs => go xs 0
  | Json.obj _ => some []
  | Json.str _ => some []
  | _ => none

/-- `_normalize_json_structure`. -/
def normalizeJsonStructure (obj0 : List (String × Json)) : Option WikiStructure :=
  let obj := match jget obj0 "wiki_structure" with
    | some (Json.obj inner) => inner
    | _ => obj0
  match normalizeEntryList WikiPage normalizePagesList
      ((jget obj "pages").getD (Json.arr [])) with
  | none => none
  | some pages =>
    match normalizeEntryList WikiSection normalizeSectionsList
        ((jget obj "sections").getD (Json.arr [])) with
    | none => none
    | some sections =>
      let rsVal := suppliedRootSections obj
      some
        { title := match jget obj "title" with | some v => jStr v | none => ""
          description := match jget obj "description" with | some v => jStr v | none => ""
          pages := pages
          sections := sections
          rootSections :=
            if !jTruthy rsVal && !sections.isEmpty then computeRootSections sections
            else jsonValToStrList rsVal }

/-- `_parse_json`.  The no-object message is the exact Python string; a
`TypeError` escaping normalization carries a Python-runtime message that is
modelled as a fixed string (no theorem depends on its text). -/
def parse_json (text : String) : Except String WikiStructure :=
  match extractJsonObject text.data with
  | none => Except.error "No JSON object found in response"
  | some kvs =>
    match normalizeJsonStructure kvs with
    | some st => Except.ok st
    | none => Except.error "TypeError during JSON normalization"

/-! ### Regex strategy (`_parse_regex`) -/

/-- `re.search(open (.*?) close, body, DOTALL)`: capture between the first
opening tag and the first closing tag after it. -/
def reFirstCapture (openT closeT body : List Char) : Option (List Char) :=
  match splitFirst openT body with
  | none => none
  | some (_, rest) =>
    match splitFirst closeT rest with
    | none => none
    | some (mid, _) => some mid

/-- `re.findall(open (.*?) close, body, DOTALL)`: non-overlapping captures in
order. -/
def reAllCaptures (fuel : Nat) (openT closeT body : List Char) : List (List Char) :=
  match fuel with
  | 0 => []
  | fuel + 1 =>
    match splitFirst openT body with
    | none => []
    | some (_, rest) =>
      match splitFirst closeT rest with
      | none => []
      | some (mid, rest2) => mid :: reAllCaptures fuel openT closeT rest2

/-- `finditer` of `<page\s+id="([^"]*)">(.*?)</page>` (and the analogous
section pattern): at each occurrence of the opening literal, require at least
one whitespace, the quoted id attribute, `>`, and a closing tag somewhere
after; on failure the scan resumes right after the opening literal (the next
candidate start is the next occurrence), on success after the closing tag. -/
def reTagIdMatches (fuel : Nat) (openLit closeLit : List Char) (cs : List Char) :
    List (String × List Char) :=
  match fuel with
  | 0 => []
  | fuel + 1 =>
    match splitFirst openLit cs with
    | none => []
    | some (_, rest) =>
      if rest.takeWhile isPySpace = [] then reTagIdMatches fuel openLit closeLit rest
      else
        let r1 := rest.dropWhile isPySpace
        if hasPrefixCL "id=\"".data r1 then
          let r2 := r1.drop 4
          let idchars := r2.takeWhile (fun c => c ≠ '"')
          match r2.dropWhile (fun c => c ≠ '"') with
          | '"' :: '>' :: r4 =>
            match splitFirst closeLit r4 with
            | some (body, rest2) =>
              (idchars.asString, body) :: reTagIdMatches fuel openLit closeLit rest2
            | none => reTagIdMatches fuel openLit closeLit rest
          | _ => reTagIdMatches fuel openLit closeLit rest
        else reTagIdMatches fuel openLit closeLit rest

def regexPageOf (pid : String) (body : List Char) : WikiPage :=
  { id := pid
    title := match reFirstCapture "<title>".data "</title>".data body with
      | some t => (pyStripChars t).asString
      | none => ""
    description := match reFirstCapture "<description>".data "</description>".data body with
      | some t => (pyStripChars t).asString
      | none => ""
    filePaths := (reAllCaptures (body.length + 1) "<file_path>".data "</file_path>".data
        body).map (fun x => (pyStripChars x).asString)
    importance := match reFirstCapture "<importance>".data "</importance>".data body with
      | some t => importanceNorm (pyStripChars t).asString
      | none => "medium"
    relatedPages := (reAllCaptures (body.length + 1) "<related>".data "</related>".data
        body).map (fun x => (pyStripChars x).asString)
    content := ""
    parent_section :=
      match reFirstCapture "<parent_section>".data "</parent_section>".data body with
      | some t => (pyStripChars t).asString
      | none => "" }

def regexSectionOf (sid : String) (body : List Char) : WikiSection :=
  { id := sid
    title := match reFirstCapture "<title>".data "</title>".data body with
      | some t => (pyStripChars t).asString
      | none => ""
    pages := (reAllCaptures (body.length + 1) "<page_ref>".data "</page_ref>".data
        body).map (fun x => (pyStripChars x).asString)
    subsections := (reAllCaptures (body.length + 1) "<section_ref>".data
        "</section_ref>".data body).map (fun x => (pyStripChars x).asString) }

/-- `_parse_regex`. -/
def parse_regex (text : String) : Except String WikiStructure :=
  let cs := text.data
  let blockContent := match reFirstCapture wikiOpenTag wikiCloseTag cs with
    | some mid => mid
    | none => cs
  let pages := (reTagIdMatches (blockContent.length + 1) "<page".data "</page>".data
      blockContent).map (fun m => regexPageOf m.1 m.2)
  if pages.isEmpty then Except.error "Regex extraction found no pages"
  else
    let sections := (reTagIdMatches (blockContent.length + 1) "<section".data
        "</section>".data blockContent).map (fun m => regexSectionOf m.1 m.2)
    Except.ok
      { title := match reFirstCapture "<title>".data "</title>".data blockContent with
          | some t => (pyStripChars t).asString
          | none => ""
        description :=
          match reFirstCapture "<description>".data "</description>".data blockContent with
          | some t => (pyStripChars t).asString
          | none => ""
        pages := pages
        sections := sections
        rootSections := computeRootSections sections }

/-! ### `parse_wiki_structure` -/

/-- A strategy result counts as a success only with a non-empty page list
(the Python `result and result.get("pages")` check; a parser's dict is always
truthy). -/
def stratSuccess (r : Except String WikiStructure) : Option WikiStructure :=
  match r with
  | .ok st => if st.pages.isEmpty then none else some st
  | .error _ => none

def parse_wiki_structure (raw : String) : Except String WikiStructure :=
  let cleaned := (stripFencesChars raw.data).asString
  let rx := parse_xml cleaned
  match stratSuccess rx with
  | some st => Except.ok st
  | none =>
    let errs1 : List String := match rx with
      | .error e => ["XML: " ++ e]
      | .ok _ => []
    let rj := parse_json cleaned
    match stratSuccess rj with
    | some st => Except.ok st
    | none =>
      let errs2 := errs1 ++ (match rj with
        | .error e => ["JSON: " ++ e]
        | .ok _ => [])
      let rr := parse_regex cleaned
      match stratSuccess rr with
      | some st => Except.ok st
      | none =>
        let errs3 := errs2 ++ (match rr with
          | .error e => ["Regex: " ++ e]
          | .ok _ => [])
        Except.error ("All wiki structure parsing strategies failed. Errors: " ++
          String.intercalate "; " errs3)

/-! ### Canonical rendering of XML trees (for the round-trip proof)

`renderN` prints an `XmlNode` exactly the way `convert_json_to_xml` prints the
canonical structure: full open/close tags, double-quoted attributes, all text
and attribute values escaped with `_xml_escape`. -/

def renderAttrs : List (String × String) → List Char
  | [] => []
  | (n, v) :: rest =>
    ' ' :: n.data ++ '=' :: '"' :: xmlEscapeChars v.data ++ '"' :: renderAttrs rest

mutual

def renderN : XmlNode → List Char
  | XmlNode.text s => xmlEscapeChars s.data
  | XmlNode.elem t as cs =>
    '<' :: t.data ++ renderAttrs as ++ '>' :: renderL cs ++
      '<' :: '/' :: t.data ++ ['>']

def renderL : List XmlNode → List Char
  | [] => []
  | n :: ns => renderN n ++ renderL ns

end

/-- A valid tag/attribute name for the fragment grammar. -/
def validName (t : String) : Prop :=
  t.data ≠ [] ∧ ∀ c ∈ t.data, isNameChar c = true

/-- Attribute values must not contain literal tab/newline (the parser's
attribute-value normalisation would rewrite them to spaces). -/
def attrOkStr (v : String) : Prop :=
  ∀ c ∈ v.data, c ≠ '\t' ∧ c ≠ '\n'

mutual

/-- Well-formedness for the parser-inverts-renderer theorem. -/
def wfN : XmlNode → Prop
  | XmlNode.text s => s.data ≠ [] ∧ ∀ c ∈ s.data, badTextCtrl c = false
  | XmlNode.elem t as cs =>
    validName t ∧ (∀ p ∈ as, validName p.1 ∧ attrOkStr p.2) ∧ wfL cs

/-- Children lists: every node well-formed and no two adjacent text nodes. -/
def wfL : List XmlNode → Prop
  | [] => True
  | n :: ns =>
    wfN n ∧ wfL ns ∧
      (match n, ns with
       | XmlNode.text _, XmlNode.text _ :: _ => False
       | _, _ => True)

end

mutual

/-- Fuel weight sufficient for `parseElemF` on a rendered element. -/
def weightN : XmlNode → Nat
  | XmlNode.text _ => 1
  | XmlNode.elem _ _ cs => 1 + weightL cs

/-- Fuel weight sufficient for `parseNodesF` on a rendered child list. -/
def weightL : List XmlNode → Nat
  | [] => 1
  | n :: ns => 1 + weightN n + weightL ns

end

/-! ### Scan predicates for the sanitizer identities -/

/-- No occurrence of `</w` — hence no early `</wiki_structure>`. -/
def noCloseW : List Char → Bool
  | [] => true
  | c :: rest => !(c = '<' && hasPrefixCL "/w".data rest) && noCloseW rest

/-- Every `&` begins one of the five named entities produced by
`_xml_escape`, so the ampersand-fixing pass leaves the text unchanged. -/
def ampClosed : List Char → Bool
  | [] => true
  | c :: rest =>
    (if c = '&' then
      hasPrefixCL "amp;".data rest || hasPrefixCL "lt;".data rest ||
      hasPrefixCL "gt;".data rest || hasPrefixCL "quot;".data rest ||
      hasPrefixCL "apos;".data rest
     else true) && ampClosed rest

/-- Characters that survive both the control-character removal and the
newline normalisation untouched. -/
def goodChar (c : Char) : Bool :=
  !removedCtrl c && c ≠ '\r'

/-- Characters allowed in attribute values of the canonical class. -/
def attrGoodChar (c : Char) : Bool :=
  goodChar c && c ≠ '\t' && c ≠ '\n'

mutual

/-- Sanitizer-transparency conditions: all payload characters survive the
control-character removal and newline normalisation. -/
def niceN : XmlNode → Prop
  | XmlNode.text s => ∀ c ∈ s.data, goodChar c = true
  | XmlNode.elem t as cs =>
    (∀ c ∈ t.data, goodChar c = true) ∧
    (∀ p ∈ as, (∀ c ∈ p.1.data, goodChar c = true) ∧
      (∀ c ∈ p.2.data, goodChar c = true)) ∧
    niceL cs

def niceL : List XmlNode → Prop
  | [] => True
  | n :: ns => niceN n ∧ niceL ns

end

mutual

/-- No tag starts with `w`, so no premature `</wiki_structure>` match. -/
def noWN : XmlNode → Prop
  | XmlNode.text _ => True
  | XmlNode.elem t _ cs => t.data.headD 'x' ≠ 'w' ∧ noWL cs

def noWL : List XmlNode → Prop
  | [] => True
  | n :: ns => noWN n ∧ noWL ns

end


/-! ### The canonical class of structures and the expected parse tree -/

/-- A text field of the canonical class: whitespace-trimmed and free of the
characters the XML pipeline rewrites (removed control characters and `\r`). -/
def safeField (s : String) : Bool :=
  pyStrip s == s && s.data.all goodChar

/-- A list entry additionally must be non-empty (the XML walk drops falsy
`.text` values). -/
def safeItem (s : String) : Bool :=
  !(s == "") && safeField s

def canonicalPage (p : WikiPage) : Bool :=
  p.id.data.all attrGoodChar && safeField p.title && safeField p.description &&
  (p.importance == "high" || p.importance == "medium" || p.importance == "low") &&
  p.filePaths.all safeItem && p.relatedPages.all safeItem &&
  safeField p.parent_section

def canonicalSection (sec : WikiSection) : Bool :=
  sec.id.data.all attrGoodChar && safeField sec.title &&
  sec.pages.all safeItem && sec.subsections.all safeItem

def canonicalStructure (s : WikiStructure) : Bool :=
  safeField s.title && safeField s.description &&
  s.pages.all canonicalPage && s.sections.all canonicalSection

/-- Shorthand for whitespace text nodes of the template. -/
def wsT (s : String) : XmlNode := XmlNode.text s

/-- A leaf element holding one (possibly empty) text payload; an empty
payload renders as `<tag></tag>` and parses back to no text child. -/
def textEl (tag : String) (s : String) : XmlNode :=
  XmlNode.elem tag [] (if s = "" then [] else [XmlNode.text s])

/-- The `<wrap>` blocks holding repeated single-text items. -/
def itemNodes (itemTag : String) (vals : List String) : List XmlNode :=
  vals.flatMap (fun v => [wsT "\n        ", textEl itemTag v])

def sectionElemChildren (sec : WikiSection) : List XmlNode :=
  [wsT "\n      ", textEl "title" sec.title]
  ++ (if sec.pages.isEmpty then [] else
      [wsT "\n      ",
       XmlNode.elem "pages" [] (itemNodes "page_ref" sec.pages ++ [wsT "\n      "])])
  ++ (if sec.subsections.isEmpty then [] else
      [wsT "\n      ",
       XmlNode.elem "subsections" []
         (itemNodes "section_ref" sec.subsections ++ [wsT "\n      "])])
  ++ [wsT "\n    "]

def sectionElem (sec : WikiSection) : XmlNode :=
  XmlNode.elem "section" [("id", sec.id)] (sectionElemChildren sec)

def pageElemChildren (p : WikiPage) : List XmlNode :=
  [wsT "\n      ", textEl "title" p.title,
    wsT "\n      ", textEl "description" p.description,
    wsT "\n      ", textEl "importance" (importanceNorm p.importance)]
  ++ (if p.filePaths.isEmpty then [] else
      [wsT "\n      ",
       XmlNode.elem "relevant_files" []
         (itemNodes "file_path" p.filePaths ++ [wsT "\n      "])])
  ++ (if p.relatedPages.isEmpty then [] else
      [wsT "\n      ",
       XmlNode.elem "related_pages" []
         (itemNodes "related" p.relatedPages ++ [wsT "\n      "])])
  ++ (if p.parent_section = "" then [] else
      [wsT "\n      ", textEl "parent_section" p.parent_section])
  ++ [wsT "\n    "]

def pageElem (p : WikiPage) : XmlNode :=
  XmlNode.elem "page" [("id", p.id)] (pageElemChildren p)

/-- The children of the root element of the expected parse tree. -/
def expectedChildren (s : WikiStructure) : List XmlNode :=
  [wsT "\n  ", textEl "title" s.title,
    wsT "\n  ", textEl "description" s.description]
  ++ (if s.sections.isEmpty then [] else
      [wsT "\n  ",
       XmlNode.elem "sections" []
         (s.sections.flatMap (fun sec => [wsT "\n    ", sectionElem sec]) ++
           [wsT "\n  "])])
  ++ [wsT "\n  ",
      XmlNode.elem "pages" []
        (s.pages.flatMap (fun p => [wsT "\n    ", pageElem p]) ++ [wsT "\n  "]),
      wsT "\n"]

/-- The element tree `ET.fromstring` produces on the serializer's output
(whitespace text nodes included). -/
def expectedTree (s : WikiStructure) : XmlNode :=
  XmlNode.elem "wiki_structure" [] (expectedChildren s)

/-- The structure `_parse_xml` recovers from a canonical `s`: pages get their
`content` reset to `""`, sections survive verbatim, root sections are
recomputed. -/
def roundtripOf (s : WikiStructure) : WikiStructure :=
  { title := s.title
    description := s.description
    pages := s.pages.map (fun p => { p with content := "" })
    sections := s.sections
    rootSections := computeRootSections s.sections }

/-- The reasons of the strategies that raised, in order, each prefixed with
its strategy name (a strategy returning a structure — even one with zero
pages — contributes nothing). -/
def strategyFailReasons (raw : String) : List String :=
  let cleaned := (stripFencesChars raw.data).asString
  ((match parse_xml cleaned with
    | .error e => ["XML: " ++ e]
    | .ok _ => []) ++
   (match parse_json cleaned with
    | .error e => ["JSON: " ++ e]
    | .ok _ => [])) ++
  (match parse_regex cleaned with
    | .error e => ["Regex: " ++ e]
    | .ok _ => [])

/-- The aggregated terminal error message of `parse_wiki_structure`. -/
def aggregatedFailureMessage (raw : String) : String :=
  "All wiki structure parsing strategies failed. Errors: " ++
    String.intercalate "; " (strategyFailReasons raw)

/-- The round-trip claim's stated precondition, following its words:
normalized field names (structural in this embedding), importance among
high/medium/low, whitespace-trimmed text fields — with no requirement that
list items be nonempty. -/
def claimedCanonicalPage (p : WikiPage) : Bool :=
  pyStrip p.id == p.id && pyStrip p.title == p.title &&
  pyStrip p.description == p.description &&
  (p.importance == "high" || p.importance == "medium" || p.importance == "low") &&
  p.filePaths.all (fun v => pyStrip v == v) &&
  p.relatedPages.all (fun v => pyStrip v == v) &&
  pyStrip p.parent_section == p.parent_section

def claimedCanonicalSection (sec : WikiSection) : Bool :=
  pyStrip sec.id == sec.id && pyStrip sec.title == sec.title &&
  sec.pages.all (fun v => pyStrip v == v) &&
  sec.subsections.all (fun v => pyStrip v == v)

/-- The stated precondition at structure level, including the claim's
"no duplicate ids". -/
def claimedCanonical (s : WikiStructure) : Bool :=
  pyStrip s.title == s.title && pyStrip s.description == s.description &&
  s.pages.all claimedCanonicalPage && s.sections.all claimedCanonicalSection &&
  (let ids := s.pages.map (fun p => p.id) ++ s.sections.map (fun sec => sec.id)
   ids == ids.eraseDups)

/-- A structure meeting the claim's stated precondition whose single page
declares the empty string as a file path. -/
def c1badS : WikiStructure :=
  { title := "T"
    description := "D"
    pages := [{ id := "p1", title := "P1", description := "PD",
                filePaths := [""], importance := "high", relatedPages := [],
                content := "", parent_section := "" }]
    sections := []
    rootSections := [] }

/-- A concrete canonical structure exercising pages, sections, file paths,
related pages and parent sections. -/
def c1exS : WikiStructure :=
  { title := "Overview"
    description := "A wiki"
    pages := [{ id := "p1", title := "Intro", description := "First page",
                filePaths := ["src/main.py"], importance := "high",
                relatedPages := ["p2"], content := "", parent_section := "s1" },
              { id := "p2", title := "Usage", description := "Second page",
                filePaths := [], importance := "low", relatedPages := [],
                content := "", parent_section := "" }]
    sections := [{ id := "s1", title := "Getting started",
                   pages := ["p1", "p2"], subsections := [] }]
    rootSections := ["s1"] }

/-- A structure meeting the claim's stated precondition whose single page
carries a CRLF inside its description ("a\r\nb" is whitespace-trimmed, and
`\r` is not in the sanitizer's removal class `[\x00-\x08\x0B\x0C\x0E-\x1F\x7F]`). -/
def c1crS : WikiStructure :=
  { title := "T"
    description := "D"
    pages := [{ id := "p1", title := "P1", description := "a\r\nb",
                filePaths := [], importance := "high", relatedPages := [],
                content := "", parent_section := "" }]
    sections := []
    rootSections := [] }

/-- A structure meeting the claim's stated precondition whose single page
has a tab inside its id (again outside the sanitizer's removal class). -/
def c1tabS : WikiStructure :=
  { title := "T"
    description := "D"
    pages := [{ id := "a\tb", title := "P1", description := "PD",
                filePaths := [], importance := "high", relatedPages := [],
                content := "", parent_section := "" }]
    sections := []
    rootSections := [] }

/-! ## Supporting lemmas -/

theorem not_word_of_pySpace {c : Char} (h : isPySpace c = true) :
    isWordChar c = false := by
  simp only [isPySpace, Bool.or_eq_true, decide_eq_true_eq] at h
  rcases h with ((((h | h) | h) | h) | h) | h <;> subst h <;> decide

theorem not_word_of_bracket {c : Char} (h : isMermaidBracket c = true) :
    isWordChar c = false := by
  simp only [isMermaidBracket, Bool.or_eq_true, decide_eq_true_eq] at h
  rcases h with ((h | h) | h) | h <;> subst h <;> decide

theorem wordRunsWithRestF_congr :
    ∀ (f g : Nat) (cs : List Char), cs.length < f → cs.length < g →
      wordRunsWithRestF f cs = wordRunsWithRestF g cs := by
  intro f
  induction f with
  | zero => intro g cs h; omega
  | succ f ih =>
    intro g cs hf hg
    match g, cs with
    | g + 1, [] => rfl
    | g + 1, c :: rest =>
      have hr : rest.length < f := by
        simp only [List.length_cons] at hf; omega
      have hrg : rest.length < g := by
        simp only [List.length_cons] at hg; omega
      have hdw : (rest.dropWhile isWordChar).length ≤ rest.length :=
        (List.dropWhile_suffix isWordChar).length_le
      simp only [wordRunsWithRestF]
      by_cases hw : isWordChar c = true
      · rw [if_pos hw, if_pos hw, ih g (rest.dropWhile isWordChar) (by omega) (by omega)]
      · rw [if_neg hw, if_neg hw, ih g rest hr hrg]

theorem wordRunsWithRest_cons (c : Char) (rest : List Char) :
    wordRunsWithRest (c :: rest) =
      if isWordChar c then
        (c :: rest.takeWhile isWordChar, rest.dropWhile isWordChar) ::
          wordRunsWithRest (rest.dropWhile isWordChar)
      else wordRunsWithRest rest := by
  have hdw : (rest.dropWhile isWordChar).length ≤ rest.length :=
    (List.dropWhile_suffix isWordChar).length_le
  show wordRunsWithRestF (rest.length + 1 + 1) (c :: rest) = _
  simp only [wordRunsWithRestF]
  by_cases hw : isWordChar c = true
  · rw [if_pos hw, if_pos hw,
      wordRunsWithRestF_congr (rest.length + 1) ((rest.dropWhile isWordChar).length + 1)
        (rest.dropWhile isWordChar) (by omega) (by omega)]
    rfl
  · rw [if_neg hw, if_neg hw]
    rfl

theorem wordRunsWithRest_append_nonword (xs ys : List Char)
    (h : ∀ c ∈ xs, isWordChar c = false) :
    wordRunsWithRest (xs ++ ys) = wordRunsWithRest ys := by
  induction xs with
  | nil => simp
  | cons c xs ih =>
    rw [List.cons_append, wordRunsWithRest_cons,
      if_neg (by simp [h c (List.mem_cons_self c xs)]),
      ih (fun d hd => h d (List.mem_cons_of_mem c hd))]

theorem specMermaidIds_append_nonword (xs ys : List Char)
    (h : ∀ c ∈ xs, isWordChar c = false) :
    specMermaidIds true (xs ++ ys) = specMermaidIds true ys := by
  simp only [specMermaidIds, wordRunsWithRest_append_nonword xs ys h]

theorem mermaidMatchesF_eq_specIds :
    ∀ (f : Nat) (cs : List Char), cs.length < f →
      mermaidMatchesF f cs = specMermaidIds true cs := by
  intro f
  induction f with
  | zero => intro cs h; omega
  | succ f ih =>
    intro cs hf
    match cs with
    | [] => simp [mermaidMatchesF, specMermaidIds, wordRunsWithRest, wordRunsWithRestF]
    | c :: rest =>
      have hrest : rest.length < f := by
        simp only [List.length_cons] at hf; omega
      have hafter : (rest.dropWhile isWordChar).length ≤ rest.length :=
        (List.dropWhile_suffix isWordChar).length_le
      have hgap : ((rest.dropWhile isWordChar).dropWhile isPySpace).length ≤
          (rest.dropWhile isWordChar).length :=
        (List.dropWhile_suffix isPySpace).length_le
      have hsplit : rest.dropWhile isWordChar =
          (rest.dropWhile isWordChar).takeWhile isPySpace ++
            (rest.dropWhile isWordChar).dropWhile isPySpace :=
        (List.takeWhile_append_dropWhile isPySpace (rest.dropWhile isWordChar)).symm
      have hws : ∀ d ∈ (rest.dropWhile isWordChar).takeWhile isPySpace,
          isWordChar d = false := by
        intro d hd
        exact not_word_of_pySpace (List.mem_takeWhile_imp hd)
      simp only [mermaidMatchesF]
      by_cases hw : isWordChar c = true
      · simp only [hw, if_true]
        rw [specMermaidIds, wordRunsWithRest_cons, if_pos hw, List.filterMap_cons]
        simp only [if_true]
        cases hgapeq : (rest.dropWhile isWordChar).dropWhile isPySpace with
        | nil =>
          rw [hgapeq] at hsplit
          simp only [hgapeq, List.headD_nil]
          rw [if_neg (by decide)]
          have hih := ih (rest.dropWhile isWordChar) (by omega)
          rw [hih]
          rfl
        | cons b gtail =>
          rw [hgapeq] at hsplit
          simp only [hgapeq, List.headD_cons]
          have hdec : rest.dropWhile isWordChar =
              ((rest.dropWhile isWordChar).takeWhile isPySpace ++ [b]) ++ gtail := by
            rw [List.append_assoc, List.singleton_append, ← hsplit]
          by_cases hb : isMermaidBracket b = true
          · have hspec : specMermaidIds true (rest.dropWhile isWordChar) =
                specMermaidIds true gtail := by
              rw [hdec]
              apply specMermaidIds_append_nonword
              intro d hd
              rcases List.mem_append.mp hd with hd | hd
              · exact hws d hd
              · simp only [List.mem_singleton] at hd
                subst hd
                exact not_word_of_bracket hb
            simp only [hb, if_true, List.tail_cons]
            have hglen : gtail.length < f := by
              have := hgap
              rw [hgapeq] at this
              simp only [List.length_cons] at this
              omega
            rw [ih gtail hglen, ← hspec]
            rfl
          · rw [if_neg hb, if_neg hb, ih (rest.dropWhile isWordChar) (by omega)]
            rfl
      · rw [if_neg hw, ih rest hrest]
        simp only [specMermaidIds, wordRunsWithRest_cons, if_neg hw]

theorem mermaidMatches_eq_specIds (cs : List Char) :
    mermaidMatches cs = specMermaidIds true cs :=
  mermaidMatchesF_eq_specIds (cs.length + 1) cs (by omega)

theorem stratSuccess_ok_of_pages {st : WikiStructure} (h : st.pages ≠ []) :
    stratSuccess (Except.ok st) = some st := by
  simp only [stratSuccess]
  rw [if_neg (by simp [h])]

theorem extract_foldl_filterMap (bs : List (List Char)) (acc : List DiagramData) :
    bs.foldl (fun results b => match processBlock b with
      | some d => results ++ [d]
      | none => results) acc = acc ++ bs.filterMap processBlock := by
  induction bs generalizing acc with
  | nil => simp
  | cons b bs ih =>
    simp only [List.foldl_cons, List.filterMap_cons]
    cases hb : processBlock b with
    | none => rw [ih]
    | some d => rw [ih]; simp

theorem jget_none {kvs : List (String × Json)} {k : String}
    (h : containsKey kvs k = false) : jget kvs k = none := by
  unfold containsKey at h
  unfold jget
  have hf : kvs.filter (fun p => p.1 == k) = [] := by
    rw [List.filter_eq_nil_iff]
    intro p hp
    have := List.any_eq_false.mp h p hp
    simpa using this
  rw [hf]
  rfl

theorem parse_wiki_structure_error_msg (raw m : String)
    (h : parse_wiki_structure raw = Except.error m) :
    m = aggregatedFailureMessage raw := by
  simp only [parse_wiki_structure] at h
  simp only [aggregatedFailureMessage, strategyFailReasons]
  split at h
  · exact Except.noConfusion h
  · split at h
    · exact Except.noConfusion h
    · split at h
      · exact Except.noConfusion h
      · injection h with h'
        rw [← h']

theorem parse_wiki_structure_isOk (raw : String) :
    (parse_wiki_structure raw).isOk =
      ((stratSuccess (parse_xml ((stripFencesChars raw.data).asString))).isSome ||
       (stratSuccess (parse_json ((stripFencesChars raw.data).asString))).isSome ||
       (stratSuccess (parse_regex ((stripFencesChars raw.data).asString))).isSome) := by
  simp only [parse_wiki_structure]
  split
  · rename_i heq
    simp [heq, Except.isOk, Except.toBool]
  · rename_i heq
    split
    · rename_i heq2
      simp [heq, heq2, Except.isOk, Except.toBool]
    · rename_i heq2
      split
      · rename_i heq3
        simp [heq, heq2, heq3, Except.isOk, Except.toBool]
      · rename_i heq3
        simp [heq, heq2, heq3, Except.isOk, Except.toBool]

theorem xmlPagesGo_getElem (fuel : Nat) (els : List XmlNode) :
    ∀ (start k : Nat),
      (xmlPagesGo fuel els start)[k]? =
        (els[k]?).map (fun el => xmlPageOf fuel el (start + k)) := by
  induction els with
  | nil => intro start k; simp [xmlPagesGo]
  | cons el rest ih =>
    intro start k
    cases k with
    | zero => simp [xmlPagesGo]
    | succ k =>
      simp only [xmlPagesGo, List.getElem?_cons_succ, ih (start + 1) k]
      have : start + 1 + k = start + (k + 1) := by omega
      rw [this]

theorem computeRootSections_eq (sections : List WikiSection) :
    computeRootSections sections =
      (sections.filter
        (fun s => decide (∀ t ∈ sections, s.id ∉ t.subsections))).map
        (fun s => s.id) := by
  simp only [computeRootSections]
  congr 1
  apply List.filter_congr
  intro s _
  simp only [decide_eq_decide, List.mem_flatMap, not_exists]
  constructor
  · intro hn t ht hmem
    exact hn t ⟨ht, hmem⟩
  · intro hall t ⟨ht, hmem⟩
    exact hall t ht hmem

theorem normalizePage_default_id (raw : List (String × Json)) (i : Nat) (p : WikiPage)
    (hnorm : normalizePage raw i = some p) (hid : jget raw "id" = none) :
    p.id = "page-" ++ toString (i + 1) := by
  simp only [normalizePage] at hnorm
  split at hnorm
  · exact Option.noConfusion hnorm
  · split at hnorm
    · exact Option.noConfusion hnorm
    · injection hnorm with h
      subst h
      simp only [hid]

/-! ### Round-trip lemmas: scanners invert `_xml_escape` -/

theorem data_asString (s : String) : s.data.asString = s := by
  cases s
  rfl

theorem asString_data (cs : List Char) : cs.asString.data = cs := rfl

theorem takeWhile_append_not {p : Char → Bool} (xs : List Char) {y : Char}
    (ys : List Char) (hxs : ∀ c ∈ xs, p c = true) (hy : p y = false) :
    ((xs ++ y :: ys).takeWhile p) = xs := by
  induction xs with
  | nil => simp [List.takeWhile_cons, hy]
  | cons c xs ih =>
    rw [List.cons_append, List.takeWhile_cons_of_pos (hxs c (List.mem_cons_self c xs)),
      ih (fun d hd => hxs d (List.mem_cons_of_mem c hd))]

theorem dropWhile_append_not {p : Char → Bool} (xs : List Char) {y : Char}
    (ys : List Char) (hxs : ∀ c ∈ xs, p c = true) (hy : p y = false) :
    ((xs ++ y :: ys).dropWhile p) = y :: ys := by
  induction xs with
  | nil => simp [List.dropWhile_cons, hy]
  | cons c xs ih =>
    rw [List.cons_append, List.dropWhile_cons_of_pos (hxs c (List.mem_cons_self c xs)),
      ih (fun d hd => hxs d (List.mem_cons_of_mem c hd))]

theorem length_le_escape (s : List Char) : s.length ≤ (xmlEscapeChars s).length := by
  induction s with
  | nil => simp [xmlEscapeChars]
  | cons c cs ih =>
    have h1 : 1 ≤ (xmlEscapeChar c).length := by
      unfold xmlEscapeChar
      split <;> try simp
      split <;> try simp
      split <;> try simp
      split <;> try simp
      split <;> simp
    simp only [xmlEscapeChars, List.flatMap_cons, List.length_append,
      List.length_cons]
    have : xmlEscapeChars cs = cs.flatMap xmlEscapeChar := rfl
    rw [← this]
    omega

theorem escape_ne_nil {s : List Char} (h : s ≠ []) : xmlEscapeChars s ≠ [] := by
  intro hc
  cases s with
  | nil => exact h rfl
  | cons c cs =>
    have := length_le_escape (c :: cs)
    rw [hc] at this
    simp at this

/-- Heads of escaped text are never `<`. -/
theorem escape_head_safe (c : Char) (cs : List Char) :
    ∃ d ds, xmlEscapeChars (c :: cs) = d :: ds ∧ d ≠ '<' := by
  show ∃ d ds, xmlEscapeChar c ++ xmlEscapeChars cs = d :: ds ∧ d ≠ '<'
  by_cases h1 : c = '&'
  · subst h1
    exact ⟨'&', 'a' :: 'm' :: 'p' :: ';' :: xmlEscapeChars cs, rfl, by decide⟩
  · by_cases h2 : c = '<'
    · subst h2
      exact ⟨'&', 'l' :: 't' :: ';' :: xmlEscapeChars cs, rfl, by decide⟩
    · by_cases h3 : c = '>'
      · subst h3
        exact ⟨'&', 'g' :: 't' :: ';' :: xmlEscapeChars cs, rfl, by decide⟩
      · by_cases h4 : c = '"'
        · subst h4
          exact ⟨'&', 'q' :: 'u' :: 'o' :: 't' :: ';' :: xmlEscapeChars cs, rfl, by decide⟩
        · by_cases h5 : c = '\''
          · subst h5
            exact ⟨'&', 'a' :: 'p' :: 'o' :: 's' :: ';' :: xmlEscapeChars cs, rfl, by decide⟩
          · refine ⟨c, xmlEscapeChars cs, ?_, h2⟩
            unfold xmlEscapeChar
            rw [if_neg h1, if_neg h2, if_neg h3, if_neg h4, if_neg h5]
            rfl

theorem scanText_plain_step (c : Char) (r : List Char) (f : Nat)
    (h1 : c ≠ '<') (h2 : c ≠ '&') (h3 : badTextCtrl c = false) :
    scanText (f + 1) (c :: r) = (scanText f r).map (fun p => (c :: p.1, p.2)) := by
  conv_lhs => rw [scanText.eq_def]
  split
  all_goals first
    | rfl
    | (rename_i heq; first | (exfalso; omega) | simp_all)

theorem scanText_escape (s : List Char) :
    ∀ (rest : List Char) (fuel : Nat), s.length + 1 ≤ fuel →
      (∀ c ∈ s, badTextCtrl c = false) →
      (rest = [] ∨ ∃ r', rest = '<' :: r') →
      scanText fuel (xmlEscapeChars s ++ rest) = some (s, rest) := by
  induction s with
  | nil =>
    intro rest fuel hf _ hr
    obtain ⟨f, rfl⟩ : ∃ f, fuel = f + 1 := ⟨fuel - 1, by omega⟩
    rcases hr with h | ⟨r', h⟩ <;> subst h
    · rfl
    · rfl
  | cons c cs ih =>
    intro rest fuel hf hsafe hr
    obtain ⟨f, rfl⟩ : ∃ f, fuel = f + 1 := ⟨fuel - 1, by omega⟩
    have hcs : cs.length + 1 ≤ f := by
      simp only [List.length_cons] at hf
      omega
    have hsafe' : ∀ d ∈ cs, badTextCtrl d = false :=
      fun d hd => hsafe d (List.mem_cons_of_mem c hd)
    have ihr := ih rest f hcs hsafe' hr
    have step : xmlEscapeChars (c :: cs) = xmlEscapeChar c ++ xmlEscapeChars cs := rfl
    rw [step, List.append_assoc]
    unfold xmlEscapeChar
    by_cases h1 : c = '&'
    · subst h1
      simp only [if_pos rfl]
      show scanText (f + 1) ('&' :: ('a' :: 'm' :: 'p' :: ';' :: (xmlEscapeChars cs ++ rest))) = _
      simp only [scanText, decodeEntity, ihr, Option.map_some']
    · rw [if_neg h1]
      by_cases h2 : c = '<'
      · subst h2
        simp only [if_pos rfl]
        show scanText (f + 1) ('&' :: ('l' :: 't' :: ';' :: (xmlEscapeChars cs ++ rest))) = _
        simp only [scanText, decodeEntity, ihr, Option.map_some']
      · rw [if_neg h2]
        by_cases h3 : c = '>'
        · subst h3
          simp only [if_pos rfl]
          show scanText (f + 1) ('&' :: ('g' :: 't' :: ';' :: (xmlEscapeChars cs ++ rest))) = _
          simp only [scanText, decodeEntity, ihr, Option.map_some']
        · rw [if_neg h3]
          by_cases h4 : c = '"'
          · subst h4
            simp only [if_pos rfl]
            show scanText (f + 1)
              ('&' :: ('q' :: 'u' :: 'o' :: 't' :: ';' :: (xmlEscapeChars cs ++ rest))) = _
            simp only [scanText, decodeEntity, ihr, Option.map_some']
          · rw [if_neg h4]
            by_cases h5 : c = '\''
            · subst h5
              simp only [if_pos rfl]
              show scanText (f + 1)
                ('&' :: ('a' :: 'p' :: 'o' :: 's' :: ';' :: (xmlEscapeChars cs ++ rest))) = _
              simp only [scanText, decodeEntity, ihr, Option.map_some']
            · rw [if_neg h5]
              show scanText (f + 1) (c :: (xmlEscapeChars cs ++ rest)) = _
              rw [scanText_plain_step c _ f h2 h1 (hsafe c (List.mem_cons_self c cs)), ihr]
              rfl

theorem nameChar_facts {c : Char} (h : isNameChar c = true) :
    c ≠ '>' ∧ c ≠ '/' ∧ c ≠ '=' ∧ c ≠ '<' ∧ c ≠ '&' ∧ isXmlSpace c = false := by
  refine ⟨?_, ?_, ?_, ?_, ?_, ?_⟩
  · intro hc; subst hc; exact absurd h (by decide)
  · intro hc; subst hc; exact absurd h (by decide)
  · intro hc; subst hc; exact absurd h (by decide)
  · intro hc; subst hc; exact absurd h (by decide)
  · intro hc; subst hc; exact absurd h (by decide)
  · cases hx : isXmlSpace c
    · rfl
    · simp only [isXmlSpace, Bool.or_eq_true, decide_eq_true_eq] at hx
      rcases hx with ((hx | hx) | hx) | hx <;> subst hx <;> exact absurd h (by decide)

theorem scanAttrValue_escape (s : List Char) :
    ∀ (rest : List Char) (fuel : Nat), s.length + 1 ≤ fuel →
      (∀ c ∈ s, c ≠ '\t' ∧ c ≠ '\n') →
      scanAttrValue fuel '"' (xmlEscapeChars s ++ '"' :: rest) = some (s, rest) := by
  induction s with
  | nil =>
    intro rest fuel hf _
    obtain ⟨f, rfl⟩ : ∃ f, fuel = f + 1 := ⟨fuel - 1, by omega⟩
    show scanAttrValue (f + 1) '"' ('"' :: rest) = _
    simp [scanAttrValue]
  | cons c cs ih =>
    intro rest fuel hf hok
    obtain ⟨f, rfl⟩ : ∃ f, fuel = f + 1 := ⟨fuel - 1, by omega⟩
    have hcs : cs.length + 1 ≤ f := by
      simp only [List.length_cons] at hf
      omega
    have ihr := ih rest f hcs (fun d hd => hok d (List.mem_cons_of_mem c hd))
    have step : xmlEscapeChars (c :: cs) = xmlEscapeChar c ++ xmlEscapeChars cs := rfl
    rw [step, List.append_assoc]
    unfold xmlEscapeChar
    by_cases h1 : c = '&'
    · subst h1
      simp only [if_pos rfl]
      show scanAttrValue (f + 1) '"'
        ('&' :: ('a' :: 'm' :: 'p' :: ';' :: (xmlEscapeChars cs ++ '"' :: rest))) = _
      simp only [scanAttrValue, decodeEntity, ihr, Option.map_some']
      rfl
    · rw [if_neg h1]
      by_cases h2 : c = '<'
      · subst h2
        simp only [if_pos rfl]
        show scanAttrValue (f + 1) '"'
          ('&' :: ('l' :: 't' :: ';' :: (xmlEscapeChars cs ++ '"' :: rest))) = _
        simp only [scanAttrValue, decodeEntity, ihr, Option.map_some']
        rfl
      · rw [if_neg h2]
        by_cases h3 : c = '>'
        · subst h3
          simp only [if_pos rfl]
          show scanAttrValue (f + 1) '"'
            ('&' :: ('g' :: 't' :: ';' :: (xmlEscapeChars cs ++ '"' :: rest))) = _
          simp only [scanAttrValue, decodeEntity, ihr, Option.map_some']
          rfl
        · rw [if_neg h3]
          by_cases h4 : c = '"'
          · subst h4
            simp only [if_pos rfl]
            show scanAttrValue (f + 1) '"'
              ('&' :: ('q' :: 'u' :: 'o' :: 't' :: ';' :: (xmlEscapeChars cs ++ '"' :: rest))) = _
            simp only [scanAttrValue, decodeEntity, ihr, Option.map_some']
            rfl
          · rw [if_neg h4]
            by_cases h5 : c = '\''
            · subst h5
              simp only [if_pos rfl]
              show scanAttrValue (f + 1) '"'
                ('&' :: ('a' :: 'p' :: 'o' :: 's' :: ';' :: (xmlEscapeChars cs ++ '"' :: rest))) = _
              simp only [scanAttrValue, decodeEntity, ihr, Option.map_some']
              rfl
            · rw [if_neg h5]
              show scanAttrValue (f + 1) '"' (c :: (xmlEscapeChars cs ++ '"' :: rest)) = _
              have hok1 := hok c (List.mem_cons_self c cs)
              simp only [scanAttrValue, if_neg h4, if_neg h2, if_neg h1]
              rw [if_neg (by simp [hok1.1, hok1.2]), ihr]
              rfl

theorem parseAttrsF_render :
    ∀ (as : List (String × String)) (Y : List Char) (fuel : Nat),
      as.length + 1 ≤ fuel →
      (∀ p ∈ as, validName p.1 ∧ attrOkStr p.2) →
      parseAttrsF fuel (renderAttrs as ++ '>' :: Y) = some (as, false, Y) := by
  intro as
  induction as with
  | nil =>
    intro Y fuel hf _
    obtain ⟨f, rfl⟩ : ∃ f, fuel = f + 1 := ⟨fuel - 1, by omega⟩
    show parseAttrsF (f + 1) ('>' :: Y) = _
    simp [parseAttrsF]
  | cons a as ih =>
    intro Y fuel hf hwf
    obtain ⟨f, rfl⟩ : ∃ f, fuel = f + 1 := ⟨fuel - 1, by omega⟩
    obtain ⟨n, v⟩ := a
    have hwf1 := hwf (n, v) (List.mem_cons_self _ _)
    obtain ⟨⟨hnne, hnall⟩, hvok⟩ := hwf1
    obtain ⟨d, tl, hnd⟩ : ∃ d tl, n.data = d :: tl := by
      cases hn : n.data with
      | nil => exact absurd hn hnne
      | cons d tl => exact ⟨d, tl, rfl⟩
    have hdname : isNameChar d = true := hnall d (by rw [hnd]; exact List.mem_cons_self d tl)
    have htl : ∀ c ∈ tl, isNameChar c = true :=
      fun c hc => hnall c (by rw [hnd]; exact List.mem_cons_of_mem d hc)
    have step : renderAttrs ((n, v) :: as) ++ '>' :: Y =
        ' ' :: (n.data ++ ('=' :: '"' :: (xmlEscapeChars v.data ++ '"' ::
          (renderAttrs as ++ '>' :: Y)))) := by
      show (' ' :: n.data ++ '=' :: '"' :: xmlEscapeChars v.data ++ '"' ::
        renderAttrs as) ++ '>' :: Y = _
      simp [List.append_assoc]
    rw [step]
    show parseAttrsF (f + 1) _ = _
    simp only [parseAttrsF]
    rw [if_neg (by decide), if_neg (by decide), if_pos (by decide)]
    rw [hnd]
    simp only [List.cons_append, List.append_assoc]
    have h1 : List.dropWhile isXmlSpace
        (d :: (tl ++ '=' :: '"' :: (xmlEscapeChars v.data ++ '"' ::
          (renderAttrs as ++ '>' :: Y)))) =
        d :: (tl ++ '=' :: '"' :: (xmlEscapeChars v.data ++ '"' ::
          (renderAttrs as ++ '>' :: Y))) :=
      List.dropWhile_cons_of_neg
        (by rw [(nameChar_facts hdname).2.2.2.2.2]; exact Bool.false_ne_true)
    simp only [h1, List.headD_cons, List.tail_cons]
    rw [if_neg (nameChar_facts hdname).1, if_neg (nameChar_facts hdname).2.1,
      if_pos hdname]
    have h2 := @takeWhile_append_not isNameChar tl '='
      ('"' :: (xmlEscapeChars v.data ++ '"' :: (renderAttrs as ++ '>' :: Y))) htl (by decide)
    have h3 := @dropWhile_append_not isNameChar tl '='
      ('"' :: (xmlEscapeChars v.data ++ '"' :: (renderAttrs as ++ '>' :: Y))) htl (by decide)
    have h4 : List.dropWhile isXmlSpace
        ('=' :: '"' :: (xmlEscapeChars v.data ++ '"' :: (renderAttrs as ++ '>' :: Y))) =
        '=' :: '"' :: (xmlEscapeChars v.data ++ '"' :: (renderAttrs as ++ '>' :: Y)) :=
      List.dropWhile_cons_of_neg (by decide)
    have h5 : List.dropWhile isXmlSpace
        ('"' :: (xmlEscapeChars v.data ++ '"' :: (renderAttrs as ++ '>' :: Y))) =
        '"' :: (xmlEscapeChars v.data ++ '"' :: (renderAttrs as ++ '>' :: Y)) :=
      List.dropWhile_cons_of_neg (by decide)
    simp only [h2, h3, h4, h5, List.headD_cons, List.tail_cons]
    rw [if_pos trivial]
    rw [if_pos (by decide)]
    have hscan : scanAttrValue ((xmlEscapeChars v.data ++ '"' ::
        (renderAttrs as ++ '>' :: Y)).length + 1) '"'
        (xmlEscapeChars v.data ++ '"' :: (renderAttrs as ++ '>' :: Y)) =
        some (v.data, renderAttrs as ++ '>' :: Y) := by
      apply scanAttrValue_escape
      · have := length_le_escape v.data
        simp only [List.length_append, List.length_cons]
        omega
      · exact fun c hc => hvok c hc
    rw [hscan]
    have hih : parseAttrsF f (renderAttrs as ++ '>' :: Y) = some (as, false, Y) := by
      apply ih
      · simp only [List.length_cons] at hf
        omega
      · exact fun p hp => hwf p (List.mem_cons_of_mem _ hp)
    simp only [Option.some_bind, hih, Option.map_some']
    rw [← hnd, data_asString, data_asString]

theorem one_le_weightL (ns : List XmlNode) : 1 ≤ weightL ns := by
  cases ns with
  | nil => simp [weightL]
  | cons n ms => simp only [weightL]; omega

theorem le_length_renderAttrs (as : List (String × String)) :
    as.length ≤ (renderAttrs as).length := by
  induction as with
  | nil => simp [renderAttrs]
  | cons a rest ih =>
    obtain ⟨n, v⟩ := a
    simp only [renderAttrs, List.length_cons, List.length_append]
    omega

theorem renderAttrs_cons_shape (as : List (String × String)) (Z : List Char) :
    ∃ y ys, renderAttrs as ++ '>' :: Z = y :: ys ∧ isNameChar y = false := by
  cases as with
  | nil => exact ⟨'>', Z, by simp [renderAttrs], by decide⟩
  | cons a rest =>
    obtain ⟨n, v⟩ := a
    refine ⟨' ', n.data ++ '=' :: '"' :: (xmlEscapeChars v.data ++ '"' ::
      (renderAttrs rest ++ '>' :: Z)), ?_, by decide⟩
    simp [renderAttrs, List.append_assoc]

theorem renderN_elem_shape (t : String) (as : List (String × String)) (cs : List XmlNode)
    (rest : List Char) :
    renderN (XmlNode.elem t as cs) ++ rest =
      '<' :: (t.data ++ (renderAttrs as ++ ('>' :: (renderL cs ++
        ('<' :: ('/' :: (t.data ++ ('>' :: rest)))))))) := by
  simp [renderN, List.append_assoc]

theorem renderL_stop_cons (ns : List XmlNode) (rest : List Char)
    (h : ∀ s2 ms, ns ≠ XmlNode.text s2 :: ms) :
    ∃ r2, renderL ns ++ '<' :: '/' :: rest = '<' :: r2 := by
  cases ns with
  | nil => exact ⟨'/' :: rest, by simp [renderL]⟩
  | cons n ms =>
    cases n with
    | text s => exact absurd rfl (h s ms)
    | elem t as cs =>
      refine ⟨(t.data ++ (renderAttrs as ++ ('>' :: (renderL cs ++
        ('<' :: ('/' :: (t.data ++ ['>']))))))) ++ (renderL ms ++ '<' :: '/' :: rest), ?_⟩
      simp [renderL, renderN, List.append_assoc]

theorem parse_render_main : ∀ fuel : Nat,
    (∀ (t : String) (as : List (String × String)) (cs : List XmlNode) (rest : List Char),
      wfN (XmlNode.elem t as cs) → weightN (XmlNode.elem t as cs) ≤ fuel →
      parseElemF fuel (renderN (XmlNode.elem t as cs) ++ rest) =
        some (XmlNode.elem t as cs, rest)) ∧
    (∀ (ns : List XmlNode) (rest : List Char),
      wfL ns → weightL ns ≤ fuel →
      parseNodesF fuel (renderL ns ++ '<' :: '/' :: rest) =
        some (ns, '<' :: '/' :: rest)) := by
  intro fuel
  induction fuel with
  | zero =>
    constructor
    · intro t as cs rest _ hwt
      simp only [weightN] at hwt
      omega
    · intro ns rest _ hwt
      have h1 := one_le_weightL ns
      omega
  | succ f ih =>
    constructor
    · intro t as cs rest hwf hwt
      have hwf' := hwf
      simp only [wfN] at hwf'
      obtain ⟨hvt, hwas, hwcs⟩ := hwf'
      simp only [validName] at hvt
      obtain ⟨hne, hall⟩ := hvt
      obtain ⟨d, tl, hnd⟩ : ∃ d tl, t.data = d :: tl := by
        cases h : t.data with
        | nil => exact absurd h hne
        | cons d tl => exact ⟨d, tl, rfl⟩
      have hd : isNameChar d = true := hall d (by rw [hnd]; exact List.mem_cons_self d tl)
      rw [renderN_elem_shape]
      obtain ⟨y, ys, hW, hy⟩ := renderAttrs_cons_shape as
        (renderL cs ++ ('<' :: ('/' :: (t.data ++ ('>' :: rest)))))
      rw [hW]
      show parseElemF (f + 1) _ = _
      simp only [parseElemF]
      rw [if_pos trivial]
      have hhead : ∀ X : List Char, (t.data ++ X).headD '\x00' = d := by
        intro X; rw [hnd]; rfl
      rw [hhead]
      rw [if_pos hd]
      have htw := @takeWhile_append_not isNameChar t.data y ys hall hy
      have hdw := @dropWhile_append_not isNameChar t.data y ys hall hy
      simp only [htw, hdw]
      have hlen : as.length + 1 ≤ (y :: ys).length + 1 := by
        have h := congrArg List.length hW
        simp only [List.length_append, List.length_cons] at h ⊢
        have h2 := le_length_renderAttrs as
        omega
      have hpa := parseAttrsF_render as
        (renderL cs ++ ('<' :: ('/' :: (t.data ++ ('>' :: rest)))))
        ((y :: ys).length + 1) hlen hwas
      rw [hW] at hpa
      rw [hpa]
      simp only [Option.some_bind]
      rw [if_neg (by decide : ¬ (false = true))]
      have hwcsf : weightL cs ≤ f := by
        simp only [weightN] at hwt
        omega
      rw [ih.2 cs (t.data ++ '>' :: rest) hwcs hwcsf]
      simp only [Option.some_bind, List.headD_cons, List.tail_cons]
      rw [if_pos (by decide)]
      have htw2 := @takeWhile_append_not isNameChar t.data '>' rest hall (by decide)
      have hdw2 := @dropWhile_append_not isNameChar t.data '>' rest hall (by decide)
      simp only [htw2, hdw2]
      rw [if_pos trivial]
      have h6 : List.dropWhile isXmlSpace ('>' :: rest) = '>' :: rest :=
        List.dropWhile_cons_of_neg (by decide)
      simp only [h6, List.headD_cons, List.tail_cons]
      rw [if_pos trivial]
      rw [data_asString]
    · intro ns rest hwf hwt
      cases ns with
      | nil => simp [renderL, parseNodesF]
      | cons n ms =>
        have hwf' := hwf
        simp only [wfL] at hwf'
        obtain ⟨hn, hms, hadj⟩ := hwf'
        cases n with
        | text s =>
          have hn' := hn
          simp only [wfN] at hn'
          obtain ⟨hne, hsafe⟩ := hn'
          obtain ⟨c0, cs0, hs0⟩ : ∃ c0 cs0, s.data = c0 :: cs0 := by
            cases h : s.data with
            | nil => exact absurd h hne
            | cons c0 cs0 => exact ⟨c0, cs0, rfl⟩
          obtain ⟨r', hr'⟩ := renderL_stop_cons ms rest
            (fun s2 ms2 heq => by rw [heq] at hadj; exact hadj)
          have hshape : renderL (XmlNode.text s :: ms) ++ '<' :: '/' :: rest =
              xmlEscapeChars s.data ++ (renderL ms ++ '<' :: '/' :: rest) := by
            simp [renderL, renderN, List.append_assoc]
          rw [hshape, hs0]
          obtain ⟨dd, ds, hesc, hdlt⟩ := escape_head_safe c0 cs0
          rw [hesc, List.cons_append]
          show parseNodesF (f + 1) _ = _
          simp only [parseNodesF]
          rw [if_neg hdlt]
          have hback : dd :: (ds ++ (renderL ms ++ '<' :: '/' :: rest)) =
              xmlEscapeChars (c0 :: cs0) ++ (renderL ms ++ '<' :: '/' :: rest) := by
            rw [hesc, List.cons_append]
          rw [hback]
          have hflen : (c0 :: cs0).length + 1 ≤
              (ds ++ (renderL ms ++ '<' :: '/' :: rest)).length + 1 := by
            have h := congrArg List.length hesc
            have h2 := length_le_escape (c0 :: cs0)
            simp only [List.length_cons, List.length_append] at h h2 ⊢
            omega
          have hsafecons : ∀ c ∈ (c0 :: cs0), badTextCtrl c = false := by
            rw [← hs0]; exact hsafe
          rw [scanText_escape (c0 :: cs0) (renderL ms ++ '<' :: '/' :: rest)
            ((ds ++ (renderL ms ++ '<' :: '/' :: rest)).length + 1) hflen hsafecons
            (Or.inr ⟨r', hr'⟩)]
          simp only [Option.some_bind]
          have hwtf : weightL ms ≤ f := by
            simp only [weightL, weightN] at hwt
            omega
          rw [ih.2 ms rest hms hwtf]
          simp only [Option.map_some']
          rw [← hs0, data_asString]
        | elem t2 as2 cs2 =>
          have hvt2 : validName t2 := by
            have hn' := hn
            simp only [wfN] at hn'
            exact hn'.1
          obtain ⟨hne2, hall2⟩ := hvt2
          obtain ⟨d2, tl2, hnd2⟩ : ∃ d2 tl2, t2.data = d2 :: tl2 := by
            cases h : t2.data with
            | nil => exact absurd h hne2
            | cons d2 tl2 => exact ⟨d2, tl2, rfl⟩
          have hd2 : isNameChar d2 = true :=
            hall2 d2 (by rw [hnd2]; exact List.mem_cons_self d2 tl2)
          have hshape : renderL (XmlNode.elem t2 as2 cs2 :: ms) ++ '<' :: '/' :: rest =
              renderN (XmlNode.elem t2 as2 cs2) ++ (renderL ms ++ '<' :: '/' :: rest) := by
            simp [renderL, List.append_assoc]
          rw [hshape, renderN_elem_shape]
          show parseNodesF (f + 1) _ = _
          simp only [parseNodesF]
          rw [if_pos trivial]
          have hhead2 : ∀ X : List Char, (t2.data ++ X).headD '\x00' = d2 := by
            intro X; rw [hnd2]; rfl
          rw [hhead2]
          rw [if_neg (show ¬ (d2 = '/') from (nameChar_facts hd2).2.1)]
          have hweight : weightN (XmlNode.elem t2 as2 cs2) ≤ f := by
            simp only [weightL, weightN] at hwt ⊢
            omega
          have hpe := ih.1 t2 as2 cs2 (renderL ms ++ '<' :: '/' :: rest) hn hweight
          rw [renderN_elem_shape] at hpe
          rw [hpe]
          simp only [Option.some_bind]
          have hwtf : weightL ms ≤ f := by
            simp only [weightL, weightN] at hwt
            omega
          rw [ih.2 ms rest hms hwtf]
          simp only [Option.map_some']

theorem joinLines_eq_mid (l : String) (rest : List String) :
    joinLines (l :: rest) = l.data ++ midChars rest := by
  induction rest generalizing l with
  | nil => simp [joinLines, midChars]
  | cons a b ih =>
    rw [show joinLines (l :: a :: b) = l.data ++ '\n' :: joinLines (a :: b) from rfl, ih a]
    simp [midChars, List.append_assoc]

theorem midChars_append (A B : List String) :
    midChars (A ++ B) = midChars A ++ midChars B := by
  simp [midChars]

theorem renderN_text (s : String) : renderN (XmlNode.text s) = xmlEscapeChars s.data := by
  simp [renderN]

theorem renderL_nil : renderL [] = [] := by simp [renderL]

theorem renderL_cons (n : XmlNode) (ns : List XmlNode) :
    renderL (n :: ns) = renderN n ++ renderL ns := by
  simp [renderL]

theorem renderN_textEl (tag v : String) :
    renderN (textEl tag v) =
      '<' :: (tag.data ++ ('>' :: (xmlEscapeChars v.data ++
        ('<' :: ('/' :: (tag.data ++ ['>'])))))) := by
  by_cases h : v = ""
  · subst h
    simp [textEl, renderN, renderL, renderAttrs]
    rfl
  · simp [textEl, if_neg h, renderN, renderL, renderAttrs, List.append_assoc]

theorem renderL_append (A B : List XmlNode) :
    renderL (A ++ B) = renderL A ++ renderL B := by
  induction A with
  | nil => simp [renderL_nil]
  | cons n ns ih => simp [renderL_cons, ih, List.append_assoc]

theorem itemNodes_lines (tag pre post : String) (vals : List String)
    (h : ∀ v : String, '\n' :: (pre ++ xmlEscape v ++ post).data =
      "\n        ".data ++ renderN (textEl tag v)) :
    midChars (vals.map (fun r => pre ++ xmlEscape r ++ post)) =
      renderL (itemNodes tag vals) := by
  induction vals with
  | nil =>
    rw [show itemNodes tag ([] : List String) = [] from rfl, renderL_nil]
    rfl
  | cons v vs ih =>
    have h1 : itemNodes tag (v :: vs) =
        wsT "\n        " :: textEl tag v :: itemNodes tag vs := rfl
    rw [h1, renderL_cons, renderL_cons]
    have h2 : midChars ((v :: vs).map (fun r => pre ++ xmlEscape r ++ post)) =
        ('\n' :: (pre ++ xmlEscape v ++ post).data) ++
          midChars (vs.map (fun r => pre ++ xmlEscape r ++ post)) := by
      simp [midChars]
    rw [h2, h v, ih]
    have hws : renderN (wsT "\n        ") = "\n        ".data := by
      rw [show wsT "\n        " = XmlNode.text "\n        " from rfl, renderN_text]
      rfl
    rw [hws]
    simp [List.append_assoc]

theorem importanceNorm_cases (s : String) :
    importanceNorm s = "high" ∨ importanceNorm s = "medium" ∨ importanceNorm s = "low" := by
  unfold importanceNorm
  split
  · rename_i h
    simp only [Bool.or_eq_true, decide_eq_true_eq] at h
    rcases h with (h | h) | h <;> subst h
    · exact Or.inl rfl
    · exact Or.inr (Or.inl rfl)
    · exact Or.inr (Or.inr rfl)
  · exact Or.inr (Or.inl rfl)

theorem escape_importanceNorm (s : String) :
    xmlEscapeChars (importanceNorm s).data = (importanceNorm s).data := by
  rcases importanceNorm_cases s with h | h | h <;> rw [h] <;> rfl

theorem wrap_block (wrapTag tag pre post openL closeL : String) (vals : List String)
    (hitem : ∀ v : String, '\n' :: (pre ++ xmlEscape v ++ post).data =
      "\n        ".data ++ renderN (textEl tag v))
    (hopen : '\n' :: openL.data = "\n      ".data ++ ('<' :: (wrapTag.data ++ ['>'])))
    (hclose : '\n' :: closeL.data =
      "\n      ".data ++ ('<' :: ('/' :: (wrapTag.data ++ ['>'])))) :
    midChars ([openL] ++ vals.map (fun r => pre ++ xmlEscape r ++ post) ++ [closeL]) =
      renderL [wsT "\n      ",
        XmlNode.elem wrapTag [] (itemNodes tag vals ++ [wsT "\n      "])] := by
  rw [midChars_append, midChars_append]
  rw [itemNodes_lines tag pre post vals hitem]
  rw [renderL_cons, renderL_cons, renderL_nil]
  have hws : renderN (wsT "\n      ") = "\n      ".data := by
    rw [show wsT "\n      " = XmlNode.text "\n      " from rfl, renderN_text]
    rfl
  have hel : renderN (XmlNode.elem wrapTag [] (itemNodes tag vals ++ [wsT "\n      "])) =
      '<' :: (wrapTag.data ++ ('>' :: (renderL (itemNodes tag vals) ++
        ("\n      ".data ++ ('<' :: ('/' :: (wrapTag.data ++ ['>']))))))) := by
    rw [show renderN (XmlNode.elem wrapTag [] (itemNodes tag vals ++ [wsT "\n      "])) =
      '<' :: wrapTag.data ++ renderAttrs [] ++
        '>' :: renderL (itemNodes tag vals ++ [wsT "\n      "]) ++
        '<' :: '/' :: wrapTag.data ++ ['>'] from by simp [renderN]]
    rw [renderL_append, renderL_cons, renderL_nil, hws]
    simp [renderAttrs, List.append_assoc]
  rw [hws, hel]
  have ho : midChars [openL] = '\n' :: openL.data := by simp [midChars]
  have hc : midChars [closeL] = '\n' :: closeL.data := by simp [midChars]
  rw [ho, hc, hopen, hclose]
  simp [List.append_assoc]

theorem renderN_elem_eq (t : String) (as : List (String × String)) (cs : List XmlNode) :
    renderN (XmlNode.elem t as cs) =
      '<' :: t.data ++ renderAttrs as ++ '>' :: renderL cs ++
        '<' :: '/' :: t.data ++ ['>'] := by
  simp [renderN]

theorem midChars_single (l : String) : midChars [l] = '\n' :: l.data := by
  simp [midChars]

theorem renderN_ws (s : String) : renderN (wsT s) = xmlEscapeChars s.data := by
  rw [show wsT s = XmlNode.text s from rfl, renderN_text]

theorem page_lines_render (p : WikiPage) :
    midChars (pageLines p) = "\n    ".data ++ renderN (pageElem p) := by
  have hFB := wrap_block "relevant_files" "file_path" "        <file_path>" "</file_path>"
    "      <relevant_files>" "      </relevant_files>" p.filePaths
    (fun v => by rw [renderN_textEl]; rfl) (by rfl) (by rfl)
  have hRB := wrap_block "related_pages" "related" "        <related>" "</related>"
    "      <related_pages>" "      </related_pages>" p.relatedPages
    (fun v => by rw [renderN_textEl]; rfl) (by rfl) (by rfl)
  have hFB2 : midChars (if p.filePaths.isEmpty then [] else
      ["      <relevant_files>"]
      ++ p.filePaths.map (fun fp => "        <file_path>" ++ xmlEscape fp ++ "</file_path>")
      ++ ["      </relevant_files>"]) =
      renderL (if p.filePaths.isEmpty then [] else
        [wsT "\n      ",
         XmlNode.elem "relevant_files" []
           (itemNodes "file_path" p.filePaths ++ [wsT "\n      "])]) := by
    by_cases hf : p.filePaths.isEmpty
    · rw [if_pos hf, if_pos hf, renderL_nil]; rfl
    · rw [if_neg hf, if_neg hf]; exact hFB
  have hRB2 : midChars (if p.relatedPages.isEmpty then [] else
      ["      <related_pages>"]
      ++ p.relatedPages.map (fun rp => "        <related>" ++ xmlEscape rp ++ "</related>")
      ++ ["      </related_pages>"]) =
      renderL (if p.relatedPages.isEmpty then [] else
        [wsT "\n      ",
         XmlNode.elem "related_pages" []
           (itemNodes "related" p.relatedPages ++ [wsT "\n      "])]) := by
    by_cases hr : p.relatedPages.isEmpty
    · rw [if_pos hr, if_pos hr, renderL_nil]; rfl
    · rw [if_neg hr, if_neg hr]; exact hRB
  have hPS2 : midChars (if p.parent_section = "" then [] else
      ["      <parent_section>" ++ xmlEscape p.parent_section ++ "</parent_section>"]) =
      renderL (if p.parent_section = "" then [] else
        [wsT "\n      ", textEl "parent_section" p.parent_section]) := by
    by_cases hp : p.parent_section = ""
    · rw [if_pos hp, if_pos hp, renderL_nil]; rfl
    · rw [if_neg hp, if_neg hp, renderL_cons, renderL_cons, renderL_nil,
        midChars_single, renderN_ws, renderN_textEl]
      simp [xmlEscape, List.append_assoc]
      rfl
  simp only [pageLines, pageElem, pageElemChildren]
  rw [midChars_append, midChars_append, midChars_append, midChars_append,
    midChars_append, midChars_append, midChars_append]
  rw [hFB2, hRB2, hPS2]
  rw [renderN_elem_eq, renderL_append, renderL_append, renderL_append, renderL_append,
    renderL_cons, renderL_cons, renderL_cons, renderL_cons, renderL_cons, renderL_cons,
    renderL_cons, renderL_nil]
  rw [renderN_ws, renderN_ws, renderN_textEl, renderN_textEl, renderN_textEl]
  rw [midChars_single, midChars_single, midChars_single, midChars_single, midChars_single]
  simp only [renderAttrs, escape_importanceNorm, xmlEscape, String.data_append,
    asString_data, List.append_assoc, List.cons_append, List.nil_append, List.append_nil]
  rfl

theorem section_lines_render (sec : WikiSection) :
    midChars (sectionLines sec) = "\n    ".data ++ renderN (sectionElem sec) := by
  have hPB := wrap_block "pages" "page_ref" "        <page_ref>" "</page_ref>"
    "      <pages>" "      </pages>" sec.pages
    (fun v => by rw [renderN_textEl]; rfl) (by rfl) (by rfl)
  have hSB := wrap_block "subsections" "section_ref" "        <section_ref>" "</section_ref>"
    "      <subsections>" "      </subsections>" sec.subsections
    (fun v => by rw [renderN_textEl]; rfl) (by rfl) (by rfl)
  have hPB2 : midChars (if sec.pages.isEmpty then [] else
      ["      <pages>"]
      ++ sec.pages.map (fun r => "        <page_ref>" ++ xmlEscape r ++ "</page_ref>")
      ++ ["      </pages>"]) =
      renderL (if sec.pages.isEmpty then [] else
        [wsT "\n      ",
         XmlNode.elem "pages" [] (itemNodes "page_ref" sec.pages ++ [wsT "\n      "])]) := by
    by_cases hp : sec.pages.isEmpty
    · rw [if_pos hp, if_pos hp, renderL_nil]; rfl
    · rw [if_neg hp, if_neg hp]; exact hPB
  have hSB2 : midChars (if sec.subsections.isEmpty then [] else
      ["      <subsections>"]
      ++ sec.subsections.map
          (fun r => "        <section_ref>" ++ xmlEscape r ++ "</section_ref>")
      ++ ["      </subsections>"]) =
      renderL (if sec.subsections.isEmpty then [] else
        [wsT "\n      ",
         XmlNode.elem "subsections" []
           (itemNodes "section_ref" sec.subsections ++ [wsT "\n      "])]) := by
    by_cases hs : sec.subsections.isEmpty
    · rw [if_pos hs, if_pos hs, renderL_nil]; rfl
    · rw [if_neg hs, if_neg hs]; exact hSB
  simp only [sectionLines, sectionElem, sectionElemChildren]
  rw [midChars_append, midChars_append, midChars_append, midChars_append]
  rw [hPB2, hSB2]
  rw [renderN_elem_eq, renderL_append, renderL_append, renderL_append,
    renderL_cons, renderL_cons, renderL_cons, renderL_nil]
  rw [renderN_ws, renderN_ws, renderN_textEl]
  rw [midChars_single, midChars_single, midChars_single]
  simp only [renderAttrs, xmlEscape, String.data_append, asString_data,
    List.append_assoc, List.cons_append, List.nil_append, List.append_nil]
  rfl

theorem pages_flat_render (ps : List WikiPage) :
    midChars (ps.flatMap pageLines) =
      renderL (ps.flatMap (fun p => [wsT "\n    ", pageElem p])) := by
  induction ps with
  | nil => simp [midChars, renderL_nil]
  | cons p ps ih =>
    have h1 : (p :: ps).flatMap pageLines = pageLines p ++ ps.flatMap pageLines := by simp
    have h2 : (p :: ps).flatMap (fun q => [wsT "\n    ", pageElem q]) =
        wsT "\n    " :: pageElem p :: ps.flatMap (fun q => [wsT "\n    ", pageElem q]) := by
      simp
    rw [h1, h2, midChars_append, page_lines_render, ih, renderL_cons, renderL_cons,
      renderN_ws]
    simp [List.append_assoc]
    rfl

theorem sections_flat_render (ss : List WikiSection) :
    midChars (ss.flatMap sectionLines) =
      renderL (ss.flatMap (fun sec => [wsT "\n    ", sectionElem sec])) := by
  induction ss with
  | nil => simp [midChars, renderL_nil]
  | cons sec ss ih =>
    have h1 : (sec :: ss).flatMap sectionLines =
        sectionLines sec ++ ss.flatMap sectionLines := by simp
    have h2 : (sec :: ss).flatMap (fun q => [wsT "\n    ", sectionElem q]) =
        wsT "\n    " :: sectionElem sec ::
          ss.flatMap (fun q => [wsT "\n    ", sectionElem q]) := by
      simp
    rw [h1, h2, midChars_append, section_lines_render, ih, renderL_cons, renderL_cons,
      renderN_ws]
    simp [List.append_assoc]
    rfl

theorem joinConvert_eq_render (s : WikiStructure) :
    joinLines (convertLines s) = renderN (expectedTree s) := by
  have hSB : midChars (if s.sections.isEmpty then [] else
      ["  <sections>"] ++ s.sections.flatMap sectionLines ++ ["  </sections>"]) =
      renderL (if s.sections.isEmpty then [] else
        [wsT "\n  ",
         XmlNode.elem "sections" []
           (s.sections.flatMap (fun sec => [wsT "\n    ", sectionElem sec]) ++
             [wsT "\n  "])]) := by
    by_cases hs : s.sections.isEmpty
    · rw [if_pos hs, if_pos hs, renderL_nil]; rfl
    · rw [if_neg hs, if_neg hs]
      rw [midChars_append, midChars_append, sections_flat_render]
      rw [renderL_cons, renderL_cons, renderL_nil, renderN_ws]
      rw [renderN_elem_eq, renderL_append, renderL_cons, renderL_nil, renderN_ws]
      rw [midChars_single, midChars_single]
      simp only [renderAttrs, List.append_assoc, List.cons_append, List.nil_append,
        List.append_nil]
      rfl
  have hc : convertLines s = "<wiki_structure>" ::
      (["  <title>" ++ xmlEscape s.title ++ "</title>"] ++
        (["  <description>" ++ xmlEscape s.description ++ "</description>"] ++
          ((if s.sections.isEmpty then [] else
            ["  <sections>"] ++ s.sections.flatMap sectionLines ++ ["  </sections>"]) ++
            (["  <pages>"] ++ (s.pages.flatMap pageLines ++
              (["  </pages>"] ++ ["</wiki_structure>"])))))) := by
    simp [convertLines, List.append_assoc]
  rw [hc, joinLines_eq_mid]
  rw [midChars_append, midChars_append, midChars_append, midChars_append,
    midChars_append, midChars_append]
  rw [hSB, pages_flat_render]
  simp only [expectedTree, expectedChildren]
  rw [renderN_elem_eq, renderL_append, renderL_append,
    renderL_cons, renderL_cons, renderL_cons, renderL_cons,
    renderL_cons, renderL_cons, renderL_cons, renderL_nil]
  rw [renderN_elem_eq, renderL_append, renderL_cons, renderL_nil]
  rw [renderN_ws, renderN_ws, renderN_textEl, renderN_textEl]
  rw [midChars_single, midChars_single, midChars_single, midChars_single,
    midChars_single]
  simp only [renderAttrs, xmlEscape, String.data_append, asString_data,
    List.append_assoc, List.cons_append, List.nil_append, List.append_nil]
  rfl

theorem hasPrefixCL_append_of {p X : List Char} (B : List Char)
    (h : hasPrefixCL p X = true) : hasPrefixCL p (X ++ B) = true := by
  induction p generalizing X with
  | nil => rfl
  | cons a ps ih =>
    cases X with
    | nil => exact absurd h (by simp [hasPrefixCL])
    | cons c cs =>
      simp only [hasPrefixCL, Bool.and_eq_true] at h ⊢
      exact ⟨h.1, ih h.2⟩

theorem noCloseW_append_no_lt {A : List Char} (B : List Char)
    (h : ∀ c ∈ A, c ≠ '<') : noCloseW (A ++ B) = noCloseW B := by
  induction A with
  | nil => rfl
  | cons a A' ih =>
    have ha : a ≠ '<' := h a (List.mem_cons_self a A')
    simp only [List.cons_append, noCloseW, List.append_eq, decide_eq_true_eq]
    rw [ih (fun c hc => h c (List.mem_cons_of_mem a hc))]
    simp [ha]

theorem ampClosed_append_no_amp {A : List Char} (B : List Char)
    (h : ∀ c ∈ A, c ≠ '&') : ampClosed (A ++ B) = ampClosed B := by
  induction A with
  | nil => rfl
  | cons a A' ih =>
    have ha : a ≠ '&' := h a (List.mem_cons_self a A')
    simp only [List.cons_append, ampClosed, List.append_eq]
    rw [if_neg ha, ih (fun c hc => h c (List.mem_cons_of_mem a hc))]
    simp

theorem escapeChar_no_lt (c : Char) : ∀ d ∈ xmlEscapeChar c, d ≠ '<' := by
  intro d hd
  unfold xmlEscapeChar at hd
  split at hd
  · simp at hd; rcases hd with h | h | h | h | h <;> subst h <;> decide
  · split at hd
    · simp at hd; rcases hd with h | h | h | h <;> subst h <;> decide
    · split at hd
      · simp at hd; rcases hd with h | h | h | h <;> subst h <;> decide
      · split at hd
        · simp at hd; rcases hd with h | h | h | h | h | h <;> subst h <;> decide
        · split at hd
          · simp at hd; rcases hd with h | h | h | h | h | h <;> subst h <;> decide
          · rename_i h1 h2 h3 h4 h5
            simp at hd
            subst hd
            exact h2

theorem escape_no_lt (cs : List Char) : ∀ d ∈ xmlEscapeChars cs, d ≠ '<' := by
  intro d hd
  unfold xmlEscapeChars at hd
  simp only [List.mem_flatMap] at hd
  obtain ⟨c, _, hdc⟩ := hd
  exact escapeChar_no_lt c d hdc

theorem escapeChar_no_amp_tail (c : Char) :
    xmlEscapeChar c = ['&', 'a', 'm', 'p', ';'] ∨ xmlEscapeChar c = ['&', 'l', 't', ';'] ∨
    xmlEscapeChar c = ['&', 'g', 't', ';'] ∨ xmlEscapeChar c = ['&', 'q', 'u', 'o', 't', ';'] ∨
    xmlEscapeChar c = ['&', 'a', 'p', 'o', 's', ';'] ∨
    (xmlEscapeChar c = [c] ∧ c ≠ '&') := by
  unfold xmlEscapeChar
  by_cases h1 : c = '&'
  · subst h1; left; rfl
  · rw [if_neg h1]
    by_cases h2 : c = '<'
    · subst h2; right; left; rfl
    · rw [if_neg h2]
      by_cases h3 : c = '>'
      · subst h3; right; right; left; rfl
      · rw [if_neg h3]
        by_cases h4 : c = '"'
        · subst h4; right; right; right; left; rfl
        · rw [if_neg h4]
          by_cases h5 : c = '\''
          · subst h5; right; right; right; right; left; rfl
          · rw [if_neg h5]
            exact Or.inr (Or.inr (Or.inr (Or.inr (Or.inr ⟨rfl, h1⟩))))

theorem escapeChar_good {c : Char} (h : goodChar c = true) :
    ∀ d ∈ xmlEscapeChar c, goodChar d = true := by
  intro d hd
  rcases escapeChar_no_amp_tail c with he | he | he | he | he | ⟨he, _⟩ <;> rw [he] at hd
  · simp at hd; rcases hd with h | h | h | h | h <;> subst h <;> decide
  · simp at hd; rcases hd with h | h | h | h <;> subst h <;> decide
  · simp at hd; rcases hd with h | h | h | h <;> subst h <;> decide
  · simp at hd; rcases hd with h | h | h | h | h | h <;> subst h <;> decide
  · simp at hd; rcases hd with h | h | h | h | h | h <;> subst h <;> decide
  · simp at hd; subst hd; exact h

theorem escape_good {cs : List Char} (h : ∀ c ∈ cs, goodChar c = true) :
    ∀ d ∈ xmlEscapeChars cs, goodChar d = true := by
  intro d hd
  unfold xmlEscapeChars at hd
  simp only [List.mem_flatMap] at hd
  obtain ⟨c, hc, hdc⟩ := hd
  exact escapeChar_good (h c hc) d hdc

theorem removeCtrl_id {cs : List Char} (h : ∀ c ∈ cs, goodChar c = true) :
    removeCtrlChars cs = cs := by
  unfold removeCtrlChars
  rw [List.filter_eq_self]
  intro c hc
  have := h c hc
  unfold goodChar at this
  simp only [Bool.and_eq_true] at this
  simp [this.1]

theorem normalizeLines_id {cs : List Char} (h : ∀ c ∈ cs, c ≠ '\r') :
    normalizeLines cs = cs := by
  induction cs with
  | nil => rfl
  | cons c rest ih =>
    have hc : c ≠ '\r' := h c (List.mem_cons_self c rest)
    simp only [normalizeLines]
    rw [if_neg hc, ih (fun d hd => h d (List.mem_cons_of_mem c hd))]

theorem good_ne_cr {c : Char} (h : goodChar c = true) : c ≠ '\r' := by
  unfold goodChar at h
  simp only [Bool.and_eq_true, decide_eq_true_eq] at h
  exact h.2

theorem fixAmps_id {cs : List Char} (h : ampClosed cs = true) :
    fixAmpersands cs = cs := by
  induction cs with
  | nil => rfl
  | cons c rest ih
  =>
    simp only [ampClosed, Bool.and_eq_true] at h
    obtain ⟨h1, h2⟩ := h
    simp only [fixAmpersands]
    by_cases hc : c = '&'
    · subst hc
      rw [if_pos rfl] at h1 ⊢
      have hany : entityHeads.any (fun p => hasPrefixCL p rest) = true := by
        simp only [entityHeads, List.any_cons, List.any_nil, Bool.or_eq_true] at h1 ⊢
        rcases h1 with (((ha | ha) | ha) | ha) | ha <;> simp [ha]
      rw [if_pos hany, ih h2]
    · rw [if_neg hc, ih h2]

theorem noCloseW_cons_ne {c : Char} (rest : List Char) (hc : c ≠ '<') :
    noCloseW (c :: rest) = noCloseW rest := by
  simp [noCloseW, hc]

theorem ampClosed_escape (cs : List Char) :
    ∀ X, ampClosed X = true → ampClosed (xmlEscapeChars cs ++ X) = true := by
  induction cs with
  | nil => intro X hX; exact hX
  | cons c cs ih =>
    intro X hX
    rw [show xmlEscapeChars (c :: cs) = xmlEscapeChar c ++ xmlEscapeChars cs from rfl,
      List.append_assoc]
    rcases escapeChar_no_amp_tail c with he | he | he | he | he | ⟨he, hne⟩ <;> rw [he]
    · simp [ampClosed, hasPrefixCL, List.cons_append, ih X hX]
    · simp [ampClosed, hasPrefixCL, List.cons_append, ih X hX]
    · simp [ampClosed, hasPrefixCL, List.cons_append, ih X hX]
    · simp [ampClosed, hasPrefixCL, List.cons_append, ih X hX]
    · simp [ampClosed, hasPrefixCL, List.cons_append, ih X hX]
    · simp [ampClosed, hne, List.cons_append, ih X hX]

theorem renderAttrs_good {as : List (String × String)}
    (h : ∀ p ∈ as, (∀ c ∈ p.1.data, goodChar c = true) ∧
      (∀ c ∈ p.2.data, goodChar c = true)) :
    ∀ c ∈ renderAttrs as, goodChar c = true := by
  induction as with
  | nil => intro c hc; simp [renderAttrs] at hc
  | cons a rest ih =>
    obtain ⟨n, v⟩ := a
    intro c hc
    have h1 := h (n, v) (List.mem_cons_self _ _)
    simp only [renderAttrs, List.cons_append, List.mem_cons, List.mem_append] at hc
    simp only [or_assoc] at hc
    rcases hc with hc | hc | hc | hc | hc | hc | hc <;>
      first
        | (subst hc; decide)
        | exact h1.1 c hc
        | exact escape_good h1.2 c hc
        | exact ih (fun p hp => h p (List.mem_cons_of_mem _ hp)) c hc

theorem render_good : ∀ fuel : Nat,
    (∀ (t : String) (as : List (String × String)) (cs : List XmlNode),
      niceN (XmlNode.elem t as cs) → weightN (XmlNode.elem t as cs) ≤ fuel →
      ∀ c ∈ renderN (XmlNode.elem t as cs), goodChar c = true) ∧
    (∀ ns : List XmlNode, niceL ns → weightL ns ≤ fuel →
      ∀ c ∈ renderL ns, goodChar c = true) := by
  intro fuel
  induction fuel with
  | zero =>
    constructor
    · intro t as cs _ hwt
      simp only [weightN] at hwt
      omega
    · intro ns _ hwt
      have h1 := one_le_weightL ns
      omega
  | succ f ih =>
    constructor
    · intro t as cs hnc hwt c hc
      have hnc' := hnc
      simp only [niceN] at hnc'
      obtain ⟨htag, hattr, hkids⟩ := hnc'
      rw [renderN_elem_eq] at hc
      simp only [List.cons_append, List.mem_cons, List.mem_append,
        List.mem_singleton] at hc
      have hkid : ∀ d ∈ renderL cs, goodChar d = true := by
        apply ih.2 cs hkids
        simp only [weightN] at hwt
        omega
      simp only [or_assoc] at hc
      rcases hc with hc | hc | hc | hc | hc | hc | hc | hc | hc | hc <;>
        first
          | (subst hc; decide)
          | exact htag c hc
          | exact renderAttrs_good hattr c hc
          | exact hkid c hc
          | simp at hc
    · intro ns hnc hwt c hc
      cases ns with
      | nil =>
        rw [renderL_nil] at hc
        simp at hc
      | cons n ms =>
        have hnc' := hnc
        simp only [niceL] at hnc'
        obtain ⟨hn, hms⟩ := hnc'
        rw [renderL_cons] at hc
        simp only [List.mem_append] at hc
        have hwt' : weightL ms ≤ f := by
          simp only [weightL] at hwt
          have h2 := one_le_weightL ms
          omega
        rcases hc with hc | hc
        · cases n with
          | text s =>
            rw [renderN_text] at hc
            simp only [niceN] at hn
            exact escape_good hn c hc
          | elem t2 as2 cs2 =>
            apply ih.1 t2 as2 cs2 hn _ c hc
            simp only [weightL, weightN] at hwt ⊢
            omega
        · exact ih.2 ms hms hwt' c hc

theorem ampClosed_cons_ne {c : Char} (rest : List Char) (hc : c ≠ '&') :
    ampClosed (c :: rest) = ampClosed rest := by
  simp [ampClosed, hc]

theorem nameChars_no_lt {t : String} (h : ∀ c ∈ t.data, isNameChar c = true) :
    ∀ c ∈ t.data, c ≠ '<' :=
  fun c hc => (nameChar_facts (h c hc)).2.2.2.1

theorem nameChars_no_amp {t : String} (h : ∀ c ∈ t.data, isNameChar c = true) :
    ∀ c ∈ t.data, c ≠ '&' :=
  fun c hc => (nameChar_facts (h c hc)).2.2.2.2.1

theorem renderAttrs_no_lt {as : List (String × String)}
    (h : ∀ p ∈ as, validName p.1 ∧ attrOkStr p.2) :
    ∀ c ∈ renderAttrs as, c ≠ '<' := by
  induction as with
  | nil => intro c hc; simp [renderAttrs] at hc
  | cons a rest ih =>
    obtain ⟨n, v⟩ := a
    intro c hc
    have h1 := h (n, v) (List.mem_cons_self _ _)
    simp only [renderAttrs, List.cons_append, List.mem_cons, List.mem_append] at hc
    simp only [or_assoc] at hc
    rcases hc with hc | hc | hc | hc | hc | hc | hc <;>
      first
        | (subst hc; decide)
        | exact nameChars_no_lt h1.1.2 c hc
        | exact escape_no_lt v.data c hc
        | exact ih (fun p hp => h p (List.mem_cons_of_mem _ hp)) c hc

theorem ampClosed_renderAttrs (as : List (String × String))
    (h : ∀ p ∈ as, validName p.1 ∧ attrOkStr p.2) :
    ∀ X, ampClosed X = true → ampClosed (renderAttrs as ++ X) = true := by
  induction as with
  | nil => intro X hX; exact hX
  | cons a rest ih =>
    obtain ⟨n, v⟩ := a
    intro X hX
    have h1 := h (n, v) (List.mem_cons_self _ _)
    have hshape : renderAttrs ((n, v) :: rest) ++ X =
        ' ' :: (n.data ++ ('=' :: '"' :: (xmlEscapeChars v.data ++
          ('"' :: (renderAttrs rest ++ X))))) := by
      simp [renderAttrs, List.append_assoc]
    rw [hshape, ampClosed_cons_ne _ (by decide),
      ampClosed_append_no_amp _ (nameChars_no_amp h1.1.2),
      ampClosed_cons_ne _ (by decide), ampClosed_cons_ne _ (by decide)]
    apply ampClosed_escape
    rw [ampClosed_cons_ne _ (by decide)]
    exact ih (fun p hp => h p (List.mem_cons_of_mem _ hp)) X hX

theorem render_noCloseW : ∀ fuel : Nat,
    (∀ (t : String) (as : List (String × String)) (cs : List XmlNode),
      wfN (XmlNode.elem t as cs) → noWN (XmlNode.elem t as cs) →
      weightN (XmlNode.elem t as cs) ≤ fuel →
      ∀ X, noCloseW X = true → noCloseW (renderN (XmlNode.elem t as cs) ++ X) = true) ∧
    (∀ ns : List XmlNode, wfL ns → noWL ns → weightL ns ≤ fuel →
      ∀ X, noCloseW X = true → noCloseW (renderL ns ++ X) = true) := by
  intro fuel
  induction fuel with
  | zero =>
    constructor
    · intro t as cs _ _ hwt
      simp only [weightN] at hwt
      omega
    · intro ns _ _ hwt
      have h1 := one_le_weightL ns
      omega
  | succ f ih =>
    constructor
    · intro t as cs hwf hnc hwt X hX
      have hwf' := hwf
      simp only [wfN] at hwf'
      obtain ⟨hvt, hwas, hwcs⟩ := hwf'
      have hnc' := hnc
      simp only [noWN] at hnc'
      obtain ⟨hwtag, hncs⟩ := hnc'
      obtain ⟨hne, hall⟩ := hvt
      obtain ⟨d, tl, hnd⟩ : ∃ d tl, t.data = d :: tl := by
        cases hh : t.data with
        | nil => exact absurd hh hne
        | cons d tl => exact ⟨d, tl, rfl⟩
      have hd : isNameChar d = true := hall d (by rw [hnd]; exact List.mem_cons_self d tl)
      have hdw : d ≠ 'w' := by rw [hnd] at hwtag; exact hwtag
      have hpre1 : ∀ R : List Char, hasPrefixCL "/w".data (t.data ++ R) = false := by
        intro R
        rw [show "/w".data = ['/', 'w'] from rfl, hnd, List.cons_append]
        simp [hasPrefixCL,
          show ¬ (('/' : Char) = d) from fun hh => (nameChar_facts hd).2.1 hh.symm]
      rw [renderN_elem_shape]
      rw [show noCloseW ('<' :: (t.data ++ (renderAttrs as ++ ('>' :: (renderL cs ++
          ('<' :: ('/' :: (t.data ++ ('>' :: X))))))))) =
        (!(decide ('<' = '<') && hasPrefixCL "/w".data (t.data ++ (renderAttrs as ++
          ('>' :: (renderL cs ++ ('<' :: ('/' :: (t.data ++ ('>' :: X))))))))) &&
          noCloseW (t.data ++ (renderAttrs as ++ ('>' :: (renderL cs ++
          ('<' :: ('/' :: (t.data ++ ('>' :: X))))))))) from by simp [noCloseW]]
      rw [hpre1]
      rw [noCloseW_append_no_lt _ (nameChars_no_lt hall),
        noCloseW_append_no_lt _ (renderAttrs_no_lt hwas),
        noCloseW_cons_ne _ (by decide)]
      have hX2 : noCloseW ('<' :: ('/' :: (t.data ++ ('>' :: X)))) = true := by
        rw [show noCloseW ('<' :: ('/' :: (t.data ++ ('>' :: X)))) =
          (!(decide ('<' = '<') && hasPrefixCL "/w".data ('/' :: (t.data ++ ('>' :: X)))) &&
            noCloseW ('/' :: (t.data ++ ('>' :: X)))) from by simp [noCloseW]]
        have hpre2 : hasPrefixCL "/w".data ('/' :: (t.data ++ ('>' :: X))) = false := by
          rw [show "/w".data = ['/', 'w'] from rfl, hnd, List.cons_append]
          simp [hasPrefixCL, show ¬ (('w' : Char) = d) from fun hh => hdw hh.symm]
        rw [hpre2, noCloseW_cons_ne _ (by decide),
          noCloseW_append_no_lt _ (nameChars_no_lt hall),
          noCloseW_cons_ne _ (by decide), hX]
        rfl
      apply ih.2 cs hwcs hncs _ _ hX2
      simp only [weightN] at hwt
      omega
    · intro ns hwf hnc hwt X hX
      cases ns with
      | nil => rw [renderL_nil, List.nil_append]; exact hX
      | cons n ms =>
        have hwf' := hwf
        simp only [wfL] at hwf'
        obtain ⟨hn, hms, _⟩ := hwf'
        have hnc' := hnc
        simp only [noWL] at hnc'
        obtain ⟨hnn, hnms⟩ := hnc'
        rw [renderL_cons, List.append_assoc]
        have hwt' : weightL ms ≤ f := by
          simp only [weightL] at hwt
          have h2 := one_le_weightL ms
          omega
        have htail := ih.2 ms hms hnms hwt' X hX
        cases n with
        | text s =>
          rw [renderN_text]
          rw [noCloseW_append_no_lt _ (escape_no_lt s.data)]
          exact htail
        | elem t2 as2 cs2 =>
          apply ih.1 t2 as2 cs2 hn hnn _ _ htail
          simp only [weightL, weightN] at hwt ⊢
          omega

theorem render_ampClosed : ∀ fuel : Nat,
    (∀ (t : String) (as : List (String × String)) (cs : List XmlNode),
      wfN (XmlNode.elem t as cs) → weightN (XmlNode.elem t as cs) ≤ fuel →
      ∀ X, ampClosed X = true → ampClosed (renderN (XmlNode.elem t as cs) ++ X) = true) ∧
    (∀ ns : List XmlNode, wfL ns → weightL ns ≤ fuel →
      ∀ X, ampClosed X = true → ampClosed (renderL ns ++ X) = true) := by
  intro fuel
  induction fuel with
  | zero =>
    constructor
    · intro t as cs _ hwt
      simp only [weightN] at hwt
      omega
    · intro ns _ hwt
      have h1 := one_le_weightL ns
      omega
  | succ f ih =>
    constructor
    · intro t as cs hwf hwt X hX
      have hwf' := hwf
      simp only [wfN] at hwf'
      obtain ⟨hvt, hwas, hwcs⟩ := hwf'
      rw [renderN_elem_shape, ampClosed_cons_ne _ (by decide),
        ampClosed_append_no_amp _ (nameChars_no_amp hvt.2)]
      apply ampClosed_renderAttrs as hwas
      rw [ampClosed_cons_ne _ (by decide)]
      have hX2 : ampClosed ('<' :: ('/' :: (t.data ++ ('>' :: X)))) = true := by
        rw [ampClosed_cons_ne _ (by decide), ampClosed_cons_ne _ (by decide),
          ampClosed_append_no_amp _ (nameChars_no_amp hvt.2),
          ampClosed_cons_ne _ (by decide)]
        exact hX
      apply ih.2 cs hwcs _ _ hX2
      simp only [weightN] at hwt
      omega
    · intro ns hwf hwt X hX
      cases ns with
      | nil => rw [renderL_nil, List.nil_append]; exact hX
      | cons n ms =>
        have hwf' := hwf
        simp only [wfL] at hwf'
        obtain ⟨hn, hms, _⟩ := hwf'
        rw [renderL_cons, List.append_assoc]
        have hwt' : weightL ms ≤ f := by
          simp only [weightL] at hwt
          have h2 := one_le_weightL ms
          omega
        have htail := ih.2 ms hms hwt' X hX
        cases n with
        | text s =>
          rw [renderN_text]
          exact ampClosed_escape s.data _ htail
        | elem t2 as2 cs2 =>
          apply ih.1 t2 as2 cs2 hn _ _ htail
          simp only [weightL, weightN] at hwt ⊢
          omega

theorem hasPrefixCL_self_append (pat X : List Char) :
    hasPrefixCL pat (pat ++ X) = true := by
  induction pat with
  | nil => rfl
  | cons p ps ih => simp [hasPrefixCL, ih]

theorem splitFirst_at_head (pat X : List Char) (h : pat ≠ []) :
    splitFirst pat (pat ++ X) = some ([], X) := by
  cases pat with
  | nil => exact absurd rfl h
  | cons p ps =>
    have hp : hasPrefixCL (p :: ps) ((p :: ps) ++ X) = true := hasPrefixCL_self_append _ _
    rw [List.cons_append] at hp
    rw [List.cons_append]
    show splitFirst (p :: ps) (p :: (ps ++ X)) = _
    simp only [splitFirst]
    rw [if_pos hp]
    have hd : List.drop (p :: ps).length (p :: (ps ++ X)) = X := by
      simp only [List.length_cons, List.drop_succ_cons]
      exact List.drop_left ps X
    rw [hd]

theorem splitFirst_close (MID : List Char) (h : noCloseW MID = true) :
    splitFirst wikiCloseTag (MID ++ wikiCloseTag) = some (MID, []) := by
  induction MID with
  | nil =>
    have h1 := splitFirst_at_head wikiCloseTag [] (by decide)
    rw [List.append_nil] at h1
    rw [List.nil_append]
    exact h1
  | cons c MID' ih =>
    simp only [noCloseW, Bool.and_eq_true, Bool.not_eq_true', Bool.and_eq_false_iff] at h
    obtain ⟨h1, h2⟩ := h
    have hpre : hasPrefixCL wikiCloseTag (c :: (MID' ++ wikiCloseTag)) = false := by
      rw [show wikiCloseTag = '<' :: '/' :: 'w' :: "iki_structure>".data from rfl]
      by_cases hc : c = '<'
      · subst hc
        rcases h1 with h1 | h1
        · simp at h1
        · cases MID' with
          | nil => decide
          | cons e MID2 =>
            by_cases he : e = '/'
            · subst he
              rw [show hasPrefixCL "/w".data ('/' :: MID2) =
                hasPrefixCL ['w'] MID2 from by simp [hasPrefixCL]] at h1
              cases MID2 with
              | nil => decide
              | cons g MID3 =>
                have hg : decide ('w' = g) = false := by
                  simp only [hasPrefixCL] at h1
                  simpa using h1
                simp [hasPrefixCL, List.cons_append, hg]
            · simp [hasPrefixCL, List.cons_append,
                show ¬ (('/' : Char) = e) from fun hh => he hh.symm]
      · simp [hasPrefixCL, show ¬ (('<' : Char) = c) from fun hh => hc hh.symm]
    rw [List.cons_append]
    show splitFirst wikiCloseTag (c :: (MID' ++ wikiCloseTag)) = _
    simp only [splitFirst]
    rw [if_neg (by rw [hpre]; exact Bool.false_ne_true), ih h2]
    rfl

theorem weight_le_render : ∀ fuel : Nat,
    (∀ (t : String) (as : List (String × String)) (cs : List XmlNode),
      wfN (XmlNode.elem t as cs) → weightN (XmlNode.elem t as cs) ≤ fuel →
      weightN (XmlNode.elem t as cs) + 1 ≤ 2 * (renderN (XmlNode.elem t as cs)).length) ∧
    (∀ ns : List XmlNode, wfL ns → weightL ns ≤ fuel →
      weightL ns ≤ 2 * (renderL ns).length + 1) := by
  intro fuel
  induction fuel with
  | zero =>
    constructor
    · intro t as cs _ hwt
      simp only [weightN] at hwt
      omega
    · intro ns _ hwt
      have h1 := one_le_weightL ns
      omega
  | succ f ih =>
    constructor
    · intro t as cs hwf hwt
      have hwf' := hwf
      simp only [wfN] at hwf'
      obtain ⟨hvt, _, hwcs⟩ := hwf'
      have hlen := congrArg List.length (renderN_elem_eq t as cs)
      simp only [List.cons_append, List.length_cons, List.length_append,
        List.length_singleton] at hlen
      have htne : 1 ≤ t.data.length := by
        cases hh : t.data with
        | nil => exact absurd hh hvt.1
        | cons a b => simp
      have hih := ih.2 cs hwcs (by simp only [weightN] at hwt; omega)
      simp only [weightN] at hwt ⊢
      omega
    · intro ns hwf hwt
      cases ns with
      | nil =>
        rw [renderL_nil]
        simp [weightL]
      | cons n ms =>
        have hwf' := hwf
        simp only [wfL] at hwf'
        obtain ⟨hn, hms, _⟩ := hwf'
        rw [renderL_cons]
        simp only [List.length_append]
        have hwt' : weightL ms ≤ f := by
          simp only [weightL] at hwt
          have h2 := one_le_weightL ms
          omega
        have hih2 := ih.2 ms hms hwt'
        cases n with
        | text s =>
          have hs : s.data ≠ [] := by
            have hn' := hn
            simp only [wfN] at hn'
            exact hn'.1
          have h1 : 1 ≤ s.data.length := by
            cases hh : s.data with
            | nil => exact absurd hh hs
            | cons a b => simp
          have h2 := length_le_escape s.data
          rw [renderN_text]
          simp only [weightL, weightN] at hwt ⊢
          omega
        | elem t2 as2 cs2 =>
          have hih1 := ih.1 t2 as2 cs2 hn (by simp only [weightL, weightN] at hwt ⊢; omega)
          simp only [weightL, weightN] at hwt hih1 ⊢
          omega

theorem renderTop_shape (s : WikiStructure) :
    renderN (expectedTree s) =
      wikiOpenTag ++ (renderL (expectedChildren s) ++ wikiCloseTag) := by
  rw [show expectedTree s = XmlNode.elem "wiki_structure" [] (expectedChildren s)
    from rfl, renderN_elem_eq]
  simp only [wikiOpenTag, wikiCloseTag, renderAttrs, List.append_assoc,
    List.cons_append, List.nil_append, List.append_nil]

theorem findWikiBlock_render (s : WikiStructure)
    (hncw : noCloseW (renderL (expectedChildren s)) = true) :
    findWikiBlock (renderN (expectedTree s)) = some (renderN (expectedTree s)) := by
  conv_lhs => rw [renderTop_shape]
  simp only [findWikiBlock]
  rw [splitFirst_at_head wikiOpenTag
    (renderL (expectedChildren s) ++ wikiCloseTag) (by decide)]
  simp only [Option.some_bind]
  rw [splitFirst_close _ hncw]
  simp only [Option.map_some']
  rw [renderTop_shape]
  simp [List.append_assoc]

theorem etFromstring_render (s : WikiStructure)
    (hwf : wfN (expectedTree s))
    (hgood : ∀ c ∈ renderN (expectedTree s), goodChar c = true) :
    etFromstring (renderN (expectedTree s)) = some (expectedTree s) := by
  simp only [etFromstring]
  have hnorm : normalizeLines (renderN (expectedTree s)) = renderN (expectedTree s) :=
    normalizeLines_id (fun c hc => good_ne_cr (hgood c hc))
  rw [hnorm]
  have hdw : (renderN (expectedTree s)).dropWhile isXmlSpace =
      renderN (expectedTree s) := by
    rw [show renderN (expectedTree s) =
      '<' :: ("wiki_structure>".data ++ (renderL (expectedChildren s) ++ wikiCloseTag))
      from by rw [renderTop_shape]; rfl]
    exact List.dropWhile_cons_of_neg (by decide)
  rw [hdw]
  have hwt := (weight_le_render
    (weightN (XmlNode.elem "wiki_structure" [] (expectedChildren s)))).1
    "wiki_structure" [] (expectedChildren s) hwf (Nat.le_refl _)
  have hpe := (parse_render_main
    (2 * (renderN (expectedTree s)).length + 2)).1
    "wiki_structure" [] (expectedChildren s) [] hwf
    (by rw [show XmlNode.elem "wiki_structure" [] (expectedChildren s) =
      expectedTree s from rfl] at hwt ⊢; omega)
  rw [List.append_nil] at hpe
  rw [show XmlNode.elem "wiki_structure" [] (expectedChildren s) = expectedTree s
    from rfl] at hpe
  rw [hpe]
  simp only [Option.some_bind]
  rw [if_pos (by rfl)]

theorem etIterNF_text (f : Nat) (tag : String) (s : String) :
    etIterNF f tag (XmlNode.text s) = [] := by
  cases f <;> rfl

theorem etIter_textEl (f : Nat) (tag tg v : String) :
    etIterNF (f + 1) tag (textEl tg v) = if tg = tag then [textEl tg v] else [] := by
  by_cases hv : v = ""
  · subst hv
    simp [textEl, etIterNF]
  · simp [textEl, if_neg hv, etIterNF, etIterNF_text]

theorem etIter_itemNodes (f : Nat) (tag itemTag : String) (vals : List String) :
    (itemNodes itemTag vals).flatMap (etIterNF (f + 1) tag) =
      if itemTag = tag then vals.map (textEl itemTag) else [] := by
  induction vals with
  | nil => simp [itemNodes]
  | cons v vs ih =>
    rw [show itemNodes itemTag (v :: vs) =
      wsT "\n        " :: textEl itemTag v :: itemNodes itemTag vs from rfl]
    rw [List.flatMap_cons, List.flatMap_cons]
    rw [show wsT "\n        " = XmlNode.text "\n        " from rfl, etIterNF_text]
    rw [etIter_textEl, ih]
    by_cases hit : itemTag = tag
    · simp [hit]
    · simp [hit]

theorem find?_append_some {p : XmlNode → Bool} {l₁ : List XmlNode} {x : XmlNode}
    (l₂ : List XmlNode) (h : l₁.find? p = some x) :
    (l₁ ++ l₂).find? p = some x := by
  induction l₁ with
  | nil => simp [List.find?] at h
  | cons a l ih =>
    rw [List.cons_append]
    cases ha : p a with
    | true =>
      rw [List.find?_cons_of_pos _ ha] at h ⊢
      exact h
    | false =>
      rw [List.find?_cons_of_neg _ (by simp [ha])] at h ⊢
      exact ih h

theorem safeItem_ne {v : String} (h : safeItem v = true) : v ≠ "" := by
  unfold safeItem at h
  simp only [Bool.and_eq_true, Bool.not_eq_true'] at h
  intro hc
  subst hc
  simp at h

theorem safeField_strip {v : String} (h : safeField v = true) : pyStrip v = v := by
  unfold safeField at h
  simp only [Bool.and_eq_true, beq_iff_eq] at h
  exact h.1

theorem safeItem_strip {v : String} (h : safeItem v = true) : pyStrip v = v := by
  unfold safeItem at h
  simp only [Bool.and_eq_true] at h
  exact safeField_strip h.2

theorem textsOf_map_textEl (itemTag : String) (vals : List String)
    (h : ∀ v ∈ vals, safeItem v = true) :
    textsOf (vals.map (textEl itemTag)) = vals := by
  induction vals with
  | nil => rfl
  | cons v vs ih =>
    have hv := h v (List.mem_cons_self _ _)
    have hne := safeItem_ne hv
    rw [List.map_cons]
    unfold textsOf
    rw [List.filterMap_cons]
    rw [show elText (textEl itemTag v) = some v from by
      simp [textEl, if_neg hne, elText]]
    simp only [if_neg hne]
    rw [safeItem_strip hv]
    unfold textsOf at ih
    rw [ih (fun w hw => h w (List.mem_cons_of_mem _ hw))]

theorem etIterNF_wsT (f : Nat) (tag w : String) :
    etIterNF f tag (wsT w) = [] := etIterNF_text f tag w

theorem etIter_textEl2 (fuel : Nat) (hf : 1 ≤ fuel) (tag tg v : String) :
    etIterNF fuel tag (textEl tg v) = if tg = tag then [textEl tg v] else [] := by
  obtain ⟨f, rfl⟩ : ∃ f, fuel = f + 1 := ⟨fuel - 1, by omega⟩
  exact etIter_textEl f tag tg v

theorem etIter_itemNodes2 (fuel : Nat) (hf : 1 ≤ fuel) (tag itemTag : String)
    (vals : List String) :
    (itemNodes itemTag vals).flatMap (etIterNF fuel tag) =
      if itemTag = tag then vals.map (textEl itemTag) else [] := by
  obtain ⟨f, rfl⟩ : ∃ f, fuel = f + 1 := ⟨fuel - 1, by omega⟩
  exact etIter_itemNodes f tag itemTag vals

theorem etIter_wrap (fuel : Nat) (hf : 2 ≤ fuel) (tag wrapTag itemTag ws : String)
    (vals : List String) (hw : wrapTag ≠ tag) :
    etIterNF fuel tag
      (XmlNode.elem wrapTag [] (itemNodes itemTag vals ++ [wsT ws])) =
      if itemTag = tag then vals.map (textEl itemTag) else [] := by
  obtain ⟨f, rfl⟩ : ∃ f, fuel = f + 1 := ⟨fuel - 1, by omega⟩
  simp only [etIterNF]
  rw [if_neg hw]
  rw [List.flatMap_append, etIter_itemNodes2 f (by omega) tag itemTag vals]
  simp [etIterNF_wsT]

theorem etIter_pageElem (fuel : Nat) (hf : 3 ≤ fuel) (tag : String) (p : WikiPage)
    (hw1 : ("relevant_files" : String) ≠ tag) (hw2 : ("related_pages" : String) ≠ tag) :
    etIterNF fuel tag (pageElem p) =
      (if ("page" : String) = tag then [pageElem p] else []) ++
      ((if ("title" : String) = tag then [textEl "title" p.title] else []) ++
       ((if ("description" : String) = tag then [textEl "description" p.description]
         else []) ++
        ((if ("importance" : String) = tag
          then [textEl "importance" (importanceNorm p.importance)] else []) ++
         ((if ("file_path" : String) = tag then p.filePaths.map (textEl "file_path")
           else []) ++
          ((if ("related" : String) = tag then p.relatedPages.map (textEl "related")
            else []) ++
           (if p.parent_section = "" then []
            else if ("parent_section" : String) = tag
            then [textEl "parent_section" p.parent_section] else [])))))) := by
  obtain ⟨f, rfl⟩ : ∃ f, fuel = f + 1 := ⟨fuel - 1, by omega⟩
  rw [show pageElem p = XmlNode.elem "page" [("id", p.id)] (pageElemChildren p)
    from rfl]
  simp only [etIterNF]
  simp only [pageElemChildren, List.append_assoc, List.cons_append,
    List.flatMap_append, List.flatMap_cons, List.flatMap_nil, etIterNF_wsT]
  rw [etIter_textEl2 f (by omega), etIter_textEl2 f (by omega),
    etIter_textEl2 f (by omega)]
  have hFB : (if p.filePaths.isEmpty then [] else
      [wsT "\n      ", XmlNode.elem "relevant_files" []
        (itemNodes "file_path" p.filePaths ++ [wsT "\n      "])]).flatMap
      (etIterNF f tag) =
      if ("file_path" : String) = tag then p.filePaths.map (textEl "file_path")
      else [] := by
    by_cases hfp : p.filePaths.isEmpty
    · rw [if_pos hfp, List.flatMap_nil]
      rw [List.isEmpty_iff.mp hfp]
      simp
    · rw [if_neg hfp, List.flatMap_cons, List.flatMap_cons, List.flatMap_nil,
        etIterNF_wsT, etIter_wrap f (by omega) tag "relevant_files" "file_path"
          "\n      " p.filePaths hw1]
      simp
  have hRB : (if p.relatedPages.isEmpty then [] else
      [wsT "\n      ", XmlNode.elem "related_pages" []
        (itemNodes "related" p.relatedPages ++ [wsT "\n      "])]).flatMap
      (etIterNF f tag) =
      if ("related" : String) = tag then p.relatedPages.map (textEl "related")
      else [] := by
    by_cases hrp : p.relatedPages.isEmpty
    · rw [if_pos hrp, List.flatMap_nil]
      rw [List.isEmpty_iff.mp hrp]
      simp
    · rw [if_neg hrp, List.flatMap_cons, List.flatMap_cons, List.flatMap_nil,
        etIterNF_wsT, etIter_wrap f (by omega) tag "related_pages" "related"
          "\n      " p.relatedPages hw2]
      simp
  have hPS : (if p.parent_section = "" then []
      else [wsT "\n      ", textEl "parent_section" p.parent_section]).flatMap
      (etIterNF f tag) =
      if p.parent_section = "" then []
      else if ("parent_section" : String) = tag
      then [textEl "parent_section" p.parent_section] else [] := by
    by_cases hps : p.parent_section = ""
    · rw [if_pos hps, if_pos hps, List.flatMap_nil]
    · rw [if_neg hps, if_neg hps, List.flatMap_cons, List.flatMap_cons,
        List.flatMap_nil, etIterNF_wsT, etIter_textEl2 f (by omega)]
      simp
  rw [hFB, hRB, hPS]
  simp [List.append_assoc]

theorem etIter_sectionElem (fuel : Nat) (hf : 3 ≤ fuel) (tag : String)
    (sec : WikiSection)
    (hw1 : ("pages" : String) ≠ tag) (hw2 : ("subsections" : String) ≠ tag) :
    etIterNF fuel tag (sectionElem sec) =
      (if ("section" : String) = tag then [sectionElem sec] else []) ++
      ((if ("title" : String) = tag then [textEl "title" sec.title] else []) ++
       ((if ("page_ref" : String) = tag then sec.pages.map (textEl "page_ref")
         else []) ++
        (if ("section_ref" : String) = tag
         then sec.subsections.map (textEl "section_ref") else []))) := by
  obtain ⟨f, rfl⟩ : ∃ f, fuel = f + 1 := ⟨fuel - 1, by omega⟩
  rw [show sectionElem sec =
    XmlNode.elem "section" [("id", sec.id)] (sectionElemChildren sec) from rfl]
  simp only [etIterNF]
  simp only [sectionElemChildren, List.append_assoc, List.cons_append,
    List.flatMap_append, List.flatMap_cons, List.flatMap_nil, etIterNF_wsT]
  rw [etIter_textEl2 f (by omega)]
  have hPB : (if sec.pages.isEmpty then [] else
      [wsT "\n      ", XmlNode.elem "pages" []
        (itemNodes "page_ref" sec.pages ++ [wsT "\n      "])]).flatMap
      (etIterNF f tag) =
      if ("page_ref" : String) = tag then sec.pages.map (textEl "page_ref")
      else [] := by
    by_cases hp : sec.pages.isEmpty
    · rw [if_pos hp, List.flatMap_nil]
      rw [List.isEmpty_iff.mp hp]
      simp
    · rw [if_neg hp, List.flatMap_cons, List.flatMap_cons, List.flatMap_nil,
        etIterNF_wsT, etIter_wrap f (by omega) tag "pages" "page_ref"
          "\n      " sec.pages hw1]
      simp
  have hSB : (if sec.subsections.isEmpty then [] else
      [wsT "\n      ", XmlNode.elem "subsections" []
        (itemNodes "section_ref" sec.subsections ++ [wsT "\n      "])]).flatMap
      (etIterNF f tag) =
      if ("section_ref" : String) = tag
      then sec.subsections.map (textEl "section_ref") else [] := by
    by_cases hs : sec.subsections.isEmpty
    · rw [if_pos hs, List.flatMap_nil]
      rw [List.isEmpty_iff.mp hs]
      simp
    · rw [if_neg hs, List.flatMap_cons, List.flatMap_cons, List.flatMap_nil,
        etIterNF_wsT, etIter_wrap f (by omega) tag "subsections" "section_ref"
          "\n      " sec.subsections hw2]
      simp
  rw [hPB, hSB]
  simp [List.append_assoc]

theorem etIter_root_page (fuel : Nat) (hf : 5 ≤ fuel) (s : WikiStructure) :
    etIterNF fuel "page" (expectedTree s) = s.pages.map pageElem := by
  obtain ⟨g, rfl⟩ : ∃ g, fuel = g + 5 := ⟨fuel - 5, by omega⟩
  rw [show g + 5 = (g + 4) + 1 from rfl]
  rw [show expectedTree s =
    XmlNode.elem "wiki_structure" [] (expectedChildren s) from rfl]
  simp only [etIterNF]
  rw [if_neg (by decide)]
  simp only [expectedChildren, List.append_assoc, List.cons_append,
    List.flatMap_append, List.flatMap_cons, List.flatMap_nil, etIterNF_wsT]
  rw [etIter_textEl2 (g + 4) (by omega), etIter_textEl2 (g + 4) (by omega)]
  have hSB : (if s.sections.isEmpty then [] else
      [wsT "\n  ", XmlNode.elem "sections" []
        (s.sections.flatMap (fun sec => [wsT "\n    ", sectionElem sec]) ++
          [wsT "\n  "])]).flatMap (etIterNF (g + 4) "page") = [] := by
    by_cases hs : s.sections.isEmpty
    · simp [hs]
    · rw [if_neg hs, List.flatMap_cons, List.flatMap_cons, List.flatMap_nil,
        etIterNF_wsT]
      rw [show g + 4 = (g + 3) + 1 from rfl]
      simp only [etIterNF]
      rw [if_neg (by decide), List.flatMap_append]
      have hforest : ∀ secs : List WikiSection,
          (secs.flatMap (fun sec => [wsT "\n    ", sectionElem sec])).flatMap
            (etIterNF (g + 3) "page") = [] := by
        intro secs
        induction secs with
        | nil => rfl
        | cons sec rest ih =>
          rw [List.flatMap_cons, List.flatMap_append, List.flatMap_cons,
            List.flatMap_cons, List.flatMap_nil, etIterNF_wsT,
            etIter_sectionElem (g + 3) (by omega) "page" sec (by decide) (by decide),
            ih]
          simp
      rw [hforest]
      simp [etIterNF_wsT]
  rw [hSB]
  have hPB : etIterNF (g + 4) "page"
      (XmlNode.elem "pages" []
        (s.pages.flatMap (fun p => [wsT "\n    ", pageElem p]) ++ [wsT "\n  "])) =
      s.pages.map pageElem := by
    rw [show g + 4 = (g + 3) + 1 from rfl]
    simp only [etIterNF]
    rw [if_neg (by decide), List.flatMap_append]
    have hforest : ∀ ps : List WikiPage,
        (ps.flatMap (fun p => [wsT "\n    ", pageElem p])).flatMap
          (etIterNF (g + 3) "page") = ps.map pageElem := by
      intro ps
      induction ps with
      | nil => rfl
      | cons p rest ih =>
        rw [List.flatMap_cons, List.flatMap_append, List.flatMap_cons,
          List.flatMap_cons, List.flatMap_nil, etIterNF_wsT,
          etIter_pageElem (g + 3) (by omega) "page" p (by decide) (by decide), ih]
        simp
    rw [hforest]
    simp [etIterNF_wsT]
  rw [hPB]
  simp

theorem etIter_root_section (fuel : Nat) (hf : 5 ≤ fuel) (s : WikiStructure) :
    etIterNF fuel "section" (expectedTree s) = s.sections.map sectionElem := by
  obtain ⟨g, rfl⟩ : ∃ g, fuel = g + 5 := ⟨fuel - 5, by omega⟩
  rw [show g + 5 = (g + 4) + 1 from rfl]
  rw [show expectedTree s =
    XmlNode.elem "wiki_structure" [] (expectedChildren s) from rfl]
  simp only [etIterNF]
  rw [if_neg (by decide)]
  simp only [expectedChildren, List.append_assoc, List.cons_append,
    List.flatMap_append, List.flatMap_cons, List.flatMap_nil, etIterNF_wsT]
  rw [etIter_textEl2 (g + 4) (by omega), etIter_textEl2 (g + 4) (by omega)]
  have hSB : (if s.sections.isEmpty then [] else
      [wsT "\n  ", XmlNode.elem "sections" []
        (s.sections.flatMap (fun sec => [wsT "\n    ", sectionElem sec]) ++
          [wsT "\n  "])]).flatMap (etIterNF (g + 4) "section") =
      s.sections.map sectionElem := by
    by_cases hs : s.sections.isEmpty
    · rw [if_pos hs, List.flatMap_nil, List.isEmpty_iff.mp hs]
      rfl
    · rw [if_neg hs, List.flatMap_cons, List.flatMap_cons, List.flatMap_nil,
        etIterNF_wsT]
      rw [show g + 4 = (g + 3) + 1 from rfl]
      simp only [etIterNF]
      rw [if_neg (by decide), List.flatMap_append]
      have hforest : ∀ secs : List WikiSection,
          (secs.flatMap (fun sec => [wsT "\n    ", sectionElem sec])).flatMap
            (etIterNF (g + 3) "section") = secs.map sectionElem := by
        intro secs
        induction secs with
        | nil => rfl
        | cons sec rest ih =>
          rw [List.flatMap_cons, List.flatMap_append, List.flatMap_cons,
            List.flatMap_cons, List.flatMap_nil, etIterNF_wsT,
            etIter_sectionElem (g + 3) (by omega) "section" sec (by decide)
              (by decide), ih]
          simp
      rw [hforest]
      simp [etIterNF_wsT]
  rw [hSB]
  have hPB : etIterNF (g + 4) "section"
      (XmlNode.elem "pages" []
        (s.pages.flatMap (fun p => [wsT "\n    ", pageElem p]) ++ [wsT "\n  "])) =
      [] := by
    rw [show g + 4 = (g + 3) + 1 from rfl]
    simp only [etIterNF]
    rw [if_neg (by decide), List.flatMap_append]
    have hforest : ∀ ps : List WikiPage,
        (ps.flatMap (fun p => [wsT "\n    ", pageElem p])).flatMap
          (etIterNF (g + 3) "section") = [] := by
      intro ps
      induction ps with
      | nil => rfl
      | cons p rest ih =>
        rw [List.flatMap_cons, List.flatMap_append, List.flatMap_cons,
          List.flatMap_cons, List.flatMap_nil, etIterNF_wsT,
          etIter_pageElem (g + 3) (by omega) "section" p (by decide) (by decide),
          ih]
        simp
    rw [hforest]
    simp [etIterNF_wsT]
  rw [hPB]
  simp

theorem etIter_page_files (fuel : Nat) (hf : 3 ≤ fuel) (p : WikiPage) :
    etIterNF fuel "file_path" (pageElem p) = p.filePaths.map (textEl "file_path") := by
  rw [etIter_pageElem fuel hf "file_path" p (by decide) (by decide)]
  by_cases hps : p.parent_section = "" <;> simp [hps]

theorem etIter_page_related (fuel : Nat) (hf : 3 ≤ fuel) (p : WikiPage) :
    etIterNF fuel "related" (pageElem p) = p.relatedPages.map (textEl "related") := by
  rw [etIter_pageElem fuel hf "related" p (by decide) (by decide)]
  by_cases hps : p.parent_section = "" <;> simp [hps]

theorem etIter_section_prefs (fuel : Nat) (hf : 3 ≤ fuel) (sec : WikiSection) :
    etIterNF fuel "page_ref" (sectionElem sec) =
      sec.pages.map (textEl "page_ref") := by
  rw [etIter_sectionElem fuel hf "page_ref" sec (by decide) (by decide)]
  simp

theorem etIter_section_srefs (fuel : Nat) (hf : 3 ≤ fuel) (sec : WikiSection) :
    etIterNF fuel "section_ref" (sectionElem sec) =
      sec.subsections.map (textEl "section_ref") := by
  rw [etIter_sectionElem fuel hf "section_ref" sec (by decide) (by decide)]
  simp

theorem find?_append_none {p : XmlNode → Bool} {l₁ : List XmlNode}
    (l₂ : List XmlNode) (h : l₁.find? p = none) :
    (l₁ ++ l₂).find? p = l₂.find? p := by
  induction l₁ with
  | nil => rfl
  | cons a l ih =>
    rw [List.cons_append]
    cases ha : p a with
    | true => rw [List.find?_cons_of_pos _ ha] at h; exact absurd h (by simp)
    | false =>
      rw [List.find?_cons_of_neg _ (by simp [ha])] at h ⊢
      exact ih h

theorem etTextOf_elem_found (t : String) (as : List (String × String))
    (children : List XmlNode) (tag v : String)
    (hfind : etChildByTag tag children = some (textEl tag v))
    (hsafe : pyStrip v = v) :
    etTextOf (XmlNode.elem t as children) tag = v := by
  simp only [etTextOf]
  rw [hfind]
  show (match elText (textEl tag v) with
    | some t => if t = "" then "" else pyStrip t
    | none => "") = v
  by_cases hv : v = ""
  · subst hv
    rw [show elText (textEl tag "") = none from rfl]
  · rw [show elText (textEl tag v) = some v from by simp [textEl, if_neg hv, elText]]
    simp [if_neg hv, hsafe]

theorem etTextOf_elem_none (t : String) (as : List (String × String))
    (children : List XmlNode) (tag : String)
    (hfind : etChildByTag tag children = none) :
    etTextOf (XmlNode.elem t as children) tag = "" := by
  simp only [etTextOf]
  rw [hfind]

theorem etGetAttr_pageElem (p : WikiPage) :
    etGetAttr (pageElem p) "id" = some p.id := by
  rw [show pageElem p = XmlNode.elem "page" [("id", p.id)] (pageElemChildren p)
    from rfl]
  simp [etGetAttr]

theorem etGetAttr_sectionElem (sec : WikiSection) :
    etGetAttr (sectionElem sec) "id" = some sec.id := by
  rw [show sectionElem sec =
    XmlNode.elem "section" [("id", sec.id)] (sectionElemChildren sec) from rfl]
  simp [etGetAttr]

theorem etChild_pageElem_title (p : WikiPage) :
    etChildByTag "title" (pageElemChildren p) = some (textEl "title" p.title) := by
  unfold etChildByTag pageElemChildren
  apply find?_append_some
  apply find?_append_some
  apply find?_append_some
  apply find?_append_some
  rw [List.find?_cons_of_neg _ (by decide)]
  rw [List.find?_cons_of_pos _ (by simp [textEl, etTagPred])]

theorem etChild_pageElem_description (p : WikiPage) :
    etChildByTag "description" (pageElemChildren p) =
      some (textEl "description" p.description) := by
  unfold etChildByTag pageElemChildren
  apply find?_append_some
  apply find?_append_some
  apply find?_append_some
  apply find?_append_some
  rw [List.find?_cons_of_neg _ (by decide)]
  rw [List.find?_cons_of_neg _ (by simp [textEl, etTagPred])]
  rw [List.find?_cons_of_neg _ (by decide)]
  rw [List.find?_cons_of_pos _ (by simp [textEl, etTagPred])]

theorem etChild_pageElem_importance (p : WikiPage) :
    etChildByTag "importance" (pageElemChildren p) =
      some (textEl "importance" (importanceNorm p.importance)) := by
  unfold etChildByTag pageElemChildren
  apply find?_append_some
  apply find?_append_some
  apply find?_append_some
  apply find?_append_some
  rw [List.find?_cons_of_neg _ (by decide)]
  rw [List.find?_cons_of_neg _ (by simp [textEl, etTagPred])]
  rw [List.find?_cons_of_neg _ (by decide)]
  rw [List.find?_cons_of_neg _ (by simp [textEl, etTagPred])]
  rw [List.find?_cons_of_neg _ (by decide)]
  rw [List.find?_cons_of_pos _ (by simp [textEl, etTagPred])]

theorem etChild_pageElem_parent (p : WikiPage) :
    etChildByTag "parent_section" (pageElemChildren p) =
      if p.parent_section = "" then none
      else some (textEl "parent_section" p.parent_section) := by
  have hA : List.find? (etTagPred "parent_section")
      [wsT "\n      ", textEl "title" p.title,
        wsT "\n      ", textEl "description" p.description,
        wsT "\n      ", textEl "importance" (importanceNorm p.importance)] = none := by
    rw [List.find?_cons_of_neg _ (by decide)]
    rw [List.find?_cons_of_neg _ (by simp [textEl, etTagPred])]
    rw [List.find?_cons_of_neg _ (by decide)]
    rw [List.find?_cons_of_neg _ (by simp [textEl, etTagPred])]
    rw [List.find?_cons_of_neg _ (by decide)]
    rw [List.find?_cons_of_neg _ (by simp [textEl, etTagPred])]
    exact List.find?_nil
  have hFB : List.find? (etTagPred "parent_section")
      (if p.filePaths.isEmpty then [] else
        [wsT "\n      ", XmlNode.elem "relevant_files" []
          (itemNodes "file_path" p.filePaths ++ [wsT "\n      "])]) = none := by
    by_cases hfp : p.filePaths.isEmpty
    · rw [if_pos hfp]; exact List.find?_nil
    · rw [if_neg hfp]
      rw [List.find?_cons_of_neg _ (by decide)]
      rw [List.find?_cons_of_neg _ (by simp [etTagPred])]
      exact List.find?_nil
  have hRB : List.find? (etTagPred "parent_section")
      (if p.relatedPages.isEmpty then [] else
        [wsT "\n      ", XmlNode.elem "related_pages" []
          (itemNodes "related" p.relatedPages ++ [wsT "\n      "])]) = none := by
    by_cases hrp : p.relatedPages.isEmpty
    · rw [if_pos hrp]; exact List.find?_nil
    · rw [if_neg hrp]
      rw [List.find?_cons_of_neg _ (by decide)]
      rw [List.find?_cons_of_neg _ (by simp [etTagPred])]
      exact List.find?_nil
  have hX1 : List.find? (etTagPred "parent_section")
      ([wsT "\n      ", textEl "title" p.title,
        wsT "\n      ", textEl "description" p.description,
        wsT "\n      ", textEl "importance" (importanceNorm p.importance)] ++
       (if p.filePaths.isEmpty then [] else
        [wsT "\n      ", XmlNode.elem "relevant_files" []
          (itemNodes "file_path" p.filePaths ++ [wsT "\n      "])])) = none := by
    rw [find?_append_none _ hA]
    exact hFB
  have hX2 : List.find? (etTagPred "parent_section")
      (([wsT "\n      ", textEl "title" p.title,
        wsT "\n      ", textEl "description" p.description,
        wsT "\n      ", textEl "importance" (importanceNorm p.importance)] ++
       (if p.filePaths.isEmpty then [] else
        [wsT "\n      ", XmlNode.elem "relevant_files" []
          (itemNodes "file_path" p.filePaths ++ [wsT "\n      "])])) ++
       (if p.relatedPages.isEmpty then [] else
        [wsT "\n      ", XmlNode.elem "related_pages" []
          (itemNodes "related" p.relatedPages ++ [wsT "\n      "])])) = none := by
    rw [find?_append_none _ hX1]
    exact hRB
  unfold etChildByTag pageElemChildren
  by_cases hps : p.parent_section = ""
  · rw [if_pos hps, if_pos hps]
    rw [find?_append_none _ (by
      rw [find?_append_none _ hX2]
      exact List.find?_nil)]
    rw [List.find?_cons_of_neg _ (by decide)]
    exact List.find?_nil
  · rw [if_neg hps, if_neg hps]
    apply find?_append_some
    rw [find?_append_none _ hX2]
    rw [List.find?_cons_of_neg _ (by decide)]
    rw [List.find?_cons_of_pos _ (by simp [textEl, etTagPred])]

theorem etChild_sectionElem_title (sec : WikiSection) :
    etChildByTag "title" (sectionElemChildren sec) =
      some (textEl "title" sec.title) := by
  unfold etChildByTag sectionElemChildren
  apply find?_append_some
  apply find?_append_some
  apply find?_append_some
  rw [List.find?_cons_of_neg _ (by decide)]
  rw [List.find?_cons_of_pos _ (by simp [textEl, etTagPred])]

theorem etChild_root_title (s : WikiStructure) :
    etChildByTag "title" (expectedChildren s) = some (textEl "title" s.title) := by
  unfold etChildByTag expectedChildren
  apply find?_append_some
  apply find?_append_some
  rw [List.find?_cons_of_neg _ (by decide)]
  rw [List.find?_cons_of_pos _ (by simp [textEl, etTagPred])]

theorem etChild_root_description (s : WikiStructure) :
    etChildByTag "description" (expectedChildren s) =
      some (textEl "description" s.description) := by
  unfold etChildByTag expectedChildren
  apply find?_append_some
  apply find?_append_some
  rw [List.find?_cons_of_neg _ (by decide)]
  rw [List.find?_cons_of_neg _ (by simp [textEl, etTagPred])]
  rw [List.find?_cons_of_neg _ (by decide)]
  rw [List.find?_cons_of_pos _ (by simp [textEl, etTagPred])]

theorem canonicalPage_parts {p : WikiPage} (h : canonicalPage p = true) :
    (∀ c ∈ p.id.data, attrGoodChar c = true) ∧ safeField p.title = true ∧
    safeField p.description = true ∧
    (p.importance = "high" ∨ p.importance = "medium" ∨ p.importance = "low") ∧
    (∀ v ∈ p.filePaths, safeItem v = true) ∧
    (∀ v ∈ p.relatedPages, safeItem v = true) ∧
    safeField p.parent_section = true := by
  unfold canonicalPage at h
  simp only [Bool.and_eq_true, Bool.or_eq_true, List.all_eq_true, beq_iff_eq] at h
  obtain ⟨⟨⟨⟨⟨⟨h1, h2⟩, h3⟩, h4⟩, h5⟩, h6⟩, h7⟩ := h
  exact ⟨h1, h2, h3, by tauto, h5, h6, h7⟩

theorem canonicalSection_parts {sec : WikiSection} (h : canonicalSection sec = true) :
    (∀ c ∈ sec.id.data, attrGoodChar c = true) ∧ safeField sec.title = true ∧
    (∀ v ∈ sec.pages, safeItem v = true) ∧
    (∀ v ∈ sec.subsections, safeItem v = true) := by
  unfold canonicalSection at h
  simp only [Bool.and_eq_true, List.all_eq_true] at h
  obtain ⟨⟨⟨h1, h2⟩, h3⟩, h4⟩ := h
  exact ⟨h1, h2, h3, h4⟩

theorem importanceNorm_id {v : String}
    (h : v = "high" ∨ v = "medium" ∨ v = "low") : importanceNorm v = v := by
  rcases h with h | h | h <;> subst h <;> rfl

theorem importanceNorm_ne_empty (v : String) : importanceNorm v ≠ "" := by
  rcases importanceNorm_cases v with h | h | h <;> rw [h] <;> decide

theorem pyStrip_importanceNorm (v : String) :
    pyStrip (importanceNorm v) = importanceNorm v := by
  rcases importanceNorm_cases v with h | h | h <;> rw [h] <;> rfl

theorem xmlPageOf_pageElem (fuel : Nat) (hf : 3 ≤ fuel) (p : WikiPage) (idx : Nat)
    (h : canonicalPage p = true) :
    xmlPageOf fuel (pageElem p) idx = { p with content := "" } := by
  obtain ⟨hid, hT, hD, hI, hF, hR, hP⟩ := canonicalPage_parts h
  have hpe : pageElem p = XmlNode.elem "page" [("id", p.id)] (pageElemChildren p) := rfl
  have ht : etTextOf (pageElem p) "title" = p.title := by
    rw [hpe]
    exact etTextOf_elem_found _ _ _ _ _ (etChild_pageElem_title p) (safeField_strip hT)
  have hd : etTextOf (pageElem p) "description" = p.description := by
    rw [hpe]
    exact etTextOf_elem_found _ _ _ _ _ (etChild_pageElem_description p)
      (safeField_strip hD)
  have him : etTextOf (pageElem p) "importance" = importanceNorm p.importance := by
    rw [hpe]
    exact etTextOf_elem_found _ _ _ _ _ (etChild_pageElem_importance p)
      (pyStrip_importanceNorm p.importance)
  have hps : etTextOf (pageElem p) "parent_section" = p.parent_section := by
    rw [hpe]
    by_cases hc : p.parent_section = ""
    · rw [etTextOf_elem_none _ _ _ _ (by rw [etChild_pageElem_parent p, if_pos hc])]
      exact hc.symm
    · exact etTextOf_elem_found _ _ _ _ _
        (by rw [etChild_pageElem_parent p, if_neg hc]) (safeField_strip hP)
  unfold xmlPageOf
  rw [etGetAttr_pageElem, ht, hd, him, hps,
    etIter_page_files fuel hf p, etIter_page_related fuel hf p,
    textsOf_map_textEl _ _ hF, textsOf_map_textEl _ _ hR]
  rw [if_neg (importanceNorm_ne_empty p.importance),
    importanceNorm_id hI, importanceNorm_id hI]
  rfl

theorem xmlSectionOf_sectionElem (fuel : Nat) (hf : 3 ≤ fuel) (sec : WikiSection)
    (idx : Nat) (h : canonicalSection sec = true) :
    xmlSectionOf fuel (sectionElem sec) idx = sec := by
  obtain ⟨hid, hT, hPg, hSub⟩ := canonicalSection_parts h
  have hse : sectionElem sec =
      XmlNode.elem "section" [("id", sec.id)] (sectionElemChildren sec) := rfl
  have ht : etTextOf (sectionElem sec) "title" = sec.title := by
    rw [hse]
    exact etTextOf_elem_found _ _ _ _ _ (etChild_sectionElem_title sec)
      (safeField_strip hT)
  unfold xmlSectionOf
  rw [etGetAttr_sectionElem, ht,
    etIter_section_prefs fuel hf sec, etIter_section_srefs fuel hf sec,
    textsOf_map_textEl _ _ hPg, textsOf_map_textEl _ _ hSub]
  rfl

theorem xmlPagesGo_map (fuel : Nat) (hf : 3 ≤ fuel) (ps : List WikiPage)
    (h : ∀ p ∈ ps, canonicalPage p = true) :
    ∀ n, xmlPagesGo fuel (ps.map pageElem) n =
      ps.map (fun p => { p with content := "" }) := by
  induction ps with
  | nil => intro n; rfl
  | cons p rest ih =>
    intro n
    rw [List.map_cons]
    show xmlPageOf fuel (pageElem p) n :: xmlPagesGo fuel (rest.map pageElem) (n + 1) = _
    rw [xmlPageOf_pageElem fuel hf p n (h p (List.mem_cons_self _ _)),
      ih (fun q hq => h q (List.mem_cons_of_mem _ hq)) (n + 1), List.map_cons]

theorem xmlSectionsGo_map (fuel : Nat) (hf : 3 ≤ fuel) (ss : List WikiSection)
    (h : ∀ sec ∈ ss, canonicalSection sec = true) :
    ∀ n, xmlSectionsGo fuel (ss.map sectionElem) n = ss := by
  induction ss with
  | nil => intro n; rfl
  | cons sec rest ih =>
    intro n
    show xmlSectionOf fuel (sectionElem sec) n ::
      xmlSectionsGo fuel (rest.map sectionElem) (n + 1) = _
    rw [xmlSectionOf_sectionElem fuel hf sec n (h sec (List.mem_cons_self _ _)),
      ih (fun q hq => h q (List.mem_cons_of_mem _ hq)) (n + 1)]

theorem char_toNat_inj {c d : Char} (h : c.toNat = d.toNat) : c = d :=
  Char.eq_of_val_eq (UInt32.toNat.inj h)

theorem good_badTextCtrl {c : Char} (h : goodChar c = true) : badTextCtrl c = false := by
  unfold goodChar at h
  simp only [Bool.and_eq_true, Bool.not_eq_true', decide_eq_true_eq] at h
  obtain ⟨hrc, hcr⟩ := h
  unfold removedCtrl at hrc
  simp only [Bool.or_eq_false_iff, Bool.and_eq_false_iff, decide_eq_false_iff_not] at hrc
  unfold badTextCtrl
  by_cases hlt : c.toNat < 0x20
  · have h910 : c.toNat = 9 ∨ c.toNat = 10 ∨ c.toNat = 13 := by omega
    rcases h910 with h9 | h10 | h13
    · have : c = '\t' := char_toNat_inj (h9.trans (show (9 : Nat) = '\t'.toNat from rfl))
      subst this
      decide
    · have : c = '\n' := char_toNat_inj (h10.trans (show (10 : Nat) = '\n'.toNat from rfl))
      subst this
      decide
    · have : c = '\r' :=
        char_toNat_inj (h13.trans (show (13 : Nat) = '\r'.toNat from rfl))
      exact absurd this hcr
  · simp [hlt]

theorem safeField_good {v : String} (h : safeField v = true) :
    ∀ c ∈ v.data, goodChar c = true := by
  unfold safeField at h
  simp only [Bool.and_eq_true, List.all_eq_true] at h
  exact h.2

theorem safeItem_good {v : String} (h : safeItem v = true) :
    ∀ c ∈ v.data, goodChar c = true := by
  unfold safeItem at h
  simp only [Bool.and_eq_true] at h
  exact safeField_good h.2

theorem attrGood_parts {c : Char} (h : attrGoodChar c = true) :
    goodChar c = true ∧ c ≠ '\t' ∧ c ≠ '\n' := by
  unfold attrGoodChar at h
  simp only [Bool.and_eq_true, decide_eq_true_eq] at h
  exact ⟨h.1.1, h.1.2, h.2⟩

theorem data_ne_of_ne {v : String} (h : v ≠ "") : v.data ≠ [] := by
  intro hc
  apply h
  cases v
  simp only at hc
  simp [hc]

theorem wfN_text_of_good {v : String} (hne : v ≠ "")
    (hg : ∀ c ∈ v.data, goodChar c = true) : wfN (XmlNode.text v) := by
  simp only [wfN]
  exact ⟨data_ne_of_ne hne, fun c hc => good_badTextCtrl (hg c hc)⟩

theorem wfN_wsT (w : String) (hne : w ≠ "")
    (hg : ∀ c ∈ w.data, goodChar c = true) : wfN (wsT w) :=
  wfN_text_of_good hne hg

theorem wfN_textEl (tg : String) (htg : validName tg) (v : String)
    (hv : safeField v = true) : wfN (textEl tg v) := by
  by_cases hc : v = ""
  · rw [show textEl tg v = XmlNode.elem tg [] (if v = "" then [] else [XmlNode.text v])
      from rfl, if_pos hc]
    simp only [wfN, wfL]
    exact ⟨htg, by simp, trivial⟩
  · rw [show textEl tg v = XmlNode.elem tg [] (if v = "" then [] else [XmlNode.text v])
      from rfl, if_neg hc]
    simp only [wfN, wfL]
    refine ⟨htg, by simp, ?_, trivial, trivial⟩
    exact ⟨data_ne_of_ne hc, fun c hcc => good_badTextCtrl (safeField_good hv c hcc)⟩

theorem niceN_text_of_good {v : String}
    (hg : ∀ c ∈ v.data, goodChar c = true) : niceN (XmlNode.text v) := by
  simp only [niceN]
  exact hg

theorem niceN_textEl (tg : String) (htg : ∀ c ∈ tg.data, goodChar c = true)
    (v : String) (hv : ∀ c ∈ v.data, goodChar c = true) : niceN (textEl tg v) := by
  by_cases hc : v = ""
  · rw [show textEl tg v = XmlNode.elem tg [] (if v = "" then [] else [XmlNode.text v])
      from rfl, if_pos hc]
    simp only [niceN, niceL]
    exact ⟨htg, by simp, trivial⟩
  · rw [show textEl tg v = XmlNode.elem tg [] (if v = "" then [] else [XmlNode.text v])
      from rfl, if_neg hc]
    simp only [niceN, niceL]
    exact ⟨htg, by simp, hv, trivial⟩

theorem noWN_textEl (tg : String) (htg : tg.data.headD 'x' ≠ 'w') (v : String) :
    noWN (textEl tg v) := by
  rw [show textEl tg v = XmlNode.elem tg [] (if v = "" then [] else [XmlNode.text v])
    from rfl]
  simp only [noWN]
  refine ⟨htg, ?_⟩
  by_cases hc : v = ""
  · rw [if_pos hc]
    trivial
  · rw [if_neg hc]
    simp only [noWL, noWN]
    exact ⟨trivial, trivial⟩

theorem preds_itemNodes (itemTag : String) (hi1 : validName itemTag)
    (hi2 : ∀ c ∈ itemTag.data, goodChar c = true)
    (hi3 : itemTag.data.headD 'x' ≠ 'w') (ws : String) (hws1 : ws ≠ "")
    (hws2 : ∀ c ∈ ws.data, goodChar c = true)
    (vals : List String) (hvals : ∀ v ∈ vals, safeItem v = true) :
    wfL (itemNodes itemTag vals ++ [wsT ws]) ∧
    niceL (itemNodes itemTag vals ++ [wsT ws]) ∧
    noWL (itemNodes itemTag vals ++ [wsT ws]) := by
  induction vals with
  | nil =>
    refine ⟨⟨wfN_wsT ws hws1 hws2, trivial, trivial⟩,
      ⟨niceN_text_of_good hws2, trivial⟩, ⟨trivial, trivial⟩⟩
  | cons v vs ih =>
    have hv := hvals v (List.mem_cons_self _ _)
    have ihh := ih (fun w hw => hvals w (List.mem_cons_of_mem _ hw))
    rw [show itemNodes itemTag (v :: vs) ++ [wsT ws] =
      wsT "\n        " :: textEl itemTag v :: (itemNodes itemTag vs ++ [wsT ws])
      from by simp [itemNodes]]
    exact ⟨⟨wfN_wsT _ (by decide) (by decide),
      ⟨wfN_textEl itemTag hi1 v (by
        unfold safeItem at hv
        simp only [Bool.and_eq_true] at hv
        exact hv.2), ihh.1, trivial⟩, trivial⟩,
      ⟨niceN_text_of_good (by decide),
        ⟨niceN_textEl itemTag hi2 v (safeItem_good hv), ihh.2.1⟩⟩,
      ⟨trivial, ⟨noWN_textEl itemTag hi3 v, ihh.2.2⟩⟩⟩

theorem niceL_append {A B : List XmlNode} (hA : niceL A) (hB : niceL B) :
    niceL (A ++ B) := by
  induction A with
  | nil => simpa using hB
  | cons n A' ih =>
    simp only [niceL] at hA
    rw [List.cons_append]
    simp only [niceL]
    exact ⟨hA.1, ih hA.2⟩

theorem noWL_append {A B : List XmlNode} (hA : noWL A) (hB : noWL B) :
    noWL (A ++ B) := by
  induction A with
  | nil => simpa using hB
  | cons n A' ih =>
    simp only [noWL] at hA
    rw [List.cons_append]
    simp only [noWL]
    exact ⟨hA.1, ih hA.2⟩

theorem wfL_append_lastElem {A B : List XmlNode} (hA : wfL A) (hB : wfL B)
    (hAE : ∀ s, A.getLast? ≠ some (XmlNode.text s)) : wfL (A ++ B) := by
  induction A with
  | nil => simpa using hB
  | cons n A' ih =>
    simp only [wfL] at hA
    obtain ⟨h1, h2, h3⟩ := hA
    rw [List.cons_append]
    simp only [wfL]
    refine ⟨h1, ih h2 ?_, ?_⟩
    · intro s hs
      cases A' with
      | nil => simp at hs
      | cons m A'' =>
        apply hAE s
        rw [List.getLast?_cons_cons]
        exact hs
    · cases n with
      | elem t as cs => trivial
      | text s =>
        cases A' with
        | nil => exact absurd (by simp) (hAE s)
        | cons m A'' =>
          cases m with
          | text sm => exact (h3 : False).elim
          | elem t2 as2 cs2 => trivial

theorem preds_wrap (wrapTag : String) (h1 : validName wrapTag)
    (h2 : ∀ c ∈ wrapTag.data, goodChar c = true)
    (h3 : wrapTag.data.headD 'x' ≠ 'w')
    (itemTag : String) (hi1 : validName itemTag)
    (hi2 : ∀ c ∈ itemTag.data, goodChar c = true)
    (hi3 : itemTag.data.headD 'x' ≠ 'w')
    (vals : List String) (hvals : ∀ v ∈ vals, safeItem v = true) :
    wfN (XmlNode.elem wrapTag [] (itemNodes itemTag vals ++ [wsT "\n      "])) ∧
    niceN (XmlNode.elem wrapTag [] (itemNodes itemTag vals ++ [wsT "\n      "])) ∧
    noWN (XmlNode.elem wrapTag [] (itemNodes itemTag vals ++ [wsT "\n      "])) := by
  have hin := preds_itemNodes itemTag hi1 hi2 hi3 "\n      " (by decide) (by decide)
    vals hvals
  refine ⟨?_, ?_, ?_⟩
  · simp only [wfN]
    exact ⟨h1, by simp, hin.1⟩
  · simp only [niceN]
    exact ⟨h2, by simp, hin.2.1⟩
  · simp only [noWN]
    exact ⟨h3, hin.2.2⟩

theorem noWN_wsT (w : String) : noWN (wsT w) := by
  simp only [wsT, noWN]

theorem lastNotText_append {A B : List XmlNode}
    (hA : ∀ s, A.getLast? ≠ some (XmlNode.text s))
    (hB : ∀ s, B.getLast? ≠ some (XmlNode.text s)) (s : String) :
    (A ++ B).getLast? ≠ some (XmlNode.text s) := by
  cases B with
  | nil => rw [List.append_nil]; exact hA s
  | cons b B' => rw [List.getLast?_append_cons]; exact hB s

theorem preds_append {A B : List XmlNode}
    (hA : (wfL A ∧ niceL A ∧ noWL A) ∧ ∀ s, A.getLast? ≠ some (XmlNode.text s))
    (hB : (wfL B ∧ niceL B ∧ noWL B) ∧ ∀ s, B.getLast? ≠ some (XmlNode.text s)) :
    (wfL (A ++ B) ∧ niceL (A ++ B) ∧ noWL (A ++ B)) ∧
    ∀ s, (A ++ B).getLast? ≠ some (XmlNode.text s) :=
  ⟨⟨wfL_append_lastElem hA.1.1 hB.1.1 hA.2,
    niceL_append hA.1.2.1 hB.1.2.1,
    noWL_append hA.1.2.2 hB.1.2.2⟩,
   fun s => lastNotText_append hA.2 hB.2 s⟩

theorem preds_nil :
    (wfL ([] : List XmlNode) ∧ niceL [] ∧ noWL []) ∧
    ∀ s, ([] : List XmlNode).getLast? ≠ some (XmlNode.text s) := by
  refine ⟨⟨?_, ?_, ?_⟩, ?_⟩
  · simp only [wfL]
  · simp only [niceL]
  · simp only [noWL]
  · intro s hcon
    simp at hcon

theorem preds_pair (w : String) (hw1 : w ≠ "") (hw2 : ∀ c ∈ w.data, goodChar c = true)
    (n : XmlNode) (hn : wfN n ∧ niceN n ∧ noWN n)
    (hne : ∀ s, n ≠ XmlNode.text s) :
    (wfL [wsT w, n] ∧ niceL [wsT w, n] ∧ noWL [wsT w, n]) ∧
    ∀ s, ([wsT w, n]).getLast? ≠ some (XmlNode.text s) := by
  obtain ⟨hwf, hni, hnw⟩ := hn
  refine ⟨⟨?_, ?_, ?_⟩, ?_⟩
  · simp only [wfL]
    refine ⟨wfN_wsT w hw1 hw2, ⟨hwf, trivial, ?_⟩, ?_⟩
    · cases n <;> trivial
    · cases n with
      | text s' => exact absurd rfl (hne s')
      | elem t as cs => trivial
  · simp only [niceL]
    exact ⟨niceN_text_of_good hw2, hni, trivial⟩
  · simp only [noWL]
    exact ⟨noWN_wsT w, hnw, trivial⟩
  · intro s hcon
    rw [List.getLast?_cons_cons, List.getLast?_singleton] at hcon
    exact hne s (Option.some.inj hcon)

theorem preds_pageElemChildren (p : WikiPage) (h : canonicalPage p = true) :
    (wfL (pageElemChildren p) ∧ niceL (pageElemChildren p) ∧ noWL (pageElemChildren p)) := by
  obtain ⟨hid, hT, hD, hI, hF, hR, hP⟩ := canonicalPage_parts h
  have hImp : safeField (importanceNorm p.importance) = true := by
    rcases importanceNorm_cases p.importance with h1 | h1 | h1 <;> rw [h1] <;> decide
  have h6 : (wfL [wsT "\n      ", textEl "title" p.title,
        wsT "\n      ", textEl "description" p.description,
        wsT "\n      ", textEl "importance" (importanceNorm p.importance)] ∧
      niceL [wsT "\n      ", textEl "title" p.title,
        wsT "\n      ", textEl "description" p.description,
        wsT "\n      ", textEl "importance" (importanceNorm p.importance)] ∧
      noWL [wsT "\n      ", textEl "title" p.title,
        wsT "\n      ", textEl "description" p.description,
        wsT "\n      ", textEl "importance" (importanceNorm p.importance)]) ∧
      ∀ s', ([wsT "\n      ", textEl "title" p.title,
        wsT "\n      ", textEl "description" p.description,
        wsT "\n      ", textEl "importance" (importanceNorm p.importance)]).getLast? ≠
        some (XmlNode.text s') := by
    refine ⟨⟨?_, ?_, ?_⟩, ?_⟩
    · simp only [wfL]
      exact ⟨wfN_wsT _ (by decide) (by decide),
        ⟨wfN_textEl "title" ⟨by decide, by decide⟩ p.title hT,
          ⟨wfN_wsT _ (by decide) (by decide),
            ⟨wfN_textEl "description" ⟨by decide, by decide⟩ p.description hD,
              ⟨wfN_wsT _ (by decide) (by decide),
                ⟨wfN_textEl "importance" ⟨by decide, by decide⟩ _ hImp, trivial, trivial⟩,
                trivial⟩, trivial⟩, trivial⟩, trivial⟩, trivial⟩
    · simp only [niceL]
      exact ⟨niceN_text_of_good (by decide),
        niceN_textEl "title" (by decide) p.title (safeField_good hT),
        niceN_text_of_good (by decide),
        niceN_textEl "description" (by decide) p.description (safeField_good hD),
        niceN_text_of_good (by decide),
        niceN_textEl "importance" (by decide) _ (safeField_good hImp), trivial⟩
    · simp only [noWL]
      exact ⟨noWN_wsT _, noWN_textEl "title" (by decide) _,
        noWN_wsT _, noWN_textEl "description" (by decide) _,
        noWN_wsT _, noWN_textEl "importance" (by decide) _, trivial⟩
    · intro s' hcon
      simp only [List.getLast?_cons_cons, List.getLast?_singleton,
        Option.some.injEq] at hcon
      simp [textEl] at hcon
  have hS1 : (wfL (if p.filePaths.isEmpty then [] else
        [wsT "\n      ",
         XmlNode.elem "relevant_files" []
           (itemNodes "file_path" p.filePaths ++ [wsT "\n      "])]) ∧
      niceL (if p.filePaths.isEmpty then [] else
        [wsT "\n      ",
         XmlNode.elem "relevant_files" []
           (itemNodes "file_path" p.filePaths ++ [wsT "\n      "])]) ∧
      noWL (if p.filePaths.isEmpty then [] else
        [wsT "\n      ",
         XmlNode.elem "relevant_files" []
           (itemNodes "file_path" p.filePaths ++ [wsT "\n      "])])) ∧
      ∀ s', (if p.filePaths.isEmpty then [] else
        [wsT "\n      ",
         XmlNode.elem "relevant_files" []
           (itemNodes "file_path" p.filePaths ++ [wsT "\n      "])]).getLast? ≠
        some (XmlNode.text s') := by
    by_cases hc : p.filePaths.isEmpty = true
    · rw [if_pos hc]
      exact preds_nil
    · rw [if_neg hc]
      exact preds_pair _ (by decide) (by decide) _
        (preds_wrap "relevant_files" ⟨by decide, by decide⟩ (by decide) (by decide)
          "file_path" ⟨by decide, by decide⟩ (by decide) (by decide) p.filePaths hF)
        (fun s' => by simp)
  have hS2 : (wfL (if p.relatedPages.isEmpty then [] else
        [wsT "\n      ",
         XmlNode.elem "related_pages" []
           (itemNodes "related" p.relatedPages ++ [wsT "\n      "])]) ∧
      niceL (if p.relatedPages.isEmpty then [] else
        [wsT "\n      ",
         XmlNode.elem "related_pages" []
           (itemNodes "related" p.relatedPages ++ [wsT "\n      "])]) ∧
      noWL (if p.relatedPages.isEmpty then [] else
        [wsT "\n      ",
         XmlNode.elem "related_pages" []
           (itemNodes "related" p.relatedPages ++ [wsT "\n      "])])) ∧
      ∀ s', (if p.relatedPages.isEmpty then [] else
        [wsT "\n      ",
         XmlNode.elem "related_pages" []
           (itemNodes "related" p.relatedPages ++ [wsT "\n      "])]).getLast? ≠
        some (XmlNode.text s') := by
    by_cases hc : p.relatedPages.isEmpty = true
    · rw [if_pos hc]
      exact preds_nil
    · rw [if_neg hc]
      exact preds_pair _ (by decide) (by decide) _
        (preds_wrap "related_pages" ⟨by decide, by decide⟩ (by decide) (by decide)
          "related" ⟨by decide, by decide⟩ (by decide) (by decide) p.relatedPages hR)
        (fun s' => by simp)
  have hS3 : (wfL (if p.parent_section = "" then [] else
        [wsT "\n      ", textEl "parent_section" p.parent_section]) ∧
      niceL (if p.parent_section = "" then [] else
        [wsT "\n      ", textEl "parent_section" p.parent_section]) ∧
      noWL (if p.parent_section = "" then [] else
        [wsT "\n      ", textEl "parent_section" p.parent_section])) ∧
      ∀ s', (if p.parent_section = "" then [] else
        [wsT "\n      ", textEl "parent_section" p.parent_section]).getLast? ≠
        some (XmlNode.text s') := by
    by_cases hc : p.parent_section = ""
    · rw [if_pos hc]
      exact preds_nil
    · rw [if_neg hc]
      exact preds_pair _ (by decide) (by decide) _
        ⟨wfN_textEl "parent_section" ⟨by decide, by decide⟩ _ hP,
         niceN_textEl "parent_section" (by decide) _ (safeField_good hP),
         noWN_textEl "parent_section" (by decide) _⟩
        (fun s' => by simp [textEl])
  have hLast : wfL [wsT "\n    "] ∧ niceL [wsT "\n    "] ∧ noWL [wsT "\n    "] := by
    refine ⟨?_, ?_, ?_⟩
    · simp only [wfL]
      exact ⟨wfN_wsT _ (by decide) (by decide), trivial, trivial⟩
    · simp only [niceL]
      exact ⟨niceN_text_of_good (by decide), trivial⟩
    · simp only [noWL]
      exact ⟨noWN_wsT _, trivial⟩
  have hAll := preds_append (preds_append (preds_append h6 hS1) hS2) hS3
  unfold pageElemChildren
  exact ⟨wfL_append_lastElem hAll.1.1 hLast.1 hAll.2,
    niceL_append hAll.1.2.1 hLast.2.1,
    noWL_append hAll.1.2.2 hLast.2.2⟩

theorem preds_sectionElemChildren (sec : WikiSection) (h : canonicalSection sec = true) :
    (wfL (sectionElemChildren sec) ∧ niceL (sectionElemChildren sec) ∧
      noWL (sectionElemChildren sec)) := by
  obtain ⟨hid, hT, hPg, hSb⟩ := canonicalSection_parts h
  have h2 := preds_pair "\n      " (by decide) (by decide) (textEl "title" sec.title)
    ⟨wfN_textEl "title" ⟨by decide, by decide⟩ _ hT,
     niceN_textEl "title" (by decide) _ (safeField_good hT),
     noWN_textEl "title" (by decide) _⟩
    (fun s' => by simp [textEl])
  have hS1 : (wfL (if sec.pages.isEmpty then [] else
        [wsT "\n      ",
         XmlNode.elem "pages" [] (itemNodes "page_ref" sec.pages ++ [wsT "\n      "])]) ∧
      niceL (if sec.pages.isEmpty then [] else
        [wsT "\n      ",
         XmlNode.elem "pages" [] (itemNodes "page_ref" sec.pages ++ [wsT "\n      "])]) ∧
      noWL (if sec.pages.isEmpty then [] else
        [wsT "\n      ",
         XmlNode.elem "pages" [] (itemNodes "page_ref" sec.pages ++ [wsT "\n      "])])) ∧
      ∀ s', (if sec.pages.isEmpty then [] else
        [wsT "\n      ",
         XmlNode.elem "pages" []
           (itemNodes "page_ref" sec.pages ++ [wsT "\n      "])]).getLast? ≠
        some (XmlNode.text s') := by
    by_cases hc : sec.pages.isEmpty = true
    · rw [if_pos hc]
      exact preds_nil
    · rw [if_neg hc]
      exact preds_pair _ (by decide) (by decide) _
        (preds_wrap "pages" ⟨by decide, by decide⟩ (by decide) (by decide)
          "page_ref" ⟨by decide, by decide⟩ (by decide) (by decide) sec.pages hPg)
        (fun s' => by simp)
  have hS2 : (wfL (if sec.subsections.isEmpty then [] else
        [wsT "\n      ",
         XmlNode.elem "subsections" []
           (itemNodes "section_ref" sec.subsections ++ [wsT "\n      "])]) ∧
      niceL (if sec.subsections.isEmpty then [] else
        [wsT "\n      ",
         XmlNode.elem "subsections" []
           (itemNodes "section_ref" sec.subsections ++ [wsT "\n      "])]) ∧
      noWL (if sec.subsections.isEmpty then [] else
        [wsT "\n      ",
         XmlNode.elem "subsections" []
           (itemNodes "section_ref" sec.subsections ++ [wsT "\n      "])])) ∧
      ∀ s', (if sec.subsections.isEmpty then [] else
        [wsT "\n      ",
         XmlNode.elem "subsections" []
           (itemNodes "section_ref" sec.subsections ++ [wsT "\n      "])]).getLast? ≠
        some (XmlNode.text s') := by
    by_cases hc : sec.subsections.isEmpty = true
    · rw [if_pos hc]
      exact preds_nil
    · rw [if_neg hc]
      exact preds_pair _ (by decide) (by decide) _
        (preds_wrap "subsections" ⟨by decide, by decide⟩ (by decide) (by decide)
          "section_ref" ⟨by decide, by decide⟩ (by decide) (by decide)
          sec.subsections hSb)
        (fun s' => by simp)
  have hLast : wfL [wsT "\n    "] ∧ niceL [wsT "\n    "] ∧ noWL [wsT "\n    "] := by
    refine ⟨?_, ?_, ?_⟩
    · simp only [wfL]
      exact ⟨wfN_wsT _ (by decide) (by decide), trivial, trivial⟩
    · simp only [niceL]
      exact ⟨niceN_text_of_good (by decide), trivial⟩
    · simp only [noWL]
      exact ⟨noWN_wsT _, trivial⟩
  have hAll := preds_append (preds_append h2 hS1) hS2
  unfold sectionElemChildren
  exact ⟨wfL_append_lastElem hAll.1.1 hLast.1 hAll.2,
    niceL_append hAll.1.2.1 hLast.2.1,
    noWL_append hAll.1.2.2 hLast.2.2⟩

theorem preds_pageElem (p : WikiPage) (h : canonicalPage p = true) :
    wfN (pageElem p) ∧ niceN (pageElem p) ∧ noWN (pageElem p) := by
  obtain ⟨hid, hT, hD, hI, hF, hR, hP⟩ := canonicalPage_parts h
  have hch := preds_pageElemChildren p h
  rw [show pageElem p = XmlNode.elem "page" [("id", p.id)] (pageElemChildren p) from rfl]
  refine ⟨?_, ?_, ?_⟩
  · simp only [wfN]
    refine ⟨⟨by decide, by decide⟩, ?_, hch.1⟩
    intro q hq
    simp only [List.mem_singleton] at hq
    subst hq
    exact ⟨show validName "id" from ⟨by decide, by decide⟩,
      fun c hc => ⟨(attrGood_parts (hid c hc)).2.1, (attrGood_parts (hid c hc)).2.2⟩⟩
  · simp only [niceN]
    refine ⟨by decide, ?_, hch.2.1⟩
    intro q hq
    simp only [List.mem_singleton] at hq
    subst hq
    exact ⟨show ∀ c ∈ ("id" : String).data, goodChar c = true from by decide,
      fun c hc => (attrGood_parts (hid c hc)).1⟩
  · simp only [noWN]
    exact ⟨by decide, hch.2.2⟩

theorem preds_sectionElem (sec : WikiSection) (h : canonicalSection sec = true) :
    wfN (sectionElem sec) ∧ niceN (sectionElem sec) ∧ noWN (sectionElem sec) := by
  obtain ⟨hid, hT, hPg, hSb⟩ := canonicalSection_parts h
  have hch := preds_sectionElemChildren sec h
  rw [show sectionElem sec =
    XmlNode.elem "section" [("id", sec.id)] (sectionElemChildren sec) from rfl]
  refine ⟨?_, ?_, ?_⟩
  · simp only [wfN]
    refine ⟨⟨by decide, by decide⟩, ?_, hch.1⟩
    intro q hq
    simp only [List.mem_singleton] at hq
    subst hq
    exact ⟨show validName "id" from ⟨by decide, by decide⟩,
      fun c hc => ⟨(attrGood_parts (hid c hc)).2.1, (attrGood_parts (hid c hc)).2.2⟩⟩
  · simp only [niceN]
    refine ⟨by decide, ?_, hch.2.1⟩
    intro q hq
    simp only [List.mem_singleton] at hq
    subst hq
    exact ⟨show ∀ c ∈ ("id" : String).data, goodChar c = true from by decide,
      fun c hc => (attrGood_parts (hid c hc)).1⟩
  · simp only [noWN]
    exact ⟨by decide, hch.2.2⟩

theorem preds_pageForest (ps : List WikiPage) (h : ∀ p ∈ ps, canonicalPage p = true) :
    wfL (ps.flatMap (fun p => [wsT "\n    ", pageElem p]) ++ [wsT "\n  "]) ∧
    niceL (ps.flatMap (fun p => [wsT "\n    ", pageElem p]) ++ [wsT "\n  "]) ∧
    noWL (ps.flatMap (fun p => [wsT "\n    ", pageElem p]) ++ [wsT "\n  "]) := by
  induction ps with
  | nil =>
    simp only [List.flatMap_nil, List.nil_append]
    refine ⟨?_, ?_, ?_⟩
    · simp only [wfL]
      exact ⟨wfN_wsT _ (by decide) (by decide), trivial, trivial⟩
    · simp only [niceL]
      exact ⟨niceN_text_of_good (by decide), trivial⟩
    · simp only [noWL]
      exact ⟨noWN_wsT _, trivial⟩
  | cons p ps' ih =>
    have hp := preds_pageElem p (h p (by simp))
    have hih := ih (fun q hq => h q (by simp [hq]))
    simp only [List.flatMap_cons, List.append_assoc, List.cons_append, List.nil_append]
    refine ⟨?_, ?_, ?_⟩
    · simp only [wfL]
      exact ⟨wfN_wsT _ (by decide) (by decide), ⟨hp.1, hih.1, trivial⟩, trivial⟩
    · simp only [niceL]
      exact ⟨niceN_text_of_good (by decide), hp.2.1, hih.2.1⟩
    · simp only [noWL]
      exact ⟨noWN_wsT _, hp.2.2, hih.2.2⟩

theorem preds_sectionForest (secs : List WikiSection)
    (h : ∀ sec ∈ secs, canonicalSection sec = true) :
    wfL (secs.flatMap (fun sec => [wsT "\n    ", sectionElem sec]) ++ [wsT "\n  "]) ∧
    niceL (secs.flatMap (fun sec => [wsT "\n    ", sectionElem sec]) ++ [wsT "\n  "]) ∧
    noWL (secs.flatMap (fun sec => [wsT "\n    ", sectionElem sec]) ++ [wsT "\n  "]) := by
  induction secs with
  | nil =>
    simp only [List.flatMap_nil, List.nil_append]
    refine ⟨?_, ?_, ?_⟩
    · simp only [wfL]
      exact ⟨wfN_wsT _ (by decide) (by decide), trivial, trivial⟩
    · simp only [niceL]
      exact ⟨niceN_text_of_good (by decide), trivial⟩
    · simp only [noWL]
      exact ⟨noWN_wsT _, trivial⟩
  | cons sec secs' ih =>
    have hs := preds_sectionElem sec (h sec (by simp))
    have hih := ih (fun q hq => h q (by simp [hq]))
    simp only [List.flatMap_cons, List.append_assoc, List.cons_append, List.nil_append]
    refine ⟨?_, ?_, ?_⟩
    · simp only [wfL]
      exact ⟨wfN_wsT _ (by decide) (by decide), ⟨hs.1, hih.1, trivial⟩, trivial⟩
    · simp only [niceL]
      exact ⟨niceN_text_of_good (by decide), hs.2.1, hih.2.1⟩
    · simp only [noWL]
      exact ⟨noWN_wsT _, hs.2.2, hih.2.2⟩

theorem canonicalStructure_parts {s : WikiStructure} (h : canonicalStructure s = true) :
    safeField s.title = true ∧ safeField s.description = true ∧
    (∀ p ∈ s.pages, canonicalPage p = true) ∧
    (∀ sec ∈ s.sections, canonicalSection sec = true) := by
  unfold canonicalStructure at h
  simp only [Bool.and_eq_true, List.all_eq_true] at h
  obtain ⟨⟨⟨h1, h2⟩, h3⟩, h4⟩ := h
  exact ⟨h1, h2, h3, h4⟩

theorem preds_expectedChildren (s : WikiStructure) (h : canonicalStructure s = true) :
    wfL (expectedChildren s) ∧ niceL (expectedChildren s) ∧ noWL (expectedChildren s) := by
  obtain ⟨hT, hD, hPs, hSs⟩ := canonicalStructure_parts h
  have h4 : (wfL [wsT "\n  ", textEl "title" s.title,
        wsT "\n  ", textEl "description" s.description] ∧
      niceL [wsT "\n  ", textEl "title" s.title,
        wsT "\n  ", textEl "description" s.description] ∧
      noWL [wsT "\n  ", textEl "title" s.title,
        wsT "\n  ", textEl "description" s.description]) ∧
      ∀ s', ([wsT "\n  ", textEl "title" s.title,
        wsT "\n  ", textEl "description" s.description]).getLast? ≠
        some (XmlNode.text s') := by
    refine ⟨⟨?_, ?_, ?_⟩, ?_⟩
    · simp only [wfL]
      exact ⟨wfN_wsT _ (by decide) (by decide),
        ⟨wfN_textEl "title" ⟨by decide, by decide⟩ s.title hT,
          ⟨wfN_wsT _ (by decide) (by decide),
            ⟨wfN_textEl "description" ⟨by decide, by decide⟩ s.description hD,
              trivial, trivial⟩, trivial⟩, trivial⟩, trivial⟩
    · simp only [niceL]
      exact ⟨niceN_text_of_good (by decide),
        niceN_textEl "title" (by decide) s.title (safeField_good hT),
        niceN_text_of_good (by decide),
        niceN_textEl "description" (by decide) s.description (safeField_good hD),
        trivial⟩
    · simp only [noWL]
      exact ⟨noWN_wsT _, noWN_textEl "title" (by decide) _,
        noWN_wsT _, noWN_textEl "description" (by decide) _, trivial⟩
    · intro s' hcon
      simp only [List.getLast?_cons_cons, List.getLast?_singleton,
        Option.some.injEq] at hcon
      simp [textEl] at hcon
  have hSec : (wfL (if s.sections.isEmpty then [] else
        [wsT "\n  ",
         XmlNode.elem "sections" []
           (s.sections.flatMap (fun sec => [wsT "\n    ", sectionElem sec]) ++
             [wsT "\n  "])]) ∧
      niceL (if s.sections.isEmpty then [] else
        [wsT "\n  ",
         XmlNode.elem "sections" []
           (s.sections.flatMap (fun sec => [wsT "\n    ", sectionElem sec]) ++
             [wsT "\n  "])]) ∧
      noWL (if s.sections.isEmpty then [] else
        [wsT "\n  ",
         XmlNode.elem "sections" []
           (s.sections.flatMap (fun sec => [wsT "\n    ", sectionElem sec]) ++
             [wsT "\n  "])])) ∧
      ∀ s', (if s.sections.isEmpty then [] else
        [wsT "\n  ",
         XmlNode.elem "sections" []
           (s.sections.flatMap (fun sec => [wsT "\n    ", sectionElem sec]) ++
             [wsT "\n  "])]).getLast? ≠ some (XmlNode.text s') := by
    by_cases hc : s.sections.isEmpty = true
    · rw [if_pos hc]
      exact preds_nil
    · rw [if_neg hc]
      have hfor := preds_sectionForest s.sections hSs
      refine preds_pair _ (by decide) (by decide) _ ⟨?_, ?_, ?_⟩ (fun s' => by simp)
      · simp only [wfN]
        exact ⟨⟨by decide, by decide⟩, by simp, hfor.1⟩
      · simp only [niceN]
        exact ⟨by decide, by simp, hfor.2.1⟩
      · simp only [noWN]
        exact ⟨by decide, hfor.2.2⟩
  have hfp := preds_pageForest s.pages hPs
  have hPagesElem : wfN (XmlNode.elem "pages" []
        (s.pages.flatMap (fun p => [wsT "\n    ", pageElem p]) ++ [wsT "\n  "])) ∧
      niceN (XmlNode.elem "pages" []
        (s.pages.flatMap (fun p => [wsT "\n    ", pageElem p]) ++ [wsT "\n  "])) ∧
      noWN (XmlNode.elem "pages" []
        (s.pages.flatMap (fun p => [wsT "\n    ", pageElem p]) ++ [wsT "\n  "])) := by
    refine ⟨?_, ?_, ?_⟩
    · simp only [wfN]
      exact ⟨⟨by decide, by decide⟩, by simp, hfp.1⟩
    · simp only [niceN]
      exact ⟨by decide, by simp, hfp.2.1⟩
    · simp only [noWN]
      exact ⟨by decide, hfp.2.2⟩
  have hLast : wfL [wsT "\n  ",
        XmlNode.elem "pages" []
          (s.pages.flatMap (fun p => [wsT "\n    ", pageElem p]) ++ [wsT "\n  "]),
        wsT "\n"] ∧
      niceL [wsT "\n  ",
        XmlNode.elem "pages" []
          (s.pages.flatMap (fun p => [wsT "\n    ", pageElem p]) ++ [wsT "\n  "]),
        wsT "\n"] ∧
      noWL [wsT "\n  ",
        XmlNode.elem "pages" []
          (s.pages.flatMap (fun p => [wsT "\n    ", pageElem p]) ++ [wsT "\n  "]),
        wsT "\n"] := by
    refine ⟨?_, ?_, ?_⟩
    · simp only [wfL]
      exact ⟨wfN_wsT _ (by decide) (by decide),
        ⟨hPagesElem.1, ⟨wfN_wsT _ (by decide) (by decide), trivial, trivial⟩, trivial⟩,
        trivial⟩
    · simp only [niceL]
      exact ⟨niceN_text_of_good (by decide), hPagesElem.2.1,
        niceN_text_of_good (by decide), trivial⟩
    · simp only [noWL]
      exact ⟨noWN_wsT _, hPagesElem.2.2, noWN_wsT _, trivial⟩
  have hAll := preds_append h4 hSec
  unfold expectedChildren
  exact ⟨wfL_append_lastElem hAll.1.1 hLast.1 hAll.2,
    niceL_append hAll.1.2.1 hLast.2.1,
    noWL_append hAll.1.2.2 hLast.2.2⟩

theorem preds_expectedTree (s : WikiStructure) (h : canonicalStructure s = true) :
    wfN (expectedTree s) ∧ niceN (expectedTree s) := by
  have hch := preds_expectedChildren s h
  rw [show expectedTree s =
    XmlNode.elem "wiki_structure" [] (expectedChildren s) from rfl]
  constructor
  · simp only [wfN]
    exact ⟨⟨by decide, by decide⟩, by simp, hch.1⟩
  · simp only [niceN]
    exact ⟨by decide, by simp, hch.2.1⟩

/-! ## Claim theorems -/

/-- C7 counterexample: in `"A [x]"` the identifier `A` is separated from its
bracket by a space.  The code (whose regex has `\s*` between the identifier and
the bracket) counts it, so `_count_mermaid_nodes` returns 1, while the claim's
"identifier ... immediately followed by one of `[ ( { <`" counts nothing. -/
theorem C7_counterexample :
    countMermaidNodes "A [x]" = 1 ∧ specMermaidCount false "A [x]" = 0 := by
  exact ⟨by decide, by decide⟩

/-- C7 (amended): `_count_mermaid_nodes source` equals the number of distinct
identifiers in `source` that occur at a word boundary followed — possibly
after whitespace — by one of `[ ( { <`, after discarding identifiers that
exactly match the fixed keyword set. -/
theorem C7_count_nodes (src : String) :
    countMermaidNodes src = specMermaidCount true src := by
  unfold countMermaidNodes specMermaidCount
  rw [mermaidMatches_eq_specIds]

/-- C4: `_validate_simplified simplified full` accepts exactly when
`count_nodes simplified ≤ count_nodes full` (equality accepted), and when a
block validates to a record carrying both a non-empty full and a non-empty
simplified source that fails this check, the record is kept with only its
`simplifiedMermaidSource` field set to `None`. -/
theorem C4_validate_simplified :
    (∀ s f : String, validateSimplified s f = true ↔
        countMermaidNodes s ≤ countMermaidNodes f) ∧
    (∀ (b : List Char) (j : Json) (d : DiagramData) (s : String),
        jsonLoads b = some j →
        validateDiagramData j = some d →
        d.simplifiedMermaidSource = some s →
        s ≠ "" →
        d.mermaidSource ≠ "" →
        validateSimplified s d.mermaidSource = false →
        processBlock b = some { d with simplifiedMermaidSource := none }) := by
  constructor
  · intro s f
    unfold validateSimplified
    split <;> simp <;> omega
  · intro b j d s hj hv hs hsne hmne hfail
    simp only [processBlock, hj, hv, fixSimplified, hs]
    rw [if_pos (by simp [hsne, hmne]), if_neg (by simp [hfail])]

set_option maxRecDepth 4000 in
/-- Witness for C4 at the spec's own example: full `"graph TD\n A[X]"` has 1
node, the claimed simplification has 3, so the record survives with the
simplified field nulled. -/
theorem C4_witness :
    validateSimplified "graph TD\n A[X] --> B[Y] --> C[Z]" "graph TD\n A[X]" = false ∧
    processBlock ("\x7b\"nodes\": [], \"edges\": [], \"mermaidSource\": \"graph TD\\n A[X]\", \"simplifiedMermaidSource\": \"graph TD\\n A[X] --> B[Y] --> C[Z]\"\x7d".data) =
      some { nodes := [], edges := [], mermaidSource := "graph TD\n A[X]",
             diagramType := "flowchart", layerLevel := none,
             simplifiedMermaidSource := none } :=
  ⟨by decide,
   C4_validate_simplified.2 _
     (Json.obj [("nodes", Json.arr []), ("edges", Json.arr []),
       ("mermaidSource", Json.str "graph TD\n A[X]"),
       ("simplifiedMermaidSource", Json.str "graph TD\n A[X] --> B[Y] --> C[Z]")])
     { nodes := [], edges := [], mermaidSource := "graph TD\n A[X]",
       diagramType := "flowchart", layerLevel := none,
       simplifiedMermaidSource := some "graph TD\n A[X] --> B[Y] --> C[Z]" }
     "graph TD\n A[X] --> B[Y] --> C[Z]"
     (by rfl) (by decide) (by rfl) (by decide) (by decide) (by decide)⟩

set_option maxRecDepth 8000 in
/-- C3: `extract_diagram_data` is a total function whose result is exactly the
in-source-order list of delimited blocks that parse and validate (each invalid
block is dropped without affecting the others); on a content string with one
malformed block followed by one well-formed block it returns exactly the one
well-formed record. -/
theorem C3_extract_total_order :
    (∀ content : String,
        extract_diagram_data content =
          (diagramBlocks content.data).filterMap processBlock) ∧
    extract_diagram_data
        "intro <!-- DIAGRAM_DATA_START --> \x7bbroken json <!-- DIAGRAM_DATA_END --> middle <!-- DIAGRAM_DATA_START --> \x7b\"nodes\": [], \"edges\": [], \"mermaidSource\": \"graph TD\"\x7d <!-- DIAGRAM_DATA_END --> outro" =
      [{ nodes := [], edges := [], mermaidSource := "graph TD",
         diagramType := "flowchart", layerLevel := none,
         simplifiedMermaidSource := none }] := by
  constructor
  · intro content
    unfold extract_diagram_data
    rw [extract_foldl_filterMap]
    rfl
  · decide

/-- C9: the sanitizer escapes a bare `&` that is not part of a recognized
entity, so a block containing `<title>Cats & Dogs</title>` parses and the
title round-trips as `"Cats & Dogs"` (with the page inside intact). -/
theorem C9_ampersand_repair :
    (parse_xml "<wiki_structure><title>Cats & Dogs</title><pages><page id=\"p1\"><title>T</title></page></pages></wiki_structure>").toOption.map
        (fun r => (r.title, r.pages.map WikiPage.title)) =
      some ("Cats & Dogs", ["T"]) := by
  decide

/-- C2 counterexample: on `<wiki_structure><pages></pages></wiki_structure>`
the XML strategy returns a structure with zero pages without raising, so it
contributes no reason; the aggregated message has no `XML:` part, refuting
"the raised error's message contains ... in the form `XML: …; JSON: …;
Regex: …`". -/
theorem C2_counterexample :
    parse_wiki_structure "<wiki_structure><pages></pages></wiki_structure>" =
      Except.error "All wiki structure parsing strategies failed. Errors: JSON: No JSON object found in response; Regex: Regex extraction found no pages" ∧
    splitFirst "XML:".data
        "All wiki structure parsing strategies failed. Errors: JSON: No JSON object found in response; Regex: Regex extraction found no pages".data = none := by
  exact ⟨by decide, by decide⟩

/-- C2 (amended): `parse_wiki_structure` succeeds exactly when one of the
three strategies yields a structure with at least one page; the aggregated
`ValueError` is the only error it raises, and its message joins — with `; ` —
the reasons of exactly those strategies that raised (a strategy returning a
structure with an empty page list contributes no reason).  On `""` and on
`"random prose, no markup"` all three strategies raise, giving the full
`XML: …; JSON: …; Regex: …` form. -/
theorem C2_parse_failure :
    (∀ raw : String,
        (parse_wiki_structure raw).isOk =
          ((stratSuccess (parse_xml ((stripFencesChars raw.data).asString))).isSome ||
           (stratSuccess (parse_json ((stripFencesChars raw.data).asString))).isSome ||
           (stratSuccess (parse_regex ((stripFencesChars raw.data).asString))).isSome)) ∧
    (∀ raw m : String, parse_wiki_structure raw = Except.error m →
        m = aggregatedFailureMessage raw) ∧
    parse_wiki_structure "" =
      Except.error "All wiki structure parsing strategies failed. Errors: XML: No <wiki_structure> XML block found in response; JSON: No JSON object found in response; Regex: Regex extraction found no pages" ∧
    parse_wiki_structure "random prose, no markup" =
      Except.error "All wiki structure parsing strategies failed. Errors: XML: No <wiki_structure> XML block found in response; JSON: No JSON object found in response; Regex: Regex extraction found no pages" :=
  ⟨parse_wiki_structure_isOk, parse_wiki_structure_error_msg, by decide, by decide⟩

/-- Witness for C2 at the concrete input `""`. -/
theorem C2_witness :
    ("All wiki structure parsing strategies failed. Errors: XML: No <wiki_structure> XML block found in response; JSON: No JSON object found in response; Regex: Regex extraction found no pages" : String) =
      aggregatedFailureMessage "" :=
  C2_parse_failure.2.1 "" _ (by decide)

/-- C5: whenever the fence-stripped input contains a well-formed
`<wiki_structure>` block (the XML strategy succeeds with at least one page),
`parse_wiki_structure` returns the XML strategy's structure — in particular
also when the same text carries an embedded JSON object that the JSON
strategy would accept. -/
theorem C5_xml_wins (text : String) (sx sj : WikiStructure)
    (hx : parse_xml ((stripFencesChars text.data).asString) = Except.ok sx)
    (hpx : sx.pages ≠ [])
    (_hj : parse_json ((stripFencesChars text.data).asString) = Except.ok sj)
    (_hpj : sj.pages ≠ []) :
    parse_wiki_structure text = Except.ok sx := by
  simp only [parse_wiki_structure, hx, stratSuccess_ok_of_pages hpx]

/-- Witness for C5: a text carrying both a well-formed XML block and a
wiki-looking JSON object; the XML structure (id `x1`) wins over the JSON one
(id `j1`). -/
theorem C5_witness :
    parse_wiki_structure "<wiki_structure><title>X</title><pages><page id=\"x1\"><title>XT</title></page></pages></wiki_structure> and \x7b\"title\": \"J\", \"pages\": [\x7b\"id\": \"j1\", \"title\": \"JT\"\x7d]\x7d" =
      Except.ok
        { title := "X", description := "",
          pages := [{ id := "x1", title := "XT", description := "",
                      filePaths := [], importance := "medium", relatedPages := [],
                      content := "", parent_section := "" }],
          sections := [], rootSections := [] } :=
  C5_xml_wins _ _
    { title := "J", description := "",
      pages := [{ id := "j1", title := "JT", description := "",
                  filePaths := [], importance := "medium", relatedPages := [],
                  content := "", parent_section := "" }],
      sections := [], rootSections := [] }
    (by decide) (by decide) (by decide) (by decide)

/-- C6 counterexample: the source supplies `rootSections: []`; since `[]` is
falsy and sections exist, the JSON strategy recomputes and returns `["A"]`
instead of trusting the supplied empty list. -/
theorem C6_counterexample :
    jget [("pages", Json.arr [Json.obj [("id", Json.str "p1")]]),
          ("sections", Json.arr [Json.obj [("id", Json.str "A")]]),
          ("rootSections", Json.arr [])] "rootSections" = some (Json.arr []) ∧
    (normalizeJsonStructure
        [("pages", Json.arr [Json.obj [("id", Json.str "p1")]]),
         ("sections", Json.arr [Json.obj [("id", Json.str "A")]]),
         ("rootSections", Json.arr [])]).map WikiStructure.rootSections =
      some ["A"] ∧
    (["A"] : List String) ≠ [] := by
  exact ⟨rfl, by decide, by decide⟩

/-- C6 (amended): the computed `rootSections` are exactly the declared section
ids that occur in no section's `subsections` list (for `A→[B]`, `B→[]`,
`C→[]` that is `[A, C]`), and the JSON strategy trusts a supplied
`rootSections`/`root_sections` value only when it is truthy: a falsy supplied
value (such as `[]`) is replaced by the computed roots whenever sections
exist. -/
theorem C6_root_sections :
    (∀ sections : List WikiSection,
        computeRootSections sections =
          (sections.filter
            (fun s => decide (∀ t ∈ sections, s.id ∉ t.subsections))).map
            (fun s => s.id)) ∧
    computeRootSections
        [{ id := "A", title := "", pages := [], subsections := ["B"] },
         { id := "B", title := "", pages := [], subsections := [] },
         { id := "C", title := "", pages := [], subsections := [] }] = ["A", "C"] ∧
    (∀ (obj : List (String × Json)) (st : WikiStructure),
        containsKey obj "wiki_structure" = false →
        normalizeJsonStructure obj = some st →
        st.rootSections =
          (if !jTruthy (suppliedRootSections obj) && !st.sections.isEmpty
           then computeRootSections st.sections
           else jsonValToStrList (suppliedRootSections obj))) := by
  refine ⟨computeRootSections_eq, by decide, ?_⟩
  intro obj st hck hnorm
  simp only [normalizeJsonStructure, jget_none hck] at hnorm
  split at hnorm
  · exact Option.noConfusion hnorm
  · split at hnorm
    · exact Option.noConfusion hnorm
    · injection hnorm with h
      subst h
      rfl

/-- Witness for C6 at a source that supplies a truthy `rootSections` value. -/
theorem C6_witness :
    normalizeJsonStructure
        [("pages", Json.arr [Json.obj [("id", Json.str "p1")]]),
         ("sections", Json.arr [Json.obj [("id", Json.str "A")]]),
         ("rootSections", Json.arr [Json.str "Z"])] =
      some
        { title := "", description := "",
          pages := [{ id := "p1", title := "", description := "", filePaths := [],
                      importance := "medium", relatedPages := [], content := "",
                      parent_section := "" }],
          sections := [{ id := "A", title := "", pages := [], subsections := [] }],
          rootSections := ["Z"] } ∧
    (["Z"] : List String) =
      (if !jTruthy (suppliedRootSections
            [("pages", Json.arr [Json.obj [("id", Json.str "p1")]]),
             ("sections", Json.arr [Json.obj [("id", Json.str "A")]]),
             ("rootSections", Json.arr [Json.str "Z"])]) &&
          !([{ id := "A", title := "", pages := [], subsections := [] }] :
              List WikiSection).isEmpty
       then computeRootSections [{ id := "A", title := "", pages := [], subsections := [] }]
       else jsonValToStrList (suppliedRootSections
            [("pages", Json.arr [Json.obj [("id", Json.str "p1")]]),
             ("sections", Json.arr [Json.obj [("id", Json.str "A")]]),
             ("rootSections", Json.arr [Json.str "Z"])])) :=
  ⟨by decide,
   C6_root_sections.2.2
     [("pages", Json.arr [Json.obj [("id", Json.str "p1")]]),
      ("sections", Json.arr [Json.obj [("id", Json.str "A")]]),
      ("rootSections", Json.arr [Json.str "Z"])]
     { title := "", description := "",
       pages := [{ id := "p1", title := "", description := "", filePaths := [],
                   importance := "medium", relatedPages := [], content := "",
                   parent_section := "" }],
       sections := [{ id := "A", title := "", pages := [], subsections := [] }],
       rootSections := ["Z"] }
     (by decide) (by decide)⟩

/-- C8 counterexample: the regex strategy's page pattern requires an explicit
`id="…"` attribute, so a page that omits its id is not extracted at all — it
is never assigned `page-1`; with no other page the strategy errors out. -/
theorem C8_counterexample :
    parse_regex "<wiki_structure><pages><page><title>A</title></page></pages></wiki_structure>" =
      Except.error "Regex extraction found no pages" := by
  decide

/-- C8 (amended): the XML strategy assigns `page-{n}` (n = 1-based position
among the parsed page elements) when the `id` attribute is absent; the JSON
strategy assigns `page-{i+1}` (i = 0-based index in the raw pages array) when
the `id` key is absent; the regex strategy never assigns a default — the ids
of its pages are exactly the captured `id` attributes. -/
theorem C8_default_page_ids :
    (∀ (fuel : Nat) (els : List XmlNode) (k : Nat),
        ((xmlPagesGo fuel els 0)[k]?).map WikiPage.id =
          (els[k]?).map (fun el =>
            match etGetAttr el "id" with
            | some v => v
            | none => "page-" ++ toString (k + 1))) ∧
    (∀ (raw : List (String × Json)) (i : Nat) (p : WikiPage),
        normalizePage raw i = some p → jget raw "id" = none →
        p.id = "page-" ++ toString (i + 1)) ∧
    (∀ (text : String) (st : WikiStructure), parse_regex text = Except.ok st →
        st.pages.map WikiPage.id =
          (reTagIdMatches
            ((match reFirstCapture wikiOpenTag wikiCloseTag text.data with
              | some mid => mid
              | none => text.data).length + 1)
            "<page".data "</page>".data
            (match reFirstCapture wikiOpenTag wikiCloseTag text.data with
             | some mid => mid
             | none => text.data)).map Prod.fst) := by
  refine ⟨?_, normalizePage_default_id, ?_⟩
  · intro fuel els k
    rw [xmlPagesGo_getElem fuel els 0 k]
    cases h : els[k]? with
    | none => rfl
    | some el =>
      cases ha : etGetAttr el "id" with
      | none => simp [xmlPageOf, ha, Nat.zero_add]
      | some v => simp [xmlPageOf, ha]
  · intro text st h
    simp only [parse_regex] at h
    split at h
    · exact Except.noConfusion h
    · injection h with h'
      subst h'
      simp only [List.map_map]
      rfl

/-- Witness for C8 at the JSON strategy: a page object without `id` at raw
index 1 gets `page-2`. -/
theorem C8_witness :
    normalizePage [("title", Json.str "T")] 1 =
      some { id := "page-2", title := "T", description := "", filePaths := [],
             importance := "medium", relatedPages := [], content := "",
             parent_section := "" } ∧
    jget [("title", Json.str "T")] "id" = none ∧
    ({ id := "page-2", title := "T", description := "", filePaths := [],
       importance := "medium", relatedPages := [], content := "",
       parent_section := "" } : WikiPage).id = "page-" ++ toString (1 + 1) :=
  ⟨by decide, rfl,
   C8_default_page_ids.2.1 [("title", Json.str "T")] 1 _ (by decide) rfl⟩

/-- C10: in the JSON strategy, a `pages`/`sections` entry that is not an
object is skipped silently (it produces nothing and raises nothing) while
still consuming its index, so a later id-less page is numbered by its raw
array index: `["junk", (page without id)]` yields exactly one page with id
`page-2`. -/
theorem C10_json_entry_skipping :
    (∀ (v : Json) (xs : List Json) (i : Nat), (∀ kvs, v ≠ Json.obj kvs) →
        normalizePagesList (v :: xs) i = normalizePagesList xs (i + 1)) ∧
    (∀ (v : Json) (xs : List Json) (i : Nat), (∀ kvs, v ≠ Json.obj kvs) →
        normalizeSectionsList (v :: xs) i = normalizeSectionsList xs (i + 1)) ∧
    (∀ (raw : List (String × Json)) (i : Nat) (p : WikiPage),
        normalizePage raw i = some p → jget raw "id" = none →
        p.id = "page-" ++ toString (i + 1)) ∧
    (normalizeJsonStructure
        [("pages", Json.arr [Json.str "junk", Json.obj [("title", Json.str "T")]])]).map
        (fun st => st.pages.map WikiPage.id) = some ["page-2"] := by
  refine ⟨?_, ?_, normalizePage_default_id, by decide⟩
  · intro v xs i hv
    cases v with
    | obj kvs => exact absurd rfl (hv kvs)
    | null => rfl
    | bool b => rfl
    | num m e => rfl
    | str s => rfl
    | arr a => rfl
  · intro v xs i hv
    cases v with
    | obj kvs => exact absurd rfl (hv kvs)
    | null => rfl
    | bool b => rfl
    | num m e => rfl
    | str s => rfl
    | arr a => rfl

/-- Witness for C10: skipping `"junk"` at index 0 shifts nothing — the next
page still gets its raw index 1. -/
theorem C10_witness :
    normalizePagesList [Json.str "junk", Json.obj [("title", Json.str "T")]] 0 =
      normalizePagesList [Json.obj [("title", Json.str "T")]] 1 :=
  C10_json_entry_skipping.1 (Json.str "junk") [Json.obj [("title", Json.str "T")]] 0
    (fun _ h => Json.noConfusion h)

/-- C1 (amended): for every structure in the class `canonicalStructure` —
importance among high/medium/low; every text field (titles, descriptions,
parent sections, list items) whitespace-trimmed and containing neither a
character of the sanitizer's removal class nor a carriage return; every id
made of characters outside the removal class and none of tab, newline or
carriage return; and every file-path, related-page, page-ref and
subsection-ref item nonempty — the XML strategy parses the serializer's
output back to the structure: pages agree on id, title, description,
importance, file paths, related pages and parent section (with `content`
cleared), sections are reproduced verbatim, and root sections are
recomputed; no duplicate-id assumption is needed.  Each strengthening
beyond the claim's wording is necessary: `C1_counterexample` exhibits the
failures for an empty list item, a carriage return in a page description
(the XML parser's newline normalisation turns `\r\n` into `\n`) and a tab
in an id (attribute-value normalisation turns it into a space). -/
theorem C1_serializer_roundtrip (s : WikiStructure)
    (h : canonicalStructure s = true) :
    parse_xml (convert_json_to_xml s) = Except.ok (roundtripOf s) := by
  obtain ⟨hT, hD, hPs, hSs⟩ := canonicalStructure_parts h
  have hwfnice := preds_expectedTree s h
  have hch := preds_expectedChildren s h
  have hdata : (convert_json_to_xml s).data = renderN (expectedTree s) := by
    unfold convert_json_to_xml
    rw [asString_data]
    exact joinConvert_eq_render s
  have hgood : ∀ c ∈ renderN (expectedTree s), goodChar c = true :=
    (render_good (weightN (expectedTree s))).1 "wiki_structure" [] (expectedChildren s)
      hwfnice.2 (Nat.le_refl _)
  have hncw : noCloseW (renderL (expectedChildren s)) = true := by
    have h0 : noCloseW ([] : List Char) = true := rfl
    have hx := (render_noCloseW (weightL (expectedChildren s))).2 (expectedChildren s)
      hch.1 hch.2.2 (Nat.le_refl _) [] h0
    rwa [List.append_nil] at hx
  have hamp : ampClosed (renderN (expectedTree s)) = true := by
    have h0 : ampClosed ([] : List Char) = true := rfl
    have hx := (render_ampClosed (weightN (expectedTree s))).1 "wiki_structure" []
      (expectedChildren s) hwfnice.1 (Nat.le_refl _) [] h0
    rwa [List.append_nil] at hx
  have hfind := findWikiBlock_render s hncw
  have hfrom := etFromstring_render s hwfnice.1 hgood
  have hclean : fixAmpersands (removeCtrlChars (renderN (expectedTree s))) =
      renderN (expectedTree s) := by
    rw [removeCtrl_id hgood, fixAmps_id hamp]
  have hlen : 5 ≤ (renderN (expectedTree s)).length + 1 := by
    have hlen1 := congrArg List.length (renderTop_shape s)
    simp only [List.length_append] at hlen1
    have h1 : wikiOpenTag.length = 16 := rfl
    omega
  have hTi : etTextOf (expectedTree s) "title" = s.title := by
    rw [show expectedTree s =
      XmlNode.elem "wiki_structure" [] (expectedChildren s) from rfl]
    exact etTextOf_elem_found _ _ _ _ _ (etChild_root_title s) (safeField_strip hT)
  have hDe : etTextOf (expectedTree s) "description" = s.description := by
    rw [show expectedTree s =
      XmlNode.elem "wiki_structure" [] (expectedChildren s) from rfl]
    exact etTextOf_elem_found _ _ _ _ _ (etChild_root_description s) (safeField_strip hD)
  simp only [parse_xml, hdata, hfind, hclean, hfrom]
  rw [etIter_root_page _ hlen s, etIter_root_section _ hlen s,
    xmlPagesGo_map _ (by omega) s.pages hPs 0, xmlSectionsGo_map _ (by omega) s.sections hSs 0,
    hTi, hDe]
  rfl

/-- Counterexamples to C1 as stated, and to weaker amendments: all three
structures meet the claim's stated precondition (trimmed fields, valid
importance, no duplicate ids), yet (i) `c1badS`'s file paths `[""]` come
back as `[]` — the ET walk's `if fp.text` filter drops the empty text;
(ii) `c1crS`'s page description `"a\r\nb"` comes back as `"a\nb"` — the
XML parser normalises `\r\n` to `\n`; (iii) `c1tabS`'s page id `"a\tb"`
comes back as `"a b"` — XML attribute-value normalisation replaces the
tab by a space. -/
theorem C1_counterexample :
    (claimedCanonical c1badS = true ∧
      (parse_xml (convert_json_to_xml c1badS)).map
          (fun st => st.pages.map WikiPage.filePaths) ≠
        Except.ok (c1badS.pages.map WikiPage.filePaths)) ∧
    (claimedCanonical c1crS = true ∧
      (parse_xml (convert_json_to_xml c1crS)).map
          (fun st => st.pages.map WikiPage.description) =
        Except.ok ["a\nb"] ∧
      c1crS.pages.map WikiPage.description = ["a\r\nb"]) ∧
    (claimedCanonical c1tabS = true ∧
      (parse_xml (convert_json_to_xml c1tabS)).map
          (fun st => st.pages.map WikiPage.id) =
        Except.ok ["a b"] ∧
      c1tabS.pages.map WikiPage.id = ["a\tb"]) := by
  refine ⟨⟨?_, ?_⟩, ⟨?_, ?_, ?_⟩, ⟨?_, ?_, ?_⟩⟩
  all_goals decide

/-- Witness for C1: the round-trip at a concrete canonical structure with
two pages and one section. -/
theorem C1_witness :
    canonicalStructure c1exS = true ∧
    parse_xml (convert_json_to_xml c1exS) = Except.ok (roundtripOf c1exS) :=
  ⟨by decide, C1_serializer_roundtrip c1exS (by decide)⟩

end BCW
